import Mathlib

/-!
# Palm Database (PDB) access library: `palmpdb.c` / `palmpdb.h`

A shallow embedding of the PDB library and proofs about its file codec
(`PDB_WriteFile`, `PDB_ReadFile`) and its in-memory mutators.

## Conventions of the embedding

* A byte is a natural number; a file, a buffer and a `char` array are lists
  of bytes.
* `unsigned int`, `uint32_t`, `uint16_t` and `uint8_t` values are natural
  numbers, reduced modulo `2^32`, `2^16`, `2^8` wherever the C code stores
  into a variable of that type.
* A C (pointer, length) pair such as `data`/`length` of a record,
  `app_info_block`/`app_info_length` and `records`/`num_records` is the list
  of the `length` elements the pointer addresses; a NULL pointer with length
  zero is the empty list.  The library never tests those pointers against
  NULL (it tests the lengths), so nothing observable is lost.
* The host byte order selected by `#if (BYTE_ORDER == LITTLE_ENDIAN)` is the
  Boolean parameter `le`.
* `malloc` results are parameters: `none` is a NULL return, `some g` a
  successful allocation whose indeterminate fresh bytes are given by `g`.
  A `realloc` result is a parameter with three values: a new block, NULL
  with the old block untouched, and NULL with the old block freed, which a
  C library may do for a request of size 0 (glibc does).
* `fwrite` is assumed to write what it is asked to (the C code never checks
  its result); `fread` delivers as many bytes as the file still holds;
  `long` is at least as wide as `unsigned int` plus a sign bit, so `fseek`
  reaches every `unsigned int` offset.
-/

namespace PalmPDB

/-! ## Machine integers and host byte order -/

/-- Conversion to `uint8_t`. -/
def u8 (x : Nat) : Nat := x % 2 ^ 8

/-- Conversion to `uint16_t`. -/
def u16 (x : Nat) : Nat := x % 2 ^ 16

/-- Conversion to `uint32_t` / `unsigned int`. -/
def u32 (x : Nat) : Nat := x % 2 ^ 32

/-- Unsigned 32-bit subtraction `a - b` of two `unsigned int` values. -/
def sub32 (a b : Nat) : Nat := (a % 2 ^ 32 + (2 ^ 32 - b % 2 ^ 32)) % 2 ^ 32

/-- The macro `SWAP_BE_16(u16)`: a byte swap on a little-endian host
(`le = true`), the identity on a big-endian one. -/
def SWAP_BE_16 (le : Bool) (x : Nat) : Nat :=
  if le then ((x &&& 0xFF00) >>> 8) + ((x &&& 0xFF) <<< 8) else x

/-- The macro `SWAP_BE_32(u32)`: a byte swap on a little-endian host
(`le = true`), the identity on a big-endian one. -/
def SWAP_BE_32 (le : Bool) (x : Nat) : Nat :=
  if le then
    ((x &&& 0xFF000000) >>> 24) + ((x &&& 0x00FF0000) >>> 8)
      + ((x &&& 0x0000FF00) <<< 8) + ((x &&& 0x000000FF) <<< 24)
  else x

/-- Bytes of `v` in `w` bytes, most significant byte first. -/
def be_bytes : Nat → Nat → List Nat
  | 0, _ => []
  | w + 1, v => (v / 256 ^ w % 256) :: be_bytes w v

/-- Bytes of `v` in `w` bytes, least significant byte first. -/
def le_bytes : Nat → Nat → List Nat
  | 0, _ => []
  | w + 1, v => (v % 256) :: le_bytes w (v / 256)

/-- Value of a byte string read most significant byte first. -/
def be_val : List Nat → Nat
  | [] => 0
  | b :: bs => b * 256 ^ bs.length + be_val bs

/-- Value of a byte string read least significant byte first. -/
def le_val : List Nat → Nat
  | [] => 0
  | b :: bs => b + 256 * le_val bs

/-- Object representation of a `w`-byte unsigned integer variable holding
`v`, in the host's byte order: what `fwrite(&v, w, 1, f)` sends out. -/
def store (le : Bool) (w v : Nat) : List Nat :=
  if le then le_bytes w v else be_bytes w v

/-- Value of an unsigned integer variable whose object representation is
`bs`, in the host's byte order. -/
def load (le : Bool) (bs : List Nat) : Nat :=
  if le then le_val bs else be_val bs

/-! ## Buffers, allocation and streams -/

/-- A `char` array of exactly `n` elements, such as `char name[32]`. -/
abbrev CharArray (n : Nat) := { l : List Nat // l.length = n }

/-- The array `memset` to zero. -/
def CharArray.zero (n : Nat) : CharArray n := ⟨List.replicate n 0, by simp⟩

/-- Overwrite the front of `buf` with `src` without changing its size. -/
def blit (buf src : List Nat) : List Nat :=
  (src ++ buf.drop src.length).take buf.length

/-- Outcome of one allocation request: `none` is a NULL return, `some g`
a fresh block whose indeterminate initial bytes are `g 0, g 1, ...`. -/
abbrev Alloc := Option (Nat → Nat)

/-- The call `malloc(n)`. -/
def malloc (a : Alloc) (n : Nat) : Option (List Nat) :=
  a.map fun g => (List.range n).map g

/-- Outcome of one `realloc` request.  `block g`: a block of the requested size
is returned, its bytes past the kept contents being the indeterminate
`g 0, g 1, ...`.  `null`: NULL is returned and the old block is untouched (an
allocation failure).  `freed g`: NULL is returned and the old block has been
freed, which a C library may do for a request of size 0 only (glibc does so
whenever the old pointer is not NULL); the old pointer then dangles, and
`g 0, g 1, ...` are the indeterminate bytes it leads to. -/
inductive Realloc where
  | block (g : Nat → Nat)
  | null
  | freed (g : Nat → Nat)

/-- The call `realloc(old, n)`: the block it returns (`none` for NULL) and what
the old pointer leads to afterwards.  On success the contents are kept up to
the smaller of the two sizes and the rest is indeterminate.  On a NULL return
the old block is as it was, except for a request of size 0 that the library
answers by freeing it: the old pointer then leads to as many indeterminate
bytes. -/
def realloc (a : Realloc) (old : List Nat) (n : Nat) : Option (List Nat) × List Nat :=
  match a with
  | Realloc.block g => (some (blit ((List.range n).map g) (old.take n)), old)
  | Realloc.null => (none, old)
  | Realloc.freed g => if n = 0 then (none, (List.range old.length).map g) else (none, old)

/-- The call `memcpy(dst, src, n)`.  Where `src` holds fewer than `n` bytes (a
NULL `src` holds none) the C call is undefined; the bytes there are get
copied. -/
def memcpy (dst src : List Nat) (n : Nat) : List Nat :=
  blit dst (src.take n)

/-- A stream opened for reading: the file's bytes and the file position. -/
structure FILE where
  bytes : List Nat
  pos : Nat
deriving DecidableEq, Repr

/-- The call `fread(buf, size, 1, f)`: the bytes available at the position,
at most `size`, overwrite the front of `buf`, and the position advances past
them.  The rest of `buf` keeps what it held. -/
def fread (buf : List Nat) (size : Nat) (f : FILE) : List Nat × FILE :=
  let got := (f.bytes.drop f.pos).take size
  (blit buf got, { f with pos := f.pos + got.length })

/-- The call `fread(arr, size, 1, f)` into a `char` array field. -/
def fread_arr {n : Nat} (arr : CharArray n) (size : Nat) (f : FILE) : CharArray n × FILE :=
  (⟨(fread arr.val size f).1, by
      have h := arr.property
      simp only [fread, blit, List.length_take, List.length_append, List.length_drop]
      omega⟩,
    (fread arr.val size f).2)

/-- The call `fread(&v, size, 1, f)` on a `w`-byte unsigned integer variable
`v`: the bytes read overwrite the front of the object representation of `v`. -/
def fread_int (le : Bool) (w v size : Nat) (f : FILE) : Nat × FILE :=
  (load le (fread (store le w v) size f).1, (fread (store le w v) size f).2)

/-- The call `fseek(f, off, SEEK_SET)`. -/
def fseek (f : FILE) (off : Nat) : FILE := { f with pos := off }

/-- The call `fwrite(buf, size, 1, f)` on a stream opened with `"wb"`, which
is the list of the bytes written so far. -/
def fwrite (buf : List Nat) (size : Nat) (f : List Nat) : List Nat :=
  f ++ buf.take size

/-! ## The data model (`palmpdb.h`) -/

/-- The struct `PDB_Record`; `data` holds the `length` bytes of the record. -/
structure PDB_Record where
  attributes : Nat
  data : List Nat
deriving DecidableEq, Repr

/-- The field `length` of a record. -/
def PDB_Record.length (r : PDB_Record) : Nat := r.data.length

/-- The struct `PDB`; `app_info_block` holds the `app_info_length` bytes of
the AppInfo block and `records` the `num_records` records. -/
structure PDB where
  name : CharArray 32
  attributes : Nat
  version : Nat
  creation_time : Nat
  modification_time : Nat
  backup_time : Nat
  type : CharArray 5
  creator : CharArray 5
  app_info_block : List Nat
  records : List PDB_Record
deriving DecidableEq

/-- The field `app_info_length`. -/
def PDB.app_info_length (pdb : PDB) : Nat := pdb.app_info_block.length

/-- The field `num_records`. -/
def PDB.num_records (pdb : PDB) : Nat := pdb.records.length

/-- The struct after `memset(pdb, 0, sizeof (struct PDB))`. -/
def PDB.zero : PDB :=
  { name := CharArray.zero 32, attributes := 0, version := 0, creation_time := 0,
    modification_time := 0, backup_time := 0, type := CharArray.zero 5,
    creator := CharArray.zero 5, app_info_block := [], records := [] }

/-- A record after `memset(&pdb->records[i], 0, sizeof (struct PDB_Record))`. -/
def PDB_Record.zero : PDB_Record := { attributes := 0, data := [] }

/-! ## The mutators (`palmpdb.c`) -/

/-- The function `PDB_SetAppInfoBlock(pdb, block, bytes)`; `a` is the outcome of
its `malloc(bytes)`.  The new block is the freshly allocated memory as
`malloc` returned it: the function stores nothing into it. -/
def PDB_SetAppInfoBlock (pdb : PDB) (block : Option (List Nat)) (bytes : Nat) (a : Alloc) :
    Int × PDB :=
  if block.isSome && decide (bytes > 0) then
    match malloc a bytes with
    | none => (-1, pdb)
    | some new_block => (0, { pdb with app_info_block := new_block })
  else
    (0, { pdb with app_info_block := [] })

/-- The function `PDB_SetNumRecords(pdb, num)`; `realloc_ok` tells whether the
`realloc` of the growing branch succeeds (the shrinking branch keeps the old
array when its `realloc` fails, so its outcome does not show). -/
def PDB_SetNumRecords (pdb : PDB) (num : Nat) (realloc_ok : Bool) : Int × PDB :=
  if num < pdb.num_records then
    (0, { pdb with records := if num ≠ 0 then pdb.records.take num else [] })
  else if num > pdb.num_records then
    if realloc_ok then
      (0, { pdb with
              records := pdb.records ++ List.replicate (num - pdb.num_records) PDB_Record.zero })
    else (-1, pdb)
  else (0, pdb)

/-- The function `PDB_SetRecord(pdb, rec, data, length, attr)`; `a` is the
outcome of its `realloc(pdb->records[rec].data, length)`, and `data` is
`none` for a NULL pointer.  When `realloc` returns NULL the function stores
nothing: the record keeps its pointer, length and attributes, and its data are
what that pointer leads to after the call of `realloc`. -/
def PDB_SetRecord (pdb : PDB) (rec : Nat) (data : Option (List Nat)) (length attr : Nat)
    (a : Realloc) : Int × PDB :=
  if rec ≥ pdb.num_records then (-1, pdb)
  else
    match realloc a (pdb.records.getD rec PDB_Record.zero).data length with
    | (none, left) =>
      (-1, { pdb with
               records := pdb.records.set rec
                 { pdb.records.getD rec PDB_Record.zero with data := left } })
    | (some new_data, _) =>
      (0, { pdb with
              records := pdb.records.set rec
                { attributes := attr, data := memcpy new_data (data.getD []) length } })

/-- The function `PDB_Free(pdb)`. -/
def PDB_Free (pdb : PDB) : PDB :=
  let pdb := (PDB_SetAppInfoBlock pdb none 0 none).2
  let _pdb := (PDB_SetNumRecords pdb 0 false).2
  PDB.zero

/-- The call `strncpy(dst, src, n)`: the string `src` up to its terminator,
cut to `n` bytes and padded with zero bytes to `n` bytes, over the front of
`dst`. -/
def strncpy {k : Nat} (dst : CharArray k) (src : List Nat) (n : Nat) : CharArray k :=
  ⟨blit dst.val (((src.takeWhile fun c => c ≠ 0) ++ List.replicate n 0).take n), by
    have h := dst.property
    simp only [blit, List.length_take, List.length_append, List.length_drop]
    omega⟩

/-- The function `PDB_Init(pdb, name, version, type, creator)`; `now1` and
`now2` are what its two calls of `time(NULL)` return. -/
def PDB_Init (name : List Nat) (version : Nat) (type creator : List Nat) (now1 now2 : Int) :
    PDB :=
  let pdb := PDB.zero
  let pdb := { pdb with name := strncpy pdb.name name 31 }
  let pdb := { pdb with type := strncpy pdb.type type 4 }
  let pdb := { pdb with creator := strncpy pdb.creator creator 4 }
  let pdb := { pdb with creation_time := ((now1 + 2082801600) % 2 ^ 32).toNat }
  let pdb := { pdb with modification_time := ((now2 + 2082801600) % 2 ^ 32).toNat }
  { pdb with version := version }

/-- The function `PDB_LoadRecordFromFile(pdb, rec, filename, terminate, attr)`;
`file` is what `fopen` finds (`none` when it fails), `a_data` the outcome of
the `malloc` and `a_rec` that of the `realloc` inside `PDB_SetRecord`. -/
def PDB_LoadRecordFromFile (pdb : PDB) (rec : Nat) (file : Option (List Nat)) (terminate : Int)
    (attr : Nat) (a_data : Alloc) (a_rec : Realloc) : Int × PDB :=
  match file with
  | none => (-1, pdb)
  | some bytes =>
    let f : FILE := { bytes := bytes, pos := 0 }
    let length := u32 bytes.length
    let length := if length > 0xFFFF then 0xFFFF else length
    match malloc a_data (length + (if terminate ≠ 0 then 1 else 0)) with
    | none => (-1, pdb)
    | some data =>
      let data := (fread data length f).1
      let data := if terminate ≠ 0 then data.set length 0 else data
      let r := PDB_SetRecord pdb rec (some data) (length + (if terminate ≠ 0 then 1 else 0))
        attr a_rec
      if r.1 < 0 then (-1, r.2) else (0, r.2)

/-! ## The encoder `PDB_WriteFile` -/

/-- The loop of `PDB_WriteFile` that writes the record headers, over the
records still to be written, with the running `cur_start`. -/
def writeRecordHeaders (le : Bool) : List PDB_Record → Nat → List Nat → List Nat
  | [], _, f => f
  | r :: rs, cur_start, f =>
    let val32 := u32 cur_start
    let val32 := u32 (SWAP_BE_32 le val32)
    let f := fwrite (store le 4 val32) 4 f
    let attr := u8 r.attributes
    let f := fwrite [attr] 1 f
    let val32 := 0
    let f := fwrite (store le 4 val32) 3 f
    let cur_start := u32 (cur_start + r.length)
    writeRecordHeaders le rs cur_start f

/-- The loop of `PDB_WriteFile` that writes the record data. -/
def writeRecordData : List PDB_Record → List Nat → List Nat
  | [], f => f
  | r :: rs, f => writeRecordData rs (fwrite r.data r.length f)

/-- The body of `PDB_WriteFile` once `fopen` has succeeded: the bytes of the
file it leaves behind. -/
def writeStream (le : Bool) (pdb : PDB) : List Nat :=
  let f : List Nat := []
  let f := fwrite pdb.name.val 32 f
  let val16 := u16 pdb.attributes
  let val16 := u16 (SWAP_BE_16 le val16)
  let f := fwrite (store le 2 val16) 2 f
  let val16 := u16 pdb.version
  let val16 := u16 (SWAP_BE_16 le val16)
  let f := fwrite (store le 2 val16) 2 f
  let val32 := u32 pdb.creation_time
  let val32 := u32 (SWAP_BE_32 le val32)
  let f := fwrite (store le 4 val32) 4 f
  let val32 := u32 pdb.modification_time
  let val32 := u32 (SWAP_BE_32 le val32)
  let f := fwrite (store le 4 val32) 4 f
  let val32 := u32 pdb.backup_time
  let val32 := u32 (SWAP_BE_32 le val32)
  let f := fwrite (store le 4 val32) 4 f
  let val32 := 0
  let f := fwrite (store le 4 val32) 4 f
  let data_start := u32 (78 + pdb.num_records * 8)
  let val32 := data_start
  let val32 := u32 (SWAP_BE_32 le val32)
  let f := fwrite (store le 4 val32) 4 f
  let val32 := 0
  let f := fwrite (store le 4 val32) 4 f
  let f := fwrite pdb.type.val 4 f
  let f := fwrite pdb.creator.val 4 f
  let val32 := 0
  let f := fwrite (store le 4 val32) 4 f
  let val32 := 0
  let f := fwrite (store le 4 val32) 4 f
  let val16 := u16 pdb.num_records
  let val16 := u16 (SWAP_BE_16 le val16)
  let f := fwrite (store le 2 val16) 2 f
  let cur_start := u32 (data_start + pdb.app_info_length)
  let f := writeRecordHeaders le pdb.records cur_start f
  let f := if pdb.app_info_length ≠ 0 then fwrite pdb.app_info_block pdb.app_info_length f else f
  writeRecordData pdb.records f

/-- The function `PDB_WriteFile(pdb, filename)`: the return value and the file
written (`none` when `fopen` fails and nothing is written). -/
def PDB_WriteFile (le : Bool) (pdb : PDB) (fopen_ok : Bool) : Int × Option (List Nat) :=
  if fopen_ok then (0, some (writeStream le pdb)) else (-1, none)

/-! ## The decoder `PDB_ReadFile` -/

/-- What a run of `PDB_ReadFile` depends on besides the file: the host byte
order, the indeterminate initial values of its locals `val16`, `val32` and
of `attr` in each iteration, and the outcome of each allocation (the
`realloc` in `PDB_SetNumRecords`, the `malloc` of `record_offsets`, of the
AppInfo block and of the data of record `i`). -/
structure ReadEnv where
  le : Bool
  val16 : Nat
  val32 : Nat
  attr : Nat → Nat
  records_ok : Bool
  offsets : Alloc
  app_info : Alloc
  data : Nat → Alloc

/-- The variables the record-header loop of `PDB_ReadFile` updates. -/
structure HeaderLoop where
  f : FILE
  val32 : Nat
  record_offsets : List Nat
  records : List PDB_Record
deriving DecidableEq

/-- The loop of `PDB_ReadFile` that reads the record headers: `k` iterations
are left and the next one has index `i`. -/
def readRecordHeaders (env : ReadEnv) : Nat → Nat → HeaderLoop → HeaderLoop
  | 0, _, s => s
  | k + 1, i, s =>
    let r := fread_int env.le 4 s.val32 4 s.f
    let val32 := r.1
    let record_offsets := s.record_offsets.set i (u32 (SWAP_BE_32 env.le val32))
    let ra := fread [u8 (env.attr i)] 1 r.2
    let attr := ra.1.headD 0
    let records := s.records.modify (fun rec => { rec with attributes := attr }) i
    let r3 := fread_int env.le 4 val32 3 ra.2
    readRecordHeaders env k (i + 1)
      { f := r3.2, val32 := r3.1, record_offsets := record_offsets, records := records }

/-- The loop of `PDB_ReadFile` that reads the record data: `k` iterations are
left and the next one has index `i`; `none` when a `malloc` fails. -/
def readRecordData (env : ReadEnv) (record_offsets : List Nat) :
    Nat → Nat → FILE → List PDB_Record → Option (List PDB_Record)
  | 0, _, _, records => some records
  | k + 1, i, f, records =>
    let length := sub32 (record_offsets.getD (i + 1) 0) (record_offsets.getD i 0)
    match malloc (env.data i) length with
    | none => none
    | some data =>
      let f := fseek f (record_offsets.getD i 0)
      let r := fread data length f
      readRecordData env record_offsets k (i + 1) r.2
        (records.modify (fun rec => { rec with data := r.1 }) i)

/-- The locals of `PDB_ReadFile` that are still in use once the 78 header bytes
have been read. -/
structure HeaderPart where
  pdb : PDB
  app_info_offset : Nat
  num_records : Nat
  val32 : Nat
  f : FILE

/-- The first part of `PDB_ReadFile`, from the `memset` to the read of the
number of records. -/
def readHeader (env : ReadEnv) (bytes : List Nat) : HeaderPart :=
  let le := env.le
  let f : FILE := { bytes := bytes, pos := 0 }
  let pdb := PDB.zero
  let rn := fread_arr pdb.name 32 f
  let pdb := { pdb with name := ⟨rn.1.val.set 31 0, by simp [rn.1.property]⟩ }
  let r1 := fread_int le 2 env.val16 2 rn.2
  let pdb := { pdb with attributes := SWAP_BE_16 le r1.1 }
  let r2 := fread_int le 2 r1.1 2 r1.2
  let pdb := { pdb with version := SWAP_BE_16 le r2.1 }
  let r3 := fread_int le 4 env.val32 4 r2.2
  let pdb := { pdb with creation_time := u32 (SWAP_BE_32 le r3.1) }
  let r4 := fread_int le 4 r3.1 4 r3.2
  let pdb := { pdb with modification_time := u32 (SWAP_BE_32 le r4.1) }
  let r5 := fread_int le 4 r4.1 4 r4.2
  let pdb := { pdb with backup_time := u32 (SWAP_BE_32 le r5.1) }
  let r6 := fread_int le 4 r5.1 4 r5.2
  let r7 := fread_int le 4 r6.1 4 r6.2
  let app_info_offset := u32 (SWAP_BE_32 le r7.1)
  let r8 := fread_int le 4 r7.1 4 r7.2
  let rt := fread_arr pdb.type 4 r8.2
  let pdb := { pdb with type := rt.1 }
  let rc := fread_arr pdb.creator 4 rt.2
  let pdb := { pdb with creator := rc.1 }
  let r9 := fread_int le 4 r8.1 4 rc.2
  let r10 := fread_int le 4 r9.1 4 r9.2
  let r11 := fread_int le 2 r2.1 2 r10.2
  let num_records := SWAP_BE_16 le r11.1
  { pdb := pdb, app_info_offset := app_info_offset, num_records := num_records,
    val32 := r10.1, f := r11.2 }

/-- The second part of `PDB_ReadFile`, from the allocation of the record list
to the end, the label `error` included. -/
def readBody (env : ReadEnv) (bytes : List Nat) (h : HeaderPart) : Int × PDB :=
  let rs := PDB_SetNumRecords h.pdb h.num_records env.records_ok
  if rs.1 ≠ 0 then (-1, PDB_Free rs.2)
  else
    let pdb := rs.2
    match malloc env.offsets (h.num_records + 1) with
    | none => (-1, PDB_Free pdb)
    | some record_offsets =>
      let pos := u32 h.f.pos
      let record_offsets := record_offsets.set h.num_records (u32 bytes.length)
      let f := fseek h.f pos
      let s := readRecordHeaders env h.num_records 0
        { f := f, val32 := h.val32, record_offsets := record_offsets, records := pdb.records }
      let pdb := { pdb with records := s.records }
      let ai : Option (List Nat × FILE) :=
        if h.app_info_offset ≠ 0 then
          (malloc env.app_info (sub32 (s.record_offsets.getD 0 0) h.app_info_offset)).map
            fun block =>
              fread block (sub32 (s.record_offsets.getD 0 0) h.app_info_offset)
                (fseek s.f h.app_info_offset)
        else some (pdb.app_info_block, s.f)
      match ai with
      | none => (-1, PDB_Free pdb)
      | some rai =>
        let pdb := { pdb with app_info_block := rai.1 }
        match readRecordData env s.record_offsets h.num_records 0 rai.2 pdb.records with
        | none => (-1, PDB_Free pdb)
        | some records => (0, { pdb with records := records })

/-- The function `PDB_ReadFile(pdb, filename)`: the return value and the struct
it leaves; `file` is what `fopen` finds (`none` when it fails, and then the
struct is not touched). -/
def PDB_ReadFile (env : ReadEnv) (pdb : PDB) (file : Option (List Nat)) : Int × PDB :=
  match file with
  | none => (-1, pdb)
  | some bytes => readBody env bytes (readHeader env bytes)

/-! ## The file layout as the specification words it -/

/-- A 16-bit value as 2 bytes, most significant byte first. -/
def be16 (v : Nat) : List Nat := [v / 256 % 256, v % 256]

/-- A 32-bit value as 4 bytes, most significant byte first. -/
def be32 (v : Nat) : List Nat := [v / 16777216 % 256, v / 65536 % 256, v / 256 % 256, v % 256]

/-- Sum of the lengths of the records before record `i`. -/
def lengthsBefore (rs : List PDB_Record) (i : Nat) : Nat :=
  ((rs.take i).map PDB_Record.length).sum

/-- The data offset of record `i` in the layout of the specification: header,
record-header table, metadata block and the records before it. -/
def recordOffset (pdb : PDB) (i : Nat) : Nat :=
  78 + 8 * pdb.num_records + pdb.app_info_length + lengthsBefore pdb.records i

/-- The fixed 78-byte header of the specification, field by field. -/
def specHeader (pdb : PDB) : List Nat :=
  pdb.name.val ++ be16 pdb.attributes ++ be16 pdb.version
    ++ be32 pdb.creation_time ++ be32 pdb.modification_time ++ be32 pdb.backup_time
    ++ [0, 0, 0, 0] ++ be32 (78 + 8 * pdb.num_records) ++ [0, 0, 0, 0]
    ++ pdb.type.val.take 4 ++ pdb.creator.val.take 4
    ++ [0, 0, 0, 0, 0, 0, 0, 0] ++ be16 pdb.num_records

/-- The record-header table of the specification for the records `rs`, the
first of which has its data at offset `start`. -/
def specTable : List PDB_Record → Nat → List Nat
  | [], _ => []
  | r :: rs, start =>
    be32 start ++ [r.attributes % 256, 0, 0, 0] ++ specTable rs (start + r.length)

/-- The record data of the specification: the data of all records, in order. -/
def specData (rs : List PDB_Record) : List Nat := (rs.map PDB_Record.data).flatten

/-- The database name as a C string: the bytes before the first zero byte. -/
def cstr (l : List Nat) : List Nat := l.takeWhile fun c => c ≠ 0

/-- The bytes `[o, o + l)` of a stream, fewer where the stream ends before. -/
def slice (bytes : List Nat) (o l : Nat) : List Nat := (bytes.drop o).take l

/-- The data offset that entry `i` of the record-header table of a stream gives
to `PDB_ReadFile`. -/
def entryOffset (le : Bool) (bytes : List Nat) (i : Nat) : Nat :=
  u32 (SWAP_BE_32 le (load le (slice bytes (78 + 8 * i) 4)))

/-- The attribute byte of entry `i` of the record-header table of a stream. -/
def entryAttr (bytes : List Nat) (i : Nat) : Nat := (slice bytes (78 + 8 * i + 4) 1).headD 0

/-- The number of records that the header of a stream gives to `PDB_ReadFile`. -/
def headerCount (le : Bool) (bytes : List Nat) : Nat :=
  SWAP_BE_16 le (load le (slice bytes 76 2))

/-- The AppInfo offset that the header of a stream gives to `PDB_ReadFile`. -/
def headerAppInfoOffset (le : Bool) (bytes : List Nat) : Nat :=
  u32 (SWAP_BE_32 le (load le (slice bytes 52 4)))

/-- Entry `j` of the array `record_offsets` of `PDB_ReadFile` for a stream with
`n` records: the offset of table entry `j`, and the file length past them. -/
def decodedOffset (le : Bool) (bytes : List Nat) (n j : Nat) : Nat :=
  if j < n then entryOffset le bytes j else u32 bytes.length

/-- What `PDB_ReadFile` leaves in a block of `len` bytes allocated with fresh
contents `g` after reading into it from offset `off` of the stream. -/
def readSegment (g : Nat → Nat) (bytes : List Nat) (off len : Nat) : List Nat :=
  blit ((List.range len).map g) (slice bytes off len)

/-- The record count in the header of a stream: bytes 76..77, most significant
byte first. -/
def streamCount (bytes : List Nat) : Nat := be_val (slice bytes 76 2)

/-- The metadata-block offset in the header of a stream: bytes 52..55, most
significant byte first. -/
def streamAppInfoOffset (bytes : List Nat) : Nat := be_val (slice bytes 52 4)

/-- The offset `off[j]` of the specification for a stream: the data offset in
entry `j` of the record-header table, most significant byte first, and the
length of the stream for `j` at or past the record count. -/
def streamOffset (bytes : List Nat) (j : Nat) : Nat :=
  if j < streamCount bytes then be_val (slice bytes (78 + 8 * j) 4) else bytes.length

/-- Whether byte `p` of a stream with `n` record-header entries belongs to a
field that the specification calls ignored: the modification number (bytes
48..51), the sort-info offset (56..59), the unique-ID seed (68..71), the next
record list ID (72..75), or the 3-byte unique ID that ends a record-header
entry. -/
def ignoredByte (n p : Nat) : Bool :=
  (decide (48 ≤ p) && decide (p < 52)) || (decide (56 ≤ p) && decide (p < 60))
    || (decide (68 ≤ p) && decide (p < 76))
    || (decide (78 ≤ p) && decide (p < 78 + 8 * n) && decide (5 ≤ (p - 78) % 8))

/-! ## Example databases -/

/-- Scenario C of the specification: a 10-byte metadata block and one 5-byte
record. -/
def scenarioC : PDB :=
  { PDB.zero with
      app_info_block := [1, 2, 3, 4, 5, 6, 7, 8, 9, 10],
      records := [{ attributes := 3, data := [11, 12, 13, 14, 15] }] }

/-- Scenario A of the specification: `PDB_Init("Memo", 1, "DATA", "memo")` at
Unix time 1000000000, one record added with `PDB_SetNumRecords`, and the
5-byte file `hello` loaded into it with `terminate` set. -/
def scenarioA : PDB :=
  (PDB_LoadRecordFromFile
    (PDB_SetNumRecords
      (PDB_Init [77, 101, 109, 111] 1 [68, 65, 84, 65] [109, 101, 109, 111] 1000000000 1000000000)
      1 true).2
    0 (some [104, 101, 108, 108, 111]) 1 0 (some fun _ => 0) (Realloc.block fun _ => 0)).2

/-- A database with two records and no metadata block. -/
def twoRecords : PDB :=
  { PDB.zero with
      records := [{ attributes := 16, data := [104, 105] }, { attributes := 0, data := [33] }] }

/-- A block of `2^32 - 86` zero bytes. -/
@[irreducible] def hugeBlock : List Nat := List.replicate 4294967210 0

/-- A database with the metadata block `block` and one record holding the single
byte 7; with `hugeBlock` its encoding is `2^32 + 1` bytes long. -/
def oneRecordWith (block : List Nat) : PDB :=
  { PDB.zero with
      app_info_block := block,
      records := [{ attributes := 0, data := [7] }] }

/-- A run of `PDB_ReadFile` on a little-endian host in which every allocation
succeeds and fresh memory holds zero bytes. -/
def quietEnv : ReadEnv :=
  { le := true, val16 := 0, val32 := 0, attr := fun _ => 0, records_ok := true,
    offsets := some fun _ => 0, app_info := some fun _ => 0, data := fun _ => some fun _ => 0 }

/-- A stream of 77 zero bytes: one byte short of a header. -/
def truncatedHeader : List Nat := List.replicate 77 0

/-- A stream of 78 bytes, zero but for the last: a header that declares one
record, with no record-header table behind it. -/
def headerWithoutTable : List Nat := List.replicate 77 0 ++ [1]

/-- A stream of 78 bytes none of which is zero. -/
def headerOfLetters : List Nat := List.replicate 78 65

/-- A byte source of `2^32` bytes. -/
@[irreducible] def hugeSource : List Nat := List.replicate 4294967296 65

/-- A stream that holds a header with no metadata block and one record, the
record-header entry of that record with data offset 86, and `tail` as the
record data from byte 86 on. -/
def oneRecordStream (tail : List Nat) : List Nat :=
  List.replicate 76 0 ++ [0, 1] ++ [0, 0, 0, 86, 0, 0, 0, 0] ++ tail

/-- A stream of 90 bytes: a header with metadata offset 86 and one record, the
record-header entry of that record with data offset 88 and attribute byte 3,
two bytes of metadata and two bytes of record data; every byte of an ignored
field is `x`. -/
def fieldsStream (x : Nat) : List Nat :=
  List.replicate 48 0 ++ [x, x, x, x] ++ [0, 0, 0, 86] ++ [x, x, x, x] ++ List.replicate 8 0
    ++ [x, x, x, x, x, x, x, x] ++ [0, 1] ++ [0, 0, 0, 88, 3, x, x, x] ++ [1, 2, 3, 4]

/-- A stream of 86 bytes: a header with no metadata block and one record, whose
record-header entry gives the data offset 48, inside the header; byte 48, the
first byte of the modification number, is `x`. -/
def overlapStream (x : Nat) : List Nat :=
  List.replicate 48 0 ++ [x] ++ List.replicate 27 0 ++ [0, 1] ++ [0, 0, 0, 48, 0, 0, 0, 0]

/-- A stream that holds a header with record count 0 and metadata offset 78, and
`tail` as everything from byte 78 on. -/
def metadataOnlyStream (tail : List Nat) : List Nat :=
  List.replicate 52 0 ++ [0, 0, 0, 78] ++ List.replicate 22 0 ++ tail

/-- A database of 65536 empty records and no metadata block. -/
def manyRecords : PDB :=
  { PDB.zero with records := List.replicate 65536 PDB_Record.zero }

/-- A stream of 86 bytes that holds a header with no metadata block and one
record, and the record-header entry of that record with data offset 100 and
attribute byte 7: the offset lies past the end of the stream. -/
def disorderedStream : List Nat :=
  List.replicate 76 0 ++ [0, 1] ++ [0, 0, 0, 100, 7, 0, 0, 0]

/-! ## Byte order -/

theorem and_shiftLeft_mask (x m k : Nat) : x &&& (m <<< k) = ((x >>> k) &&& m) <<< k := by
  apply Nat.eq_of_testBit_eq
  intro i
  simp only [Nat.testBit_and, Nat.testBit_shiftLeft, Nat.testBit_shiftRight]
  by_cases h : i ≥ k
  · have : k + (i - k) = i := by omega
    simp [h, this]
  · simp [h]

theorem and_ff_shift (x k : Nat) : x &&& (255 <<< k) = (x / 2 ^ k % 256) * 2 ^ k := by
  rw [and_shiftLeft_mask, Nat.shiftLeft_eq, Nat.shiftRight_eq_div_pow]
  have := Nat.and_pow_two_sub_one_eq_mod (x / 2 ^ k) 8
  norm_num at this
  rw [this]

theorem swap32_le (x : Nat) :
    SWAP_BE_32 true x = x / 16777216 % 256 + (x / 65536 % 256) * 256 + (x / 256 % 256) * 65536 + (x % 256) * 16777216 := by
  have h3 : x &&& 0xFF000000 = (x / 2 ^ 24 % 256) * 2 ^ 24 := and_ff_shift x 24
  have h2 : x &&& 0x00FF0000 = (x / 2 ^ 16 % 256) * 2 ^ 16 := and_ff_shift x 16
  have h1 : x &&& 0x0000FF00 = (x / 2 ^ 8 % 256) * 2 ^ 8 := and_ff_shift x 8
  have h0 : x &&& 0x000000FF = (x / 2 ^ 0 % 256) * 2 ^ 0 := and_ff_shift x 0
  simp only [SWAP_BE_32, if_true, h0, h1, h2, h3, Nat.shiftLeft_eq, Nat.shiftRight_eq_div_pow]
  norm_num
  omega

theorem swap16_le (x : Nat) :
    SWAP_BE_16 true x = x / 256 % 256 + (x % 256) * 256 := by
  have h1 : x &&& 0xFF00 = (x / 2 ^ 8 % 256) * 2 ^ 8 := and_ff_shift x 8
  have h0 : x &&& 0xFF = (x / 2 ^ 0 % 256) * 2 ^ 0 := and_ff_shift x 0
  simp only [SWAP_BE_16, if_true, h0, h1, Nat.shiftLeft_eq, Nat.shiftRight_eq_div_pow]
  norm_num

theorem le_bytes4 (a b c d : Nat) (ha : a < 256) (hb : b < 256) (hc : c < 256) (hd : d < 256) :
    le_bytes 4 ((a + b * 256 + c * 65536 + d * 16777216) % 2 ^ 32) = [a, b, c, d] := by
  have e : (a + b * 256 + c * 65536 + d * 16777216) % 2 ^ 32 = a + b * 256 + c * 65536 + d * 16777216 := by
    apply Nat.mod_eq_of_lt; omega
  rw [e]
  simp only [le_bytes]
  have e0 : (a + b * 256 + c * 65536 + d * 16777216) % 256 = a := by omega
  have e1 : (a + b * 256 + c * 65536 + d * 16777216) / 256 = b + c * 256 + d * 65536 := by omega
  have e2 : (b + c * 256 + d * 65536) % 256 = b := by omega
  have e3 : (b + c * 256 + d * 65536) / 256 = c + d * 256 := by omega
  have e4 : (c + d * 256) % 256 = c := by omega
  have e5 : (c + d * 256) / 256 = d := by omega
  have e6 : d % 256 = d := by omega
  rw [e0, e1, e2, e3, e4, e5, e6]

theorem le_bytes2 (a b : Nat) (ha : a < 256) (hb : b < 256) :
    le_bytes 2 ((a + b * 256) % 2 ^ 16) = [a, b] := by
  have e : (a + b * 256) % 2 ^ 16 = a + b * 256 := by
    apply Nat.mod_eq_of_lt; omega
  rw [e]
  simp only [le_bytes]
  have e0 : (a + b * 256) % 256 = a := by omega
  have e1 : (a + b * 256) / 256 = b := by omega
  have e2 : b % 256 = b := by omega
  rw [e0, e1, e2]

theorem store_swap32 (le : Bool) (v : Nat) :
    store le 4 (u32 (SWAP_BE_32 le (u32 v))) = [v / 16777216 % 256, v / 65536 % 256, v / 256 % 256, v % 256] := by
  have a3 : v % 2 ^ 32 / 16777216 % 256 = v / 16777216 % 256 := by omega
  have a2 : v % 2 ^ 32 / 65536 % 256 = v / 65536 % 256 := by omega
  have a1 : v % 2 ^ 32 / 256 % 256 = v / 256 % 256 := by omega
  have a0 : v % 2 ^ 32 % 256 = v % 256 := by omega
  cases le
  · simp only [store, SWAP_BE_32, u32, be_bytes, Nat.mod_mod]
    norm_num
    omega
  · rw [swap32_le]
    simp only [store, u32, if_true]
    rw [a3, a2, a1, a0]
    exact le_bytes4 _ _ _ _ (Nat.mod_lt _ (by decide)) (Nat.mod_lt _ (by decide)) (Nat.mod_lt _ (by decide)) (Nat.mod_lt _ (by decide))

theorem store_swap16 (le : Bool) (v : Nat) :
    store le 2 (u16 (SWAP_BE_16 le (u16 v))) = [v / 256 % 256, v % 256] := by
  have a1 : v % 2 ^ 16 / 256 % 256 = v / 256 % 256 := by omega
  have a0 : v % 2 ^ 16 % 256 = v % 256 := by omega
  cases le
  · simp only [store, SWAP_BE_16, u16, be_bytes, Nat.mod_mod]
    norm_num
    omega
  · rw [swap16_le]
    simp only [store, u16, if_true]
    rw [a1, a0]
    exact le_bytes2 _ _ (Nat.mod_lt _ (by decide)) (Nat.mod_lt _ (by decide))

theorem store_zero4 (le : Bool) : store le 4 0 = [0, 0, 0, 0] := by
  cases le <;> rfl

theorem load_swap32 (le : Bool) (b0 b1 b2 b3 : Nat) (h0 : b0 < 256) (h1 : b1 < 256) (h2 : b2 < 256) (h3 : b3 < 256) :
    u32 (SWAP_BE_32 le (load le [b0, b1, b2, b3])) = b0 * 16777216 + b1 * 65536 + b2 * 256 + b3 := by
  cases le
  · simp only [load, SWAP_BE_32, u32, be_val]
    norm_num
    omega
  · rw [swap32_le]
    simp only [load, u32, le_val, if_true]
    have e3 : (b0 + 256 * (b1 + 256 * (b2 + 256 * (b3 + 256 * 0)))) / 16777216 % 256 = b3 := by omega
    have e2 : (b0 + 256 * (b1 + 256 * (b2 + 256 * (b3 + 256 * 0)))) / 65536 % 256 = b2 := by omega
    have e1 : (b0 + 256 * (b1 + 256 * (b2 + 256 * (b3 + 256 * 0)))) / 256 % 256 = b1 := by omega
    have e0 : (b0 + 256 * (b1 + 256 * (b2 + 256 * (b3 + 256 * 0)))) % 256 = b0 := by omega
    rw [e3, e2, e1, e0]
    omega

theorem load_swap16 (le : Bool) (b0 b1 : Nat) (h0 : b0 < 256) (h1 : b1 < 256) :
    SWAP_BE_16 le (load le [b0, b1]) = b0 * 256 + b1 := by
  cases le
  · simp only [load, SWAP_BE_16, be_val]
    norm_num
  · rw [swap16_le]
    simp only [load, le_val, if_true]
    omega

/-! ## Layout of the encoded file -/

theorem be32_mod (v : Nat) : be32 (v % 2 ^ 32) = be32 v := by
  simp only [be32]
  have a3 : v % 2 ^ 32 / 16777216 % 256 = v / 16777216 % 256 := by omega
  have a2 : v % 2 ^ 32 / 65536 % 256 = v / 65536 % 256 := by omega
  have a1 : v % 2 ^ 32 / 256 % 256 = v / 256 % 256 := by omega
  have a0 : v % 2 ^ 32 % 256 = v % 256 := by omega
  rw [a3, a2, a1, a0]

theorem be32_congr (a b : Nat) (h : a % 2 ^ 32 = b % 2 ^ 32) : be32 a = be32 b := by
  rw [← be32_mod a, ← be32_mod b, h]

theorem specTable_congr (rs : List PDB_Record) (a b : Nat) (h : a % 2 ^ 32 = b % 2 ^ 32) :
    specTable rs a = specTable rs b := by
  induction rs generalizing a b with
  | nil => rfl
  | cons r rs ih =>
    simp only [specTable]
    rw [be32_congr a b h, ih (a + r.length) (b + r.length) (by omega)]

theorem writeRecordHeaders_eq (le : Bool) (rs : List PDB_Record) (cur : Nat) (f : List Nat) :
    writeRecordHeaders le rs cur f = f ++ specTable rs cur := by
  induction rs generalizing cur f with
  | nil => simp [writeRecordHeaders, specTable]
  | cons r rs ih =>
    simp only [writeRecordHeaders, specTable]
    rw [ih, store_swap32, store_zero4]
    rw [specTable_congr rs (u32 (cur + r.length)) (cur + r.length) (by simp [u32])]
    simp [fwrite, be32, u8]

theorem writeRecordData_eq (rs : List PDB_Record) (f : List Nat) :
    writeRecordData rs f = f ++ specData rs := by
  induction rs generalizing f with
  | nil => simp [writeRecordData, specData]
  | cons r rs ih =>
    simp only [writeRecordData]
    rw [ih]
    simp [fwrite, specData, PDB_Record.length]

theorem writeStream_eq (le : Bool) (pdb : PDB) :
    writeStream le pdb
      = specHeader pdb ++ specTable pdb.records (recordOffset pdb 0)
          ++ pdb.app_info_block ++ specData pdb.records := by
  have hn := pdb.name.property
  have ht : specTable pdb.records (u32 (u32 (78 + pdb.num_records * 8) + pdb.app_info_length))
      = specTable pdb.records (recordOffset pdb 0) := by
    apply specTable_congr
    simp only [u32, recordOffset, lengthsBefore]
    simp
    omega
  have hif : ∀ X : List Nat,
      (if pdb.app_info_length ≠ 0 then X ++ List.take pdb.app_info_length pdb.app_info_block
        else X) = X ++ pdb.app_info_block := by
    intro X
    by_cases h : pdb.app_info_length = 0
    · have hnil : pdb.app_info_block = [] := List.length_eq_zero.mp h
      simp [h, hnil]
    · rw [if_pos h]
      simp [PDB.app_info_length]
  have e8 : 78 + pdb.num_records * 8 = 78 + 8 * pdb.num_records := by omega
  simp only [writeStream, writeRecordHeaders_eq, writeRecordData_eq, store_swap32, store_swap16,
    store_zero4, fwrite, ht, hif]
  simp [specHeader, be16, be32, List.take_of_length_le (Nat.le_of_eq hn), e8]

theorem length_be16 (v : Nat) : (be16 v).length = 2 := rfl
theorem length_be32 (v : Nat) : (be32 v).length = 4 := rfl

theorem length_specHeader (pdb : PDB) : (specHeader pdb).length = 78 := by
  have hn := pdb.name.property
  have ht := pdb.type.property
  have hc := pdb.creator.property
  simp only [specHeader, List.length_append, List.length_take, length_be16, length_be32, hn, ht, hc,
    List.length_cons, List.length_nil]
  rfl

theorem length_specTable (rs : List PDB_Record) (start : Nat) :
    (specTable rs start).length = 8 * rs.length := by
  induction rs generalizing start with
  | nil => rfl
  | cons r rs ih =>
    simp only [specTable, List.length_append, length_be32, ih, List.length_cons, List.length_nil]
    omega

theorem length_specData (rs : List PDB_Record) :
    (specData rs).length = (rs.map PDB_Record.length).sum := by
  induction rs with
  | nil => rfl
  | cons r rs ih =>
    simp only [specData, List.map_cons, List.flatten_cons, List.length_append, List.sum_cons] at ih ⊢
    rw [ih]; rfl

theorem lengthsBefore_zero (rs : List PDB_Record) : lengthsBefore rs 0 = 0 := by
  simp [lengthsBefore]

theorem lengthsBefore_cons (r : PDB_Record) (rs : List PDB_Record) (i : Nat) :
    lengthsBefore (r :: rs) (i + 1) = r.length + lengthsBefore rs i := by
  simp [lengthsBefore]

theorem lengthsBefore_length (rs : List PDB_Record) :
    lengthsBefore rs rs.length = (rs.map PDB_Record.length).sum := by
  simp [lengthsBefore]

theorem specTable_entry (rs : List PDB_Record) (start i : Nat) (hi : i < rs.length) :
    ((specTable rs start).drop (8 * i)).take 8
      = be32 (start + lengthsBefore rs i) ++ [rs[i].attributes % 256, 0, 0, 0] := by
  induction rs generalizing start i with
  | nil => simp at hi
  | cons r rs ih =>
    cases i with
    | zero =>
      simp [specTable, lengthsBefore_zero, be32]
    | succ j =>
      have hj : j < rs.length := by simpa using hi
      have h8 : 8 * (j + 1) = (be32 start ++ [r.attributes % 256, 0, 0, 0]).length + 8 * j := by
        simp [length_be32]; omega
      simp only [specTable]
      rw [h8, List.drop_append, ih (start + r.length) j hj, lengthsBefore_cons]
      simp [Nat.add_assoc]

theorem specData_record (rs : List PDB_Record) (i : Nat) (hi : i < rs.length) :
    ((specData rs).drop (lengthsBefore rs i)).take rs[i].length = rs[i].data := by
  induction rs generalizing i with
  | nil => simp at hi
  | cons r rs ih =>
    cases i with
    | zero => simp [specData, lengthsBefore_zero, PDB_Record.length]
    | succ j =>
      have hj : j < rs.length := by simpa using hi
      have := ih j hj
      simp only [specData] at this
      simp only [specData, List.map_cons, List.flatten_cons, lengthsBefore_cons,
        List.getElem_cons_succ]
      rw [show r.length + lengthsBefore rs j = r.data.length + lengthsBefore rs j from rfl,
        List.drop_append, this]

theorem writeStream_header (le : Bool) (pdb : PDB) :
    (writeStream le pdb).take 78 = specHeader pdb := by
  rw [writeStream_eq, List.append_assoc, List.append_assoc]
  exact List.take_left' (length_specHeader pdb)

theorem writeStream_table (le : Bool) (pdb : PDB) :
    ((writeStream le pdb).drop 78).take (8 * pdb.num_records)
      = specTable pdb.records (recordOffset pdb 0) := by
  rw [writeStream_eq, List.append_assoc, List.append_assoc, List.drop_left' (length_specHeader pdb)]
  exact List.take_left' (length_specTable _ _)

theorem length_writeStream (le : Bool) (pdb : PDB) :
    (writeStream le pdb).length
      = 78 + 8 * pdb.num_records + pdb.app_info_length + (pdb.records.map PDB_Record.length).sum := by
  rw [writeStream_eq]
  simp only [List.length_append, length_specHeader, length_specTable, length_specData]
  rfl

theorem writeStream_offset_field (le : Bool) (pdb : PDB) :
    ((writeStream le pdb).drop 52).take 4 = be32 (78 + 8 * pdb.num_records) := by
  have hn := pdb.name.property
  rw [writeStream_eq]
  simp [specHeader, List.drop_append_eq_append_drop, List.take_append_eq_append_take, hn, be16, be32]

theorem writeStream_entry (le : Bool) (pdb : PDB) (i : Nat) (hi : i < pdb.records.length) :
    ((writeStream le pdb).drop (78 + 8 * i)).take 8
      = be32 (recordOffset pdb i) ++ [pdb.records[i].attributes % 256, 0, 0, 0] := by
  have h := specTable_entry pdb.records (recordOffset pdb 0) i hi
  have e : recordOffset pdb 0 + lengthsBefore pdb.records i = recordOffset pdb i := by
    simp [recordOffset, lengthsBefore_zero]
  rw [e] at h
  rw [writeStream_eq, List.append_assoc, List.append_assoc, ← length_specHeader pdb, ← List.drop_drop,
    List.drop_left, ← h, List.drop_append_of_le_length,
    List.take_append_of_le_length]
  · simp only [List.length_drop, length_specTable]; omega
  · simp only [length_specTable]; omega

theorem writeStream_record (le : Bool) (pdb : PDB) (i : Nat) (hi : i < pdb.records.length) :
    ((writeStream le pdb).drop (recordOffset pdb i)).take pdb.records[i].length
      = pdb.records[i].data := by
  have h := specData_record pdb.records i hi
  have e : recordOffset pdb i
      = (specHeader pdb ++ specTable pdb.records (recordOffset pdb 0) ++ pdb.app_info_block).length
        + lengthsBefore pdb.records i := by
    simp only [List.length_append, length_specHeader, length_specTable, recordOffset]
    rfl
  rw [writeStream_eq, e, ← List.drop_drop, List.drop_left, h]

/-! ## The mutators -/

theorem blit_full (buf src : List Nat) (h : src.length = buf.length) : blit buf src = src := by
  simp only [blit, h, List.drop_length, List.append_nil]
  exact List.take_of_length_le (Nat.le_of_eq h)

theorem length_blit (buf src : List Nat) : (blit buf src).length = buf.length := by
  simp only [blit, List.length_take, List.length_append, List.length_drop]
  omega

theorem length_realloc (a : Realloc) (old : List Nat) (n : Nat) (new_data : List Nat)
    (h : (realloc a old n).1 = some new_data) : new_data.length = n := by
  cases a with
  | block g =>
    simp only [realloc, Option.some.injEq] at h
    rw [← h, length_blit]
    simp
  | null => simp [realloc] at h
  | freed g =>
    simp only [realloc] at h
    split at h <;> simp at h

theorem set_getD_self (rs : List PDB_Record) (i : Nat) (hi : i < rs.length) :
    rs.set i { rs.getD i PDB_Record.zero with data := (rs.getD i PDB_Record.zero).data } = rs := by
  apply List.ext_getElem?
  intro j
  rw [List.getElem?_set]
  by_cases hij : i = j
  · subst hij
    simp [hi, List.getD_eq_getElem?_getD, List.getElem?_eq_getElem hi]
  · simp [hij]

theorem length_malloc (a : Alloc) (n : Nat) (block : List Nat)
    (h : malloc a n = some block) : block.length = n := by
  cases a with
  | none => simp [malloc] at h
  | some g =>
    simp only [malloc, Option.map_some', Option.some.injEq] at h
    rw [← h]
    simp

theorem memcpy_full (dst src : List Nat) (n : Nat) (hd : dst.length = n) (hs : n ≤ src.length) :
    memcpy dst src n = src.take n := by
  apply blit_full
  simp only [List.length_take, hd]
  omega

theorem setRecord_ok (pdb : PDB) (i : Nat) (d : List Nat) (length attr : Nat) (a : Realloc)
    (hi : i < pdb.records.length) (hlen : length ≤ d.length)
    (hok : (PDB_SetRecord pdb i (some d) length attr a).1 = 0) :
    (PDB_SetRecord pdb i (some d) length attr a).2
      = { pdb with records := pdb.records.set i { attributes := attr, data := d.take length } } := by
  have hge : ¬ i ≥ pdb.num_records := by simp only [PDB.num_records]; omega
  unfold PDB_SetRecord at hok ⊢
  simp only [hge, if_false] at hok ⊢
  rcases hr : realloc a (pdb.records.getD i PDB_Record.zero).data length with ⟨_ | new_data, left⟩
  · rw [hr] at hok; simp at hok
  · simp only [Option.getD_some]
    rw [memcpy_full new_data d length
      (length_realloc a _ _ _ (by rw [hr])) hlen]

/-! ## The decoder on a stream that holds a full header and table -/

theorem length_store (le : Bool) (w v : Nat) : (store le w v).length = w := by
  cases le
  · simp only [store]
    induction w with
    | zero => rfl
    | succ k ih => simpa [be_bytes] using ih
  · simp only [store, if_true]
    induction w generalizing v with
    | zero => rfl
    | succ k ih => simpa [le_bytes] using ih (v / 256)

theorem fread_mk (buf : List Nat) (size : Nat) (bytes : List Nat) (pos : Nat)
    (h : pos + size ≤ bytes.length) (hb : size ≤ buf.length) :
    fread buf size ⟨bytes, pos⟩
      = ((bytes.drop pos).take size ++ buf.drop size, ⟨bytes, pos + size⟩) := by
  have hl : ((bytes.drop pos).take size).length = size := by
    simp only [List.length_take, List.length_drop]; omega
  simp only [fread, hl, blit]
  congr 1
  apply List.take_of_length_le
  simp only [List.length_append, hl, List.length_drop]
  omega

theorem fread_int_mk (le : Bool) (w v : Nat) (bytes : List Nat) (pos : Nat)
    (h : pos + w ≤ bytes.length) :
    fread_int le w v w ⟨bytes, pos⟩ = (load le ((bytes.drop pos).take w), ⟨bytes, pos + w⟩) := by
  simp only [fread_int]
  rw [fread_mk _ _ _ _ h (by rw [length_store])]
  have hd : (store le w v).drop w = [] :=
    List.drop_eq_nil_of_le (Nat.le_of_eq (length_store le w v))
  simp only [hd, List.append_nil]

theorem fread_int3_mk (le : Bool) (v : Nat) (bytes : List Nat) (pos : Nat)
    (h : pos + 3 ≤ bytes.length) :
    (fread_int le 4 v 3 ⟨bytes, pos⟩).2 = ⟨bytes, pos + 3⟩ := by
  simp only [fread_int]
  rw [fread_mk _ _ _ _ h (by rw [length_store]; omega)]

theorem fread_arr_mk {n : Nat} (arr : CharArray n) (size : Nat) (bytes : List Nat) (pos : Nat)
    (h : pos + size ≤ bytes.length) (hb : size ≤ n) :
    (fread_arr arr size ⟨bytes, pos⟩).1.val = (bytes.drop pos).take size ++ arr.val.drop size ∧
    (fread_arr arr size ⟨bytes, pos⟩).2 = ⟨bytes, pos + size⟩ := by
  simp only [fread_arr]
  rw [fread_mk _ _ _ _ h (by rw [arr.property]; exact hb)]
  exact ⟨rfl, rfl⟩

theorem setNumRecords_fresh (pdb : PDB) (n : Nat) (h : pdb.records = []) :
    PDB_SetNumRecords pdb n true
      = (0, { pdb with records := List.replicate n PDB_Record.zero }) := by
  unfold PDB_SetNumRecords
  simp only [PDB.num_records, h, List.length_nil, Nat.not_lt_zero, if_false]
  by_cases hn : n > 0
  · simp [hn]
  · have : n = 0 := by omega
    subst this
    simp [← h]

theorem readRecordHeaders_spec (env : ReadEnv) (bytes : List Nat) (k i : Nat) (s : HeaderLoop)
    (hf : s.f = ⟨bytes, 78 + 8 * i⟩) (hL : 78 + 8 * (i + k) ≤ bytes.length) :
    (readRecordHeaders env k i s).f = ⟨bytes, 78 + 8 * (i + k)⟩ ∧
    (∀ j, (readRecordHeaders env k i s).record_offsets[j]?
        = if i ≤ j ∧ j < i + k then (s.record_offsets[j]?).map fun _ => entryOffset env.le bytes j
          else s.record_offsets[j]?) ∧
    (∀ j, (readRecordHeaders env k i s).records[j]?
        = if i ≤ j ∧ j < i + k then
            (s.records[j]?).map fun rec => { rec with attributes := entryAttr bytes j }
          else s.records[j]?) := by
  induction k generalizing i s with
  | zero =>
    refine ⟨by simpa [readRecordHeaders] using hf, ?_, ?_⟩
    · intro j
      have : ¬ (i ≤ j ∧ j < i) := by omega
      simp [readRecordHeaders, this]
    · intro j
      have : ¬ (i ≤ j ∧ j < i) := by omega
      simp [readRecordHeaders, this]
  | succ k ih =>
    have h1 : fread_int env.le 4 s.val32 4 s.f
        = (load env.le (slice bytes (78 + 8 * i) 4), ⟨bytes, 78 + 8 * i + 4⟩) := by
      rw [hf]; exact fread_int_mk _ _ _ _ _ (by omega)
    have h2 : fread [u8 (env.attr i)] 1 ⟨bytes, 78 + 8 * i + 4⟩
        = (slice bytes (78 + 8 * i + 4) 1, ⟨bytes, 78 + 8 * i + 4 + 1⟩) := by
      rw [fread_mk _ _ _ _ (by omega) (by simp)]
      simp [slice]
    have h3 : ∀ v, (fread_int env.le 4 v 3 ⟨bytes, 78 + 8 * i + 4 + 1⟩).2
        = ⟨bytes, 78 + 8 * (i + 1)⟩ := by
      intro v
      rw [fread_int3_mk _ _ _ _ (by omega)]
      congr 1
    simp only [readRecordHeaders, h1, h2, h3]
    obtain ⟨ihf, iho, ihr⟩ := ih (i + 1)
      { f := ⟨bytes, 78 + 8 * (i + 1)⟩,
        val32 := (fread_int env.le 4 (load env.le (slice bytes (78 + 8 * i) 4)) 3
          ⟨bytes, 78 + 8 * i + 4 + 1⟩).1,
        record_offsets := s.record_offsets.set i
          (u32 (SWAP_BE_32 env.le (load env.le (slice bytes (78 + 8 * i) 4)))),
        records := List.modify
          (fun rec => { rec with attributes := (slice bytes (78 + 8 * i + 4) 1).headD 0 }) i
          s.records } rfl (by omega)
    refine ⟨?_, ?_, ?_⟩
    · rw [ihf]; congr 1; omega
    · intro j
      rw [iho j]
      by_cases hj : i + 1 ≤ j ∧ j < i + 1 + k
      · have hj' : i ≤ j ∧ j < i + (k + 1) := by omega
        have hne : ¬ i = j := by omega
        simp only [hj, hj', and_self, if_true, List.getElem?_set, hne, if_false]
      · simp only [hj, if_false]
        by_cases hij : i = j
        · subst hij
          have hj' : i ≤ i ∧ i < i + (k + 1) := by omega
          simp only [hj', and_self, if_true, List.getElem?_set, entryOffset]
          by_cases hlt : i < s.record_offsets.length
          · simp [hlt, List.getElem?_eq_getElem hlt]
          · simp [hlt, List.getElem?_eq_none (Nat.le_of_not_lt hlt)]
        · have hj' : ¬ (i ≤ j ∧ j < i + (k + 1)) := by omega
          simp only [hj', if_false, List.getElem?_set, hij]
    · intro j
      rw [ihr j]
      by_cases hj : i + 1 ≤ j ∧ j < i + 1 + k
      · have hj' : i ≤ j ∧ j < i + (k + 1) := by omega
        have hne : ¬ i = j := by omega
        simp only [hj, hj', and_self, if_true, List.getElem?_modify, hne, if_false]
        cases s.records[j]? <;> rfl
      · simp only [hj, if_false]
        by_cases hij : i = j
        · subst hij
          have hj' : i ≤ i ∧ i < i + (k + 1) := by omega
          simp only [hj', and_self, if_true, List.getElem?_modify, entryAttr]
          cases s.records[i]? <;> rfl
        · have hj' : ¬ (i ≤ j ∧ j < i + (k + 1)) := by omega
          simp only [hj', if_false, List.getElem?_modify, hij]
          cases s.records[j]? <;> rfl

theorem readRecordData_spec (env : ReadEnv) (offs : List Nat) (g : Nat → Nat → Nat)
    (hg : ∀ j, env.data j = some (g j)) (bytes : List Nat) (k i : Nat) (f : FILE)
    (records : List PDB_Record) (hf : f.bytes = bytes) :
    ∃ rs, readRecordData env offs k i f records = some rs ∧
      ∀ j, rs[j]?
        = if i ≤ j ∧ j < i + k then
            (records[j]?).map fun rec =>
              { rec with
                  data := readSegment (g j) bytes (offs.getD j 0)
                    (sub32 (offs.getD (j + 1) 0) (offs.getD j 0)) }
          else records[j]? := by
  induction k generalizing i f records with
  | zero =>
    refine ⟨records, rfl, ?_⟩
    intro j
    have : ¬ (i ≤ j ∧ j < i + 0) := by omega
    rw [if_neg this]
  | succ k ih =>
    simp only [readRecordData, hg, malloc, Option.map_some']
    obtain ⟨rs, hrs, hget⟩ := ih (i + 1)
      (fread ((List.range (sub32 (offs.getD (i + 1) 0) (offs.getD i 0))).map (g i))
        (sub32 (offs.getD (i + 1) 0) (offs.getD i 0)) (fseek f (offs.getD i 0))).2
      (List.modify (fun rec => { rec with data :=
        (fread ((List.range (sub32 (offs.getD (i + 1) 0) (offs.getD i 0))).map (g i))
          (sub32 (offs.getD (i + 1) 0) (offs.getD i 0)) (fseek f (offs.getD i 0))).1 }) i records)
      (by simp [fread, fseek, hf])
    refine ⟨rs, hrs, ?_⟩
    intro j
    rw [hget j]
    have hseg : (fread ((List.range (sub32 (offs.getD (i + 1) 0) (offs.getD i 0))).map (g i))
          (sub32 (offs.getD (i + 1) 0) (offs.getD i 0)) (fseek f (offs.getD i 0))).1
        = readSegment (g i) bytes (offs.getD i 0) (sub32 (offs.getD (i + 1) 0) (offs.getD i 0)) := by
      simp [fread, fseek, hf, readSegment, slice]
    by_cases hj : i + 1 ≤ j ∧ j < i + 1 + k
    · have hj' : i ≤ j ∧ j < i + (k + 1) := by omega
      have hne : ¬ i = j := by omega
      simp only [hj, hj', and_self, if_true, List.getElem?_modify, hne, if_false]
      cases records[j]? <;> rfl
    · simp only [hj, if_false]
      by_cases hij : i = j
      · subst hij
        have hj' : i ≤ i ∧ i < i + (k + 1) := by omega
        simp only [hj', and_self, if_true, List.getElem?_modify, hseg]
        cases records[i]? <;> rfl
      · have hj' : ¬ (i ≤ j ∧ j < i + (k + 1)) := by omega
        simp only [hj', if_false, List.getElem?_modify, hij]
        cases records[j]? <;> rfl

theorem fread_arr_snd {n : Nat} (arr : CharArray n) (size : Nat) (bytes : List Nat) (pos : Nat)
    (h : pos + size ≤ bytes.length) (hb : size ≤ n) :
    (fread_arr arr size ⟨bytes, pos⟩).2 = ⟨bytes, pos + size⟩ :=
  (fread_arr_mk arr size bytes pos h hb).2

theorem fread_arr_val {n : Nat} (arr : CharArray n) (size : Nat) (bytes : List Nat) (pos : Nat)
    (h : pos + size ≤ bytes.length) (hb : size ≤ n) :
    (fread_arr arr size ⟨bytes, pos⟩).1.val = slice bytes pos size ++ arr.val.drop size :=
  (fread_arr_mk arr size bytes pos h hb).1

theorem fread_int_slice (le : Bool) (w v : Nat) (bytes : List Nat) (pos : Nat)
    (h : pos + w ≤ bytes.length) :
    fread_int le w v w ⟨bytes, pos⟩ = (load le (slice bytes pos w), ⟨bytes, pos + w⟩) :=
  fread_int_mk le w v bytes pos h

theorem readHeader_spec (env : ReadEnv) (bytes : List Nat) (h78 : 78 ≤ bytes.length) :
    (readHeader env bytes).pdb.name.val = (slice bytes 0 32).set 31 0 ∧
    (readHeader env bytes).pdb.attributes = SWAP_BE_16 env.le (load env.le (slice bytes 32 2)) ∧
    (readHeader env bytes).pdb.version = SWAP_BE_16 env.le (load env.le (slice bytes 34 2)) ∧
    (readHeader env bytes).pdb.creation_time
      = u32 (SWAP_BE_32 env.le (load env.le (slice bytes 36 4))) ∧
    (readHeader env bytes).pdb.modification_time
      = u32 (SWAP_BE_32 env.le (load env.le (slice bytes 40 4))) ∧
    (readHeader env bytes).pdb.backup_time
      = u32 (SWAP_BE_32 env.le (load env.le (slice bytes 44 4))) ∧
    (readHeader env bytes).pdb.type.val = slice bytes 60 4 ++ [0] ∧
    (readHeader env bytes).pdb.creator.val = slice bytes 64 4 ++ [0] ∧
    (readHeader env bytes).pdb.app_info_block = [] ∧
    (readHeader env bytes).pdb.records = [] ∧
    (readHeader env bytes).app_info_offset
      = u32 (SWAP_BE_32 env.le (load env.le (slice bytes 52 4))) ∧
    (readHeader env bytes).num_records = SWAP_BE_16 env.le (load env.le (slice bytes 76 2)) ∧
    (readHeader env bytes).f = ⟨bytes, 78⟩ := by
  unfold readHeader
  simp (disch := omega) only [fread_int_slice, fread_arr_snd, fread_arr_val, Nat.zero_add,
    Nat.reduceAdd]
  simp [PDB.zero, CharArray.zero]

theorem headerLoop_offsets (env : ReadEnv) (bytes : List Nat) (n : Nat) (go : Nat → Nat)
    (S : HeaderLoop)
    (ho : ∀ j, S.record_offsets[j]?
        = if 0 ≤ j ∧ j < 0 + n then
            ((((List.range (n + 1)).map go).set n (u32 bytes.length))[j]?).map
              fun _ => entryOffset env.le bytes j
          else (((List.range (n + 1)).map go).set n (u32 bytes.length))[j]?)
    (j : Nat) (hj : j ≤ n) :
    S.record_offsets.getD j 0 = decodedOffset env.le bytes n j := by
  rw [List.getD_eq_getElem?_getD, ho j]
  simp only [decodedOffset]
  by_cases hlt : j < n
  · have h1 : 0 ≤ j ∧ j < 0 + n := by omega
    have h2 : ¬ n = j := by omega
    have h3 : j < n + 1 := by omega
    simp [h1, hlt, List.getElem?_set, h2, h3, List.getElem?_range h3]
  · have h1 : ¬ (0 ≤ j ∧ j < 0 + n) := by omega
    have h2 : n = j := by omega
    subst h2
    simp [List.getElem?_set]

theorem headerLoop_records (bytes : List Nat) (n : Nat) (S : HeaderLoop)
    (hr : ∀ j, S.records[j]?
        = if 0 ≤ j ∧ j < 0 + n then
            ((List.replicate n PDB_Record.zero)[j]?).map
              fun rec => { rec with attributes := entryAttr bytes j }
          else (List.replicate n PDB_Record.zero)[j]?)
    (j : Nat) :
    S.records[j]? = if j < n then some { attributes := entryAttr bytes j, data := [] } else none := by
  rw [hr j]
  by_cases hlt : j < n
  · have h1 : 0 ≤ j ∧ j < 0 + n := by omega
    simp [h1, hlt, List.getElem?_replicate, PDB_Record.zero]
  · have h1 : ¬ (0 ≤ j ∧ j < 0 + n) := by omega
    simp [h1, hlt, List.getElem?_replicate]

theorem readBody_spec (env : ReadEnv) (bytes : List Nat) (h : HeaderPart)
    (go ga : Nat → Nat) (g : Nat → Nat → Nat)
    (hrec : env.records_ok = true) (hoffs : env.offsets = some go)
    (happ : env.app_info = some ga) (hg : ∀ j, env.data j = some (g j))
    (hr : h.pdb.records = []) (ha : h.pdb.app_info_block = [])
    (hf : h.f = ⟨bytes, 78⟩) (hL : 78 + 8 * h.num_records ≤ bytes.length) :
    readBody env bytes h
      = (0, { h.pdb with
                app_info_block :=
                  if h.app_info_offset ≠ 0 then
                    readSegment ga bytes h.app_info_offset
                      (sub32 (decodedOffset env.le bytes h.num_records 0) h.app_info_offset)
                  else [],
                records := (List.range h.num_records).map fun j =>
                  { attributes := entryAttr bytes j,
                    data := readSegment (g j) bytes (decodedOffset env.le bytes h.num_records j)
                      (sub32 (decodedOffset env.le bytes h.num_records (j + 1))
                        (decodedOffset env.le bytes h.num_records j)) } }) := by
  have hu : u32 78 = 78 := by decide
  unfold readBody
  simp only [hrec, setNumRecords_fresh h.pdb h.num_records hr, hoffs, malloc, Option.map_some',
    hf, hu, fseek, happ, ne_eq, Int.reduceNeg, not_true_eq_false, if_false]
  obtain ⟨hSf, hSo, hSr⟩ := readRecordHeaders_spec env bytes h.num_records 0
    { f := ⟨bytes, 78⟩, val32 := h.val32,
      record_offsets := ((List.range (h.num_records + 1)).map go).set h.num_records
        (u32 bytes.length),
      records := List.replicate h.num_records PDB_Record.zero } rfl (by omega)
  generalize readRecordHeaders env h.num_records 0
    { f := ⟨bytes, 78⟩, val32 := h.val32,
      record_offsets := ((List.range (h.num_records + 1)).map go).set h.num_records
        (u32 bytes.length),
      records := List.replicate h.num_records PDB_Record.zero } = S at hSf hSo hSr ⊢
  have hoff := headerLoop_offsets env bytes h.num_records go S hSo
  have hrecs := headerLoop_records bytes h.num_records S hSr
  have hSb : S.f.bytes = bytes := by rw [hSf]
  have hfin : ∀ (f : FILE), f.bytes = bytes →
      readRecordData env S.record_offsets h.num_records 0 f S.records
        = some ((List.range h.num_records).map fun j =>
            { attributes := entryAttr bytes j,
              data := readSegment (g j) bytes (decodedOffset env.le bytes h.num_records j)
                (sub32 (decodedOffset env.le bytes h.num_records (j + 1))
                  (decodedOffset env.le bytes h.num_records j)) }) := by
    intro f hfb
    obtain ⟨rs, hrs, hget⟩ := readRecordData_spec env S.record_offsets g hg bytes h.num_records 0 f
      S.records hfb
    rw [hrs]
    congr 1
    apply List.ext_getElem?
    intro j
    rw [hget j, hrecs j]
    by_cases hlt : j < h.num_records
    · have h1 : 0 ≤ j ∧ j < 0 + h.num_records := by omega
      simp only [h1, hlt, and_self, if_true, Option.map_some', List.getElem?_map,
        List.getElem?_range hlt, hoff j (by omega), hoff (j + 1) (by omega)]
    · have h1 : ¬ (0 ≤ j ∧ j < 0 + h.num_records) := by omega
      simp only [h1, hlt, if_false, List.getElem?_map]
      rw [List.getElem?_eq_none (by simp; omega)]
      rfl
  by_cases h0 : h.app_info_offset = 0
  · simp only [h0, not_true_eq_false, if_false]
    rw [hfin S.f hSb, ha]
  · simp only [h0, not_false_eq_true, if_true]
    rw [hfin _ (by simp [fread, hSb])]
    simp only [fread, hSb, hoff 0 (by omega), readSegment, slice]

/-! ## Decoding what the encoder wrote -/

theorem decode_be16 (le : Bool) (x : Nat) (hx : x < 2 ^ 16) :
    SWAP_BE_16 le (load le (be16 x)) = x := by
  simp only [be16]
  rw [load_swap16 le _ _ (Nat.mod_lt _ (by decide)) (Nat.mod_lt _ (by decide))]
  omega

theorem decode_be32_mod (le : Bool) (x : Nat) :
    u32 (SWAP_BE_32 le (load le (be32 x))) = x % 2 ^ 32 := by
  simp only [be32]
  rw [load_swap32 le _ _ _ _ (Nat.mod_lt _ (by decide)) (Nat.mod_lt _ (by decide))
    (Nat.mod_lt _ (by decide)) (Nat.mod_lt _ (by decide))]
  omega

theorem decode_be32 (le : Bool) (x : Nat) (hx : x < 2 ^ 32) :
    u32 (SWAP_BE_32 le (load le (be32 x))) = x := by
  rw [decode_be32_mod, Nat.mod_eq_of_lt hx]

theorem sub32_add (a b : Nat) (h : a + b < 2 ^ 32) : sub32 (a + b) a = b := by
  simp only [sub32]
  omega

theorem slice_header (le : Bool) (pdb : PDB) (o l : Nat) (h : o + l ≤ 78) :
    slice (writeStream le pdb) o l = slice (specHeader pdb) o l := by
  rw [writeStream_eq, List.append_assoc, List.append_assoc]
  simp only [slice]
  rw [List.drop_append_of_le_length (by rw [length_specHeader]; omega),
    List.take_append_of_le_length (by rw [List.length_drop, length_specHeader]; omega)]

theorem header_slices (pdb : PDB) :
    slice (specHeader pdb) 0 32 = pdb.name.val ∧
    slice (specHeader pdb) 32 2 = be16 pdb.attributes ∧
    slice (specHeader pdb) 34 2 = be16 pdb.version ∧
    slice (specHeader pdb) 36 4 = be32 pdb.creation_time ∧
    slice (specHeader pdb) 40 4 = be32 pdb.modification_time ∧
    slice (specHeader pdb) 44 4 = be32 pdb.backup_time ∧
    slice (specHeader pdb) 52 4 = be32 (78 + 8 * pdb.num_records) ∧
    slice (specHeader pdb) 60 4 = pdb.type.val.take 4 ∧
    slice (specHeader pdb) 64 4 = pdb.creator.val.take 4 ∧
    slice (specHeader pdb) 76 2 = be16 pdb.num_records := by
  have hn := pdb.name.property
  have ht := pdb.type.property
  have hc := pdb.creator.property
  have ht4 : (pdb.type.val.take 4).length = 4 := by simp [ht]
  have hc4 : (pdb.creator.val.take 4).length = 4 := by simp [hc]
  have e1 : List.drop 76 pdb.name.val = [] := List.drop_eq_nil_of_le (by omega)
  have e2 : List.drop 16 (pdb.type.val.take 4) = [] := List.drop_eq_nil_of_le (by omega)
  have e3 : List.drop 12 (pdb.creator.val.take 4) = [] := List.drop_eq_nil_of_le (by omega)
  refine ⟨?_, ?_, ?_, ?_, ?_, ?_, ?_, ?_, ?_, ?_⟩ <;>
    simp [slice, specHeader, List.drop_append_eq_append_drop, List.take_append_eq_append_take,
      hn, ht, hc, be16, be32, e1, e2, e3]

theorem readFile_spec (env : ReadEnv) (pdb0 : PDB) (bytes : List Nat)
    (go ga : Nat → Nat) (g : Nat → Nat → Nat)
    (hrec : env.records_ok = true) (hoffs : env.offsets = some go)
    (happ : env.app_info = some ga) (hg : ∀ j, env.data j = some (g j))
    (hL : 78 + 8 * headerCount env.le bytes ≤ bytes.length) :
    (PDB_ReadFile env pdb0 (some bytes)).1 = 0 ∧
    (PDB_ReadFile env pdb0 (some bytes)).2.name.val = (slice bytes 0 32).set 31 0 ∧
    (PDB_ReadFile env pdb0 (some bytes)).2.attributes
      = SWAP_BE_16 env.le (load env.le (slice bytes 32 2)) ∧
    (PDB_ReadFile env pdb0 (some bytes)).2.version
      = SWAP_BE_16 env.le (load env.le (slice bytes 34 2)) ∧
    (PDB_ReadFile env pdb0 (some bytes)).2.creation_time
      = u32 (SWAP_BE_32 env.le (load env.le (slice bytes 36 4))) ∧
    (PDB_ReadFile env pdb0 (some bytes)).2.modification_time
      = u32 (SWAP_BE_32 env.le (load env.le (slice bytes 40 4))) ∧
    (PDB_ReadFile env pdb0 (some bytes)).2.backup_time
      = u32 (SWAP_BE_32 env.le (load env.le (slice bytes 44 4))) ∧
    (PDB_ReadFile env pdb0 (some bytes)).2.type.val = slice bytes 60 4 ++ [0] ∧
    (PDB_ReadFile env pdb0 (some bytes)).2.creator.val = slice bytes 64 4 ++ [0] ∧
    (PDB_ReadFile env pdb0 (some bytes)).2.app_info_block
      = (if headerAppInfoOffset env.le bytes ≠ 0 then
          readSegment ga bytes (headerAppInfoOffset env.le bytes)
            (sub32 (decodedOffset env.le bytes (headerCount env.le bytes) 0)
              (headerAppInfoOffset env.le bytes))
        else []) ∧
    (PDB_ReadFile env pdb0 (some bytes)).2.records
      = (List.range (headerCount env.le bytes)).map fun j =>
          { attributes := entryAttr bytes j,
            data := readSegment (g j) bytes (decodedOffset env.le bytes (headerCount env.le bytes) j)
              (sub32 (decodedOffset env.le bytes (headerCount env.le bytes) (j + 1))
                (decodedOffset env.le bytes (headerCount env.le bytes) j)) } := by
  have h78 : 78 ≤ bytes.length := by omega
  obtain ⟨h1, h2, h3, h4, h5, h6, h7, h8, h9, h10, h11, h12, h13⟩ := readHeader_spec env bytes h78
  have hb := readBody_spec env bytes (readHeader env bytes) go ga g hrec hoffs happ hg h10 h9 h13
    (by rw [h12]; exact hL)
  simp only [PDB_ReadFile, hb]
  simp only [h11, h12]
  exact ⟨trivial, h1, h2, h3, h4, h5, h6, h7, h8, rfl, rfl⟩

theorem lengthsBefore_succ (rs : List PDB_Record) (j : Nat) (hj : j < rs.length) :
    lengthsBefore rs (j + 1) = lengthsBefore rs j + rs[j].length := by
  induction rs generalizing j with
  | nil => simp at hj
  | cons r rs ih =>
    cases j with
    | zero => simp [lengthsBefore]
    | succ k =>
      have hk : k < rs.length := by simpa using hj
      rw [lengthsBefore_cons, lengthsBefore_cons, ih k hk]
      simp only [List.getElem_cons_succ]
      omega

theorem lengthsBefore_le (rs : List PDB_Record) (j : Nat) :
    lengthsBefore rs j ≤ (rs.map PDB_Record.length).sum := by
  induction rs generalizing j with
  | nil => simp [lengthsBefore]
  | cons r rs ih =>
    cases j with
    | zero => simp [lengthsBefore]
    | succ k =>
      rw [lengthsBefore_cons]
      simp only [List.map_cons, List.sum_cons]
      have := ih k
      omega

theorem recordOffset_le (le : Bool) (pdb : PDB) (j : Nat) :
    recordOffset pdb j ≤ (writeStream le pdb).length := by
  rw [length_writeStream]
  have := lengthsBefore_le pdb.records j
  simp only [recordOffset]
  omega

theorem recordOffset_length (le : Bool) (pdb : PDB) :
    recordOffset pdb pdb.num_records = (writeStream le pdb).length := by
  rw [length_writeStream]
  simp only [recordOffset, PDB.num_records, lengthsBefore_length]

theorem headerCount_write (le : Bool) (pdb : PDB) (hn : pdb.num_records < 2 ^ 16) :
    headerCount le (writeStream le pdb) = pdb.num_records := by
  simp only [headerCount]
  rw [slice_header le pdb 76 2 (by omega), (header_slices pdb).2.2.2.2.2.2.2.2.2,
    decode_be16 le _ hn]

theorem headerAppInfoOffset_write (le : Bool) (pdb : PDB) (hn : 78 + 8 * pdb.num_records < 2 ^ 32) :
    headerAppInfoOffset le (writeStream le pdb) = 78 + 8 * pdb.num_records := by
  simp only [headerAppInfoOffset]
  rw [slice_header le pdb 52 4 (by omega), (header_slices pdb).2.2.2.2.2.2.1,
    decode_be32 le _ hn]

theorem entryOffset_write_mod (le : Bool) (pdb : PDB) (i : Nat) (hi : i < pdb.records.length) :
    entryOffset le (writeStream le pdb) i = recordOffset pdb i % 2 ^ 32 := by
  have h := congrArg (List.take 4) (writeStream_entry le pdb i hi)
  rw [List.take_take] at h
  have h4 : List.take 4 (be32 (recordOffset pdb i) ++ [pdb.records[i].attributes % 256, 0, 0, 0])
      = be32 (recordOffset pdb i) := List.take_left' rfl
  rw [h4] at h
  simp only [entryOffset, slice]
  have hmin : min 4 8 = 4 := by decide
  rw [hmin] at h
  rw [h, decode_be32_mod]

theorem entryOffset_write (le : Bool) (pdb : PDB) (i : Nat) (hi : i < pdb.records.length)
    (hsize : (writeStream le pdb).length < 2 ^ 32) :
    entryOffset le (writeStream le pdb) i = recordOffset pdb i := by
  rw [entryOffset_write_mod le pdb i hi]
  exact Nat.mod_eq_of_lt (Nat.lt_of_le_of_lt (recordOffset_le le pdb i) hsize)

theorem entryAttr_write (le : Bool) (pdb : PDB) (i : Nat) (hi : i < pdb.records.length) :
    entryAttr (writeStream le pdb) i = pdb.records[i].attributes % 256 := by
  have h := congrArg (fun l => (l.drop 4).take 1) (writeStream_entry le pdb i hi)
  simp only [be32, List.cons_append, List.nil_append, List.drop_succ_cons, List.drop_zero,
    List.take_succ_cons, List.take_zero] at h
  rw [List.drop_take, List.drop_drop, List.take_take] at h
  simp only [entryAttr, slice]
  have hmin : min 1 (8 - 4) = 1 := by decide
  rw [hmin] at h
  rw [h]
  rfl

theorem slice_app_info (le : Bool) (pdb : PDB) :
    slice (writeStream le pdb) (78 + 8 * pdb.num_records) pdb.app_info_length
      = pdb.app_info_block := by
  have hl : (specHeader pdb ++ specTable pdb.records (recordOffset pdb 0)).length
      = 78 + 8 * pdb.num_records := by
    simp only [List.length_append, length_specHeader, length_specTable]; rfl
  rw [writeStream_eq, List.append_assoc (specHeader pdb ++ specTable pdb.records (recordOffset pdb 0))]
  simp only [slice]
  rw [← hl, List.drop_left]
  exact List.take_left' rfl

theorem decodedOffset_write (le : Bool) (pdb : PDB) (j : Nat) (hj : j ≤ pdb.records.length)
    (hsize : (writeStream le pdb).length < 2 ^ 32) :
    decodedOffset le (writeStream le pdb) pdb.num_records j = recordOffset pdb j := by
  simp only [decodedOffset, PDB.num_records]
  by_cases hlt : j < pdb.records.length
  · rw [if_pos hlt, entryOffset_write le pdb j hlt hsize]
  · have : j = pdb.num_records := by simp only [PDB.num_records]; omega
    rw [if_neg hlt, this, recordOffset_length le pdb]
    exact Nat.mod_eq_of_lt hsize

theorem readSegment_exact (g : Nat → Nat) (bytes : List Nat) (off len : Nat) (d : List Nat)
    (hs : slice bytes off len = d) (hd : d.length = len) : readSegment g bytes off len = d := by
  simp only [readSegment, hs]
  apply blit_full
  simp [hd]

theorem roundtrip_fields (env : ReadEnv) (pdb0 pdb : PDB) (go ga : Nat → Nat) (g : Nat → Nat → Nat)
    (hrec : env.records_ok = true) (hoffs : env.offsets = some go)
    (happ : env.app_info = some ga) (hg : ∀ j, env.data j = some (g j))
    (hattr : pdb.attributes < 2 ^ 16) (hver : pdb.version < 2 ^ 16)
    (hct : pdb.creation_time < 2 ^ 32) (hmt : pdb.modification_time < 2 ^ 32)
    (hbt : pdb.backup_time < 2 ^ 32) (hra : ∀ r ∈ pdb.records, r.attributes < 256)
    (hn : pdb.num_records < 2 ^ 16) (hsize : (writeStream env.le pdb).length < 2 ^ 32) :
    (PDB_ReadFile env pdb0 (some (writeStream env.le pdb))).1 = 0 ∧
    (PDB_ReadFile env pdb0 (some (writeStream env.le pdb))).2.name.val = pdb.name.val.set 31 0 ∧
    (PDB_ReadFile env pdb0 (some (writeStream env.le pdb))).2.attributes = pdb.attributes ∧
    (PDB_ReadFile env pdb0 (some (writeStream env.le pdb))).2.version = pdb.version ∧
    (PDB_ReadFile env pdb0 (some (writeStream env.le pdb))).2.creation_time = pdb.creation_time ∧
    (PDB_ReadFile env pdb0 (some (writeStream env.le pdb))).2.modification_time
      = pdb.modification_time ∧
    (PDB_ReadFile env pdb0 (some (writeStream env.le pdb))).2.backup_time = pdb.backup_time ∧
    (PDB_ReadFile env pdb0 (some (writeStream env.le pdb))).2.type.val
      = pdb.type.val.take 4 ++ [0] ∧
    (PDB_ReadFile env pdb0 (some (writeStream env.le pdb))).2.creator.val
      = pdb.creator.val.take 4 ++ [0] ∧
    (PDB_ReadFile env pdb0 (some (writeStream env.le pdb))).2.app_info_block
      = pdb.app_info_block ∧
    (PDB_ReadFile env pdb0 (some (writeStream env.le pdb))).2.records = pdb.records := by
  have hcount := headerCount_write env.le pdb hn
  have hlen := length_writeStream env.le pdb
  have hL : 78 + 8 * headerCount env.le (writeStream env.le pdb) ≤ (writeStream env.le pdb).length := by
    rw [hcount, hlen]; omega
  have ha : headerAppInfoOffset env.le (writeStream env.le pdb) = 78 + 8 * pdb.num_records :=
    headerAppInfoOffset_write env.le pdb (by omega)
  obtain ⟨h0, h1, h2, h3, h4, h5, h6, h7, h8, h9, h10⟩ :=
    readFile_spec env pdb0 (writeStream env.le pdb) go ga g hrec hoffs happ hg hL
  obtain ⟨s1, s2, s3, s4, s5, s6, _, s8, s9, _⟩ := header_slices pdb
  refine ⟨h0, ?_, ?_, ?_, ?_, ?_, ?_, ?_, ?_, ?_, ?_⟩
  · rw [h1, slice_header _ _ _ _ (by omega), s1]
  · rw [h2, slice_header _ _ _ _ (by omega), s2, decode_be16 _ _ hattr]
  · rw [h3, slice_header _ _ _ _ (by omega), s3, decode_be16 _ _ hver]
  · rw [h4, slice_header _ _ _ _ (by omega), s4, decode_be32 _ _ hct]
  · rw [h5, slice_header _ _ _ _ (by omega), s5, decode_be32 _ _ hmt]
  · rw [h6, slice_header _ _ _ _ (by omega), s6, decode_be32 _ _ hbt]
  · rw [h7, slice_header _ _ _ _ (by omega), s8]
  · rw [h8, slice_header _ _ _ _ (by omega), s9]
  · rw [h9, ha, hcount]
    have hne : 78 + 8 * pdb.num_records ≠ 0 := by omega
    rw [if_pos hne, decodedOffset_write env.le pdb 0 (by omega) hsize]
    have ho : recordOffset pdb 0 = 78 + 8 * pdb.num_records + pdb.app_info_length := by
      simp [recordOffset, lengthsBefore_zero]
    have hb : 78 + 8 * pdb.num_records + pdb.app_info_length < 2 ^ 32 := by omega
    rw [ho, sub32_add _ _ hb]
    exact readSegment_exact _ _ _ _ _ (slice_app_info env.le pdb) rfl
  · rw [h10, hcount]
    apply List.ext_getElem?
    intro j
    rw [List.getElem?_map]
    by_cases hj : j < pdb.records.length
    · have hj' : j < pdb.num_records := hj
      rw [List.getElem?_range hj', List.getElem?_eq_getElem hj]
      simp only [Option.map_some', Option.some.injEq]
      rw [decodedOffset_write env.le pdb j (by omega) hsize,
        decodedOffset_write env.le pdb (j + 1) (by omega) hsize]
      have hsucc : recordOffset pdb (j + 1) = recordOffset pdb j + pdb.records[j].length := by
        simp only [recordOffset, lengthsBefore_succ pdb.records j hj]; omega
      have hb : recordOffset pdb j + pdb.records[j].length < 2 ^ 32 := by
        rw [← hsucc]
        exact Nat.lt_of_le_of_lt (recordOffset_le env.le pdb (j + 1)) hsize
      rw [hsucc, sub32_add _ _ hb, entryAttr_write env.le pdb j hj,
        readSegment_exact _ _ _ _ _ (writeStream_record env.le pdb j hj) rfl,
        Nat.mod_eq_of_lt (hra _ (List.getElem_mem hj))]
    · have hj' : pdb.num_records ≤ j := by simp only [PDB.num_records]; omega
      rw [List.getElem?_eq_none (by simpa using hj'), List.getElem?_eq_none (by omega)]
      rfl

theorem cstr_set_last (l : List Nat) (h : 0 ∈ l) : cstr (l.set (l.length - 1) 0) = cstr l := by
  induction l with
  | nil => simp at h
  | cons a t ih =>
    cases t with
    | nil =>
      have : a = 0 := (List.mem_singleton.mp h).symm
      subst this
      rfl
    | cons b t' =>
      have e : (a :: b :: t').length - 1 = (b :: t').length - 1 + 1 := by simp
      rw [e, List.set_cons_succ]
      by_cases ha : a = 0
      · subst ha
        simp [cstr, List.takeWhile_cons]
      · have hmem : 0 ∈ b :: t' := by
          rcases List.mem_cons.mp h with h0 | h0
          · exact absurd h0.symm ha
          · exact h0
        have := ih hmem
        simp only [cstr, List.takeWhile_cons, ha, ne_eq, not_false_eq_true, decide_True,
          if_true] at this ⊢
        rw [this]

theorem length_hugeBlock : hugeBlock.length = 4294967210 := by
  unfold hugeBlock
  exact List.length_replicate _ _

theorem oneRecordWith_length (block : List Nat) (hb : block.length = 4294967210) :
    (writeStream true (oneRecordWith block)).length = 4294967297 := by
  have hn : (oneRecordWith block).num_records = 1 := rfl
  have hs : ((oneRecordWith block).records.map PDB_Record.length).sum = 1 := rfl
  have hm : (oneRecordWith block).app_info_length = 4294967210 := hb
  rw [length_writeStream, hm, hn, hs]

theorem oneRecordWith_records (block : List Nat) (hb : block.length = 4294967210) :
    (PDB_ReadFile quietEnv PDB.zero (some (writeStream true (oneRecordWith block)))).2.records
      = [{ attributes := 0, data := [0] }] := by
  have hn : (oneRecordWith block).num_records = 1 := rfl
  have hm : (oneRecordWith block).app_info_length = 4294967210 := hb
  have hlt : 0 < (oneRecordWith block).records.length := Nat.zero_lt_one
  have hcount : headerCount true (writeStream true (oneRecordWith block)) = 1 :=
    headerCount_write true (oneRecordWith block) (by rw [hn]; decide)
  have hL : 78 + 8 * headerCount quietEnv.le (writeStream true (oneRecordWith block))
      ≤ (writeStream true (oneRecordWith block)).length := by
    show 78 + 8 * headerCount true (writeStream true (oneRecordWith block)) ≤ _
    rw [hcount, oneRecordWith_length block hb]; decide
  have h := (readFile_spec quietEnv PDB.zero (writeStream true (oneRecordWith block)) (fun _ => 0)
    (fun _ => 0) (fun _ _ => 0) rfl rfl rfl (fun _ => rfl) hL).2.2.2.2.2.2.2.2.2.2
  rw [h]
  have ho0 : recordOffset (oneRecordWith block) 0 = 4294967296 := by
    unfold recordOffset
    rw [hn, hm, lengthsBefore_zero]
  have h0 : decodedOffset true (writeStream true (oneRecordWith block)) 1 0 = 0 := by
    simp only [decodedOffset, Nat.lt_one_iff, if_true]
    rw [entryOffset_write_mod true (oneRecordWith block) 0 hlt, ho0]
    decide
  have h1 : decodedOffset true (writeStream true (oneRecordWith block)) 1 1 = 1 := by
    simp only [decodedOffset, Nat.lt_irrefl, if_false, u32, oneRecordWith_length block hb]
    decide
  have ha : entryAttr (writeStream true (oneRecordWith block)) 0 = 0 := by
    rw [entryAttr_write true (oneRecordWith block) 0 hlt]; rfl
  have hs : slice (writeStream true (oneRecordWith block)) 0 1 = [0] := by
    rw [slice_header true (oneRecordWith block) 0 1 (by decide)]
    rfl
  have hr1 : List.range 1 = [0] := rfl
  have hsub : sub32 1 0 = 1 := by decide
  simp only [quietEnv, hcount, hr1, List.map_cons, List.map_nil, Nat.zero_add, h0, h1, ha, hsub]
  rw [readSegment_exact _ _ 0 1 [0] hs rfl]

/-! ## The claims -/

/-- C1 (as amended): round trip.  Let `pdb` be a database whose name holds a zero
byte in its 32-byte slot, whose attributes and version are below `2^16`, whose
three times are `unsigned int` values, whose record attributes are below 256,
which has fewer than `2^16` records, and whose encoding is shorter than `2^32`
bytes (`78 + 8 * n + metadata length + sum of the record lengths < 2^32`).
Then, whatever the byte orders of the writing and of the reading host and
when every allocation succeeds, `PDB_ReadFile` applied to the file
`PDB_WriteFile` produces returns 0 and
yields the same name (as a C string), attributes, version, creation,
modification and backup time, the same first 4 bytes of type and of creator,
the same metadata length and bytes, the same record count and the same
records (bytes and attributes) in the same order. -/
theorem C1_round_trip (lew : Bool) (env : ReadEnv) (pdb0 pdb : PDB) (go ga : Nat → Nat) (g : Nat → Nat → Nat)
    (hrec : env.records_ok = true) (hoffs : env.offsets = some go)
    (happ : env.app_info = some ga) (hg : ∀ j, env.data j = some (g j))
    (hname : 0 ∈ pdb.name.val)
    (hattr : pdb.attributes < 2 ^ 16) (hver : pdb.version < 2 ^ 16)
    (hct : pdb.creation_time < 2 ^ 32) (hmt : pdb.modification_time < 2 ^ 32)
    (hbt : pdb.backup_time < 2 ^ 32) (hra : ∀ r ∈ pdb.records, r.attributes < 256)
    (hn : pdb.num_records < 2 ^ 16)
    (hsize : 78 + 8 * pdb.num_records + pdb.app_info_length
      + (pdb.records.map PDB_Record.length).sum < 2 ^ 32) :
    PDB_WriteFile lew pdb true = (0, some (writeStream lew pdb)) ∧
    (PDB_ReadFile env pdb0 (some (writeStream lew pdb))).1 = 0 ∧
    cstr (PDB_ReadFile env pdb0 (some (writeStream lew pdb))).2.name.val = cstr pdb.name.val ∧
    (PDB_ReadFile env pdb0 (some (writeStream lew pdb))).2.attributes = pdb.attributes ∧
    (PDB_ReadFile env pdb0 (some (writeStream lew pdb))).2.version = pdb.version ∧
    (PDB_ReadFile env pdb0 (some (writeStream lew pdb))).2.creation_time = pdb.creation_time ∧
    (PDB_ReadFile env pdb0 (some (writeStream lew pdb))).2.modification_time
      = pdb.modification_time ∧
    (PDB_ReadFile env pdb0 (some (writeStream lew pdb))).2.backup_time = pdb.backup_time ∧
    (PDB_ReadFile env pdb0 (some (writeStream lew pdb))).2.type.val.take 4
      = pdb.type.val.take 4 ∧
    (PDB_ReadFile env pdb0 (some (writeStream lew pdb))).2.creator.val.take 4
      = pdb.creator.val.take 4 ∧
    (PDB_ReadFile env pdb0 (some (writeStream lew pdb))).2.app_info_length
      = pdb.app_info_length ∧
    (PDB_ReadFile env pdb0 (some (writeStream lew pdb))).2.app_info_block
      = pdb.app_info_block ∧
    (PDB_ReadFile env pdb0 (some (writeStream lew pdb))).2.num_records = pdb.num_records ∧
    (PDB_ReadFile env pdb0 (some (writeStream lew pdb))).2.records = pdb.records := by
  have hw : writeStream lew pdb = writeStream env.le pdb := by
    rw [writeStream_eq, writeStream_eq]
  rw [hw]
  have hsize' : (writeStream env.le pdb).length < 2 ^ 32 := by
    rw [length_writeStream]; exact hsize
  obtain ⟨h0, h1, h2, h3, h4, h5, h6, h7, h8, h9, h10⟩ :=
    roundtrip_fields env pdb0 pdb go ga g hrec hoffs happ hg hattr hver hct hmt hbt hra hn hsize'
  have ht4 : (pdb.type.val.take 4).length = 4 := by simp [pdb.type.property]
  have hc4 : (pdb.creator.val.take 4).length = 4 := by simp [pdb.creator.property]
  refine ⟨by rw [← hw]; rfl, h0, ?_, h2, h3, h4, h5, h6, ?_, ?_, ?_, h9, ?_, h10⟩
  · rw [h1]
    have h31 : 31 = pdb.name.val.length - 1 := by rw [pdb.name.property]
    rw [h31]
    exact cstr_set_last _ hname
  · rw [h7]; exact List.take_left' ht4
  · rw [h8]; exact List.take_left' hc4
  · simp only [PDB.app_info_length, h9]
  · simp only [PDB.num_records, h10]

/-- Scenario A of the specification as an instance of C1: the record `hello` with
its terminating zero byte comes back from the round trip. -/
theorem C1_round_trip_witness :
    scenarioA.records = [{ attributes := 0, data := [104, 101, 108, 108, 111, 0] }] ∧
    (PDB_ReadFile quietEnv PDB.zero (some (writeStream true scenarioA))).1 = 0 ∧
    (PDB_ReadFile quietEnv PDB.zero (some (writeStream true scenarioA))).2.records
      = scenarioA.records :=
  have h := C1_round_trip true quietEnv PDB.zero scenarioA (fun _ => 0) (fun _ => 0) (fun _ _ => 0)
    rfl rfl rfl (fun _ => rfl) (by decide) (by decide) (by decide) (by decide) (by decide)
    (by decide) (by decide) (by decide) (by decide)
  ⟨by decide, h.2.1, h.2.2.2.2.2.2.2.2.2.2.2.2.2⟩

theorem oneRecordWith_pre (block : List Nat) :
    0 ∈ (oneRecordWith block).name.val ∧ (oneRecordWith block).attributes < 2 ^ 16 ∧
    (oneRecordWith block).version < 2 ^ 16 ∧
    (∀ r ∈ (oneRecordWith block).records, r.attributes < 256) ∧
    (oneRecordWith block).num_records < 2 ^ 16 := by
  refine ⟨?_, ?_, ?_, ?_, ?_⟩
  · show 0 ∈ List.replicate 32 0
    decide
  · show 0 < 2 ^ 16
    decide
  · show 0 < 2 ^ 16
    decide
  · intro r hr
    have : r = { attributes := 0, data := [7] } := by
      simpa [oneRecordWith] using hr
    subst this
    decide
  · show 1 < 2 ^ 16
    decide

/-- C1 (counterexample): the database with a metadata block of `2^32 - 86` bytes and
one record holding the byte 7 meets every condition the claim lists (name
with a zero byte, attributes and version below `2^16`, record attributes
below 256, one record), yet the record offset `86 + (2^32 - 86)` wraps to 0
in the 32-bit table entry, and `PDB_ReadFile` of the file `PDB_WriteFile`
wrote yields a record holding the byte 0 (the first byte of the name)
instead of 7. -/
theorem C1_huge_database_counterexample :
    (0 ∈ (oneRecordWith hugeBlock).name.val ∧ (oneRecordWith hugeBlock).attributes < 2 ^ 16 ∧
      (oneRecordWith hugeBlock).version < 2 ^ 16 ∧
      (∀ r ∈ (oneRecordWith hugeBlock).records, r.attributes < 256) ∧
      (oneRecordWith hugeBlock).num_records < 2 ^ 16) ∧
    (oneRecordWith hugeBlock).records = [{ attributes := 0, data := [7] }] ∧
    (PDB_ReadFile quietEnv PDB.zero (some (writeStream true (oneRecordWith hugeBlock)))).2.records
      = [{ attributes := 0, data := [0] }] ∧
    (PDB_ReadFile quietEnv PDB.zero (some (writeStream true (oneRecordWith hugeBlock)))).2.records
      ≠ (oneRecordWith hugeBlock).records := by
  refine ⟨oneRecordWith_pre hugeBlock, rfl, oneRecordWith_records hugeBlock length_hugeBlock, ?_⟩
  rw [oneRecordWith_records hugeBlock length_hugeBlock]
  intro h
  have h2 := congrArg (fun l => (l.map PDB_Record.data)) h
  exact absurd h2 (by decide)

theorem be_val_be32 (v : Nat) : be_val (be32 v) = v % 2 ^ 32 := by
  simp only [be_val, be32, List.length_cons, List.length_nil]
  omega

theorem writeStream_entry_offset (le : Bool) (pdb : PDB) (i : Nat) (hi : i < pdb.records.length) :
    ((writeStream le pdb).drop (78 + 8 * i)).take 4 = be32 (recordOffset pdb i) := by
  have h := congrArg (List.take 4) (writeStream_entry le pdb i hi)
  rw [List.take_take] at h
  exact h

theorem oneRecordWith_entry (block : List Nat) (hb : block.length = 4294967210) :
    78 + 8 * (oneRecordWith block).num_records + (oneRecordWith block).app_info_length
        + lengthsBefore (oneRecordWith block).records 0 = 4294967296 ∧
    ((writeStream true (oneRecordWith block)).drop 78).take 8 = [0, 0, 0, 0, 0, 0, 0, 0] ∧
    be_val (((writeStream true (oneRecordWith block)).drop 78).take 4) = 0 := by
  have hn : (oneRecordWith block).num_records = 1 := rfl
  have hm : (oneRecordWith block).app_info_length = 4294967210 := hb
  have hlt : 0 < (oneRecordWith block).records.length := Nat.zero_lt_one
  have ho0 : recordOffset (oneRecordWith block) 0 = 4294967296 := by
    unfold recordOffset
    rw [hn, hm, lengthsBefore_zero]
  have hbe : be32 4294967296 = [0, 0, 0, 0] := by decide
  refine ⟨?_, ?_, ?_⟩
  · rw [hn, hm, lengthsBefore_zero]
  · have h := writeStream_entry true (oneRecordWith block) 0 hlt
    rw [ho0, hbe] at h
    exact h
  · have h := writeStream_entry_offset true (oneRecordWith block) 0 hlt
    rw [ho0, hbe] at h
    show be_val (((writeStream true (oneRecordWith block)).drop (78 + 8 * 0)).take 4) = 0
    rw [h]
    rfl

/-- C2 (as amended): offset table.  For every database with `n` records and metadata
length `m`, on either host byte order: when `78 + 8 * n` is below `2^32`,
bytes 52..55 of the file `PDB_WriteFile` writes are the big-endian 32-bit
encoding of `78 + 8 * n`, four bytes whose value, read most significant byte
first, is `78 + 8 * n`; and for every `i < n` whose offset
`78 + 8 * n + m +` (sum of the lengths of records `0 .. i-1`) is below
`2^32`, the 8 bytes at `78 + 8 * i` are the big-endian 32-bit encoding of
that offset, four bytes whose value is the offset, then the record's
attribute byte, then three zero bytes. -/
theorem C2_offset_table (le : Bool) (pdb : PDB) :
    PDB_WriteFile le pdb true = (0, some (writeStream le pdb)) ∧
    (78 + 8 * pdb.num_records < 2 ^ 32 →
      ((writeStream le pdb).drop 52).take 4 = be32 (78 + 8 * pdb.num_records) ∧
      be_val (((writeStream le pdb).drop 52).take 4) = 78 + 8 * pdb.num_records) ∧
    ∀ (i : Nat) (hi : i < pdb.records.length),
      78 + 8 * pdb.num_records + pdb.app_info_length + lengthsBefore pdb.records i < 2 ^ 32 →
      ((writeStream le pdb).drop (78 + 8 * i)).take 8
        = be32 (78 + 8 * pdb.num_records + pdb.app_info_length + lengthsBefore pdb.records i)
            ++ [pdb.records[i].attributes % 256, 0, 0, 0] ∧
      be_val (((writeStream le pdb).drop (78 + 8 * i)).take 4)
        = 78 + 8 * pdb.num_records + pdb.app_info_length + lengthsBefore pdb.records i := by
  refine ⟨rfl, ?_, ?_⟩
  · intro h
    refine ⟨writeStream_offset_field le pdb, ?_⟩
    rw [writeStream_offset_field le pdb, be_val_be32, Nat.mod_eq_of_lt h]
  · intro i hi h
    refine ⟨writeStream_entry le pdb i hi, ?_⟩
    rw [writeStream_entry_offset le pdb i hi, be_val_be32]
    exact Nat.mod_eq_of_lt h

/-- Scenario C of the specification as an instance of C2: metadata offset 86 and
record offset 96. -/
theorem C2_offset_table_witness :
    scenarioC.app_info_length = 10 ∧ scenarioC.num_records = 1 ∧
    ((writeStream true scenarioC).drop 52).take 4 = [0, 0, 0, 86] ∧
    be_val (((writeStream true scenarioC).drop 52).take 4) = 86 ∧
    ((writeStream true scenarioC).drop 78).take 8 = [0, 0, 0, 96, 3, 0, 0, 0] ∧
    be_val (((writeStream true scenarioC).drop 78).take 4) = 96 :=
  ⟨rfl, rfl, ((C2_offset_table true scenarioC).2.1 (by decide)).1,
    ((C2_offset_table true scenarioC).2.1 (by decide)).2,
    ((C2_offset_table true scenarioC).2.2 0 (by decide) (by decide)).1,
    ((C2_offset_table true scenarioC).2.2 0 (by decide) (by decide)).2⟩

/-- C2 (counterexample): for the database with a metadata block of `2^32 - 86` bytes
and one record, `n = 1` and `m = 2^32 - 86`, so the offset of record 0 that
the claim names is `78 + 8 + m = 2^32`; the record-header entry that
`PDB_WriteFile` writes is eight zero bytes, and the value of its first four
bytes is 0, not `2^32`. -/
theorem C2_offset_wraps_counterexample :
    (oneRecordWith hugeBlock).num_records = 1 ∧
    (oneRecordWith hugeBlock).app_info_length = 4294967210 ∧
    78 + 8 * (oneRecordWith hugeBlock).num_records + (oneRecordWith hugeBlock).app_info_length
        + lengthsBefore (oneRecordWith hugeBlock).records 0 = 4294967296 ∧
    ((writeStream true (oneRecordWith hugeBlock)).drop 78).take 8 = [0, 0, 0, 0, 0, 0, 0, 0] ∧
    be_val (((writeStream true (oneRecordWith hugeBlock)).drop 78).take 4) = 0 :=
  ⟨rfl, length_hugeBlock, oneRecordWith_entry hugeBlock length_hugeBlock⟩

/-- C3: contiguous layout.  For every database with `n` records the file
`PDB_WriteFile` writes is its first 78 bytes (the header), then `8 * n` bytes
(the record-header table), then the metadata block, then the data of all
records in order, and nothing else; so its length is
`78 + 8 * n + metadata length + sum of the record lengths`, the bytes at
`[offset_i, offset_i + length_i)` are the data of record `i`, where `offset_i`
is the cumulative length of everything before it, and a database with no
records and no metadata block encodes to exactly 78 bytes. -/
theorem C3_contiguous_layout (le : Bool) (pdb : PDB) :
    PDB_WriteFile le pdb true = (0, some (writeStream le pdb)) ∧
    writeStream le pdb
      = (writeStream le pdb).take 78 ++ ((writeStream le pdb).drop 78).take (8 * pdb.num_records)
          ++ pdb.app_info_block ++ (pdb.records.map PDB_Record.data).flatten ∧
    ((writeStream le pdb).take 78).length = 78 ∧
    (((writeStream le pdb).drop 78).take (8 * pdb.num_records)).length = 8 * pdb.num_records ∧
    (writeStream le pdb).length
      = 78 + 8 * pdb.num_records + pdb.app_info_length + (pdb.records.map PDB_Record.length).sum ∧
    (∀ (i : Nat) (hi : i < pdb.records.length),
      ((writeStream le pdb).drop
          (78 + 8 * pdb.num_records + pdb.app_info_length + lengthsBefore pdb.records i)).take
        pdb.records[i].length = pdb.records[i].data) ∧
    (pdb.records = [] → pdb.app_info_block = [] → (writeStream le pdb).length = 78) := by
  refine ⟨rfl, ?_, ?_, ?_, length_writeStream le pdb, fun i hi => writeStream_record le pdb i hi, ?_⟩
  · rw [writeStream_header, writeStream_table]
    exact writeStream_eq le pdb
  · rw [writeStream_header, length_specHeader]
  · rw [writeStream_table, length_specTable]; rfl
  · intro hr ha
    rw [length_writeStream]
    simp [PDB.num_records, PDB.app_info_length, hr, ha]

/-- Scenario B of the specification (78 bytes) and record 0 of scenario C as
instances of C3. -/
theorem C3_contiguous_layout_witness :
    (writeStream true PDB.zero).length = 78 ∧
    ((writeStream true scenarioC).drop 96).take 5 = [11, 12, 13, 14, 15] :=
  ⟨(C3_contiguous_layout true PDB.zero).2.2.2.2.2.2 rfl rfl,
    (C3_contiguous_layout true scenarioC).2.2.2.2.2.1 0 (by decide)⟩

/-- C4: header layout.  For every database and either host byte order, the first 78
bytes `PDB_WriteFile` writes are the 32 name bytes, attributes mod `2^16` and
version mod `2^16` as 2 bytes big-endian, creation, modification and backup
time as 4 bytes big-endian, four zero bytes, the metadata-block offset
`78 + 8 * n` as 4 bytes big-endian, four zero bytes, the first 4 bytes of
type, the first 4 bytes of creator, eight zero bytes, and the record count as
2 bytes big-endian. -/
theorem C4_header_layout (le : Bool) (pdb : PDB) :
    PDB_WriteFile le pdb true = (0, some (writeStream le pdb)) ∧
    (writeStream le pdb).take 78
      = pdb.name.val ++ be16 (pdb.attributes % 2 ^ 16) ++ be16 (pdb.version % 2 ^ 16)
          ++ be32 pdb.creation_time ++ be32 pdb.modification_time ++ be32 pdb.backup_time
          ++ [0, 0, 0, 0] ++ be32 (78 + 8 * pdb.num_records) ++ [0, 0, 0, 0]
          ++ pdb.type.val.take 4 ++ pdb.creator.val.take 4
          ++ [0, 0, 0, 0, 0, 0, 0, 0] ++ be16 pdb.num_records ∧
    pdb.name.val.length = 32 ∧ (pdb.type.val.take 4).length = 4 ∧
    (pdb.creator.val.take 4).length = 4 := by
  have ha : be16 (pdb.attributes % 2 ^ 16) = be16 pdb.attributes := by
    simp only [be16]
    have a1 : pdb.attributes % 2 ^ 16 / 256 % 256 = pdb.attributes / 256 % 256 := by omega
    have a0 : pdb.attributes % 2 ^ 16 % 256 = pdb.attributes % 256 := by omega
    rw [a1, a0]
  have hv : be16 (pdb.version % 2 ^ 16) = be16 pdb.version := by
    simp only [be16]
    have a1 : pdb.version % 2 ^ 16 / 256 % 256 = pdb.version / 256 % 256 := by omega
    have a0 : pdb.version % 2 ^ 16 % 256 = pdb.version % 256 := by omega
    rw [a1, a0]
  refine ⟨rfl, ?_, pdb.name.property, ?_, ?_⟩
  · rw [writeStream_header, ha, hv]; rfl
  · simp [pdb.type.property]
  · simp [pdb.creator.property]

/-- C5 (the code at the failing input): for the database without metadata block and
without records, `PDB_WriteFile` stores 78, not 0, in the metadata-block
offset field (bytes 52..55), on either host byte order. -/
theorem C5_offset_written_without_metadata (le : Bool) :
    PDB.zero.app_info_length = 0 ∧
    PDB_WriteFile le PDB.zero true = (0, some (writeStream le PDB.zero)) ∧
    ((writeStream le PDB.zero).drop 52).take 4 = [0, 0, 0, 78] :=
  ⟨rfl, rfl, writeStream_offset_field le PDB.zero⟩

/-- C6 (the code at the failing input): `PDB_SetAppInfoBlock` with the 3-byte block
`1 2 3`, when `malloc` hands out zeroed memory, returns 0 and sets the length
to 3, but the stored block is the fresh memory `0 0 0`, not a copy of the
block passed in. -/
theorem C6_block_not_copied :
    (PDB_SetAppInfoBlock PDB.zero (some [1, 2, 3]) 3 (some fun _ => 0)).1 = 0 ∧
    (PDB_SetAppInfoBlock PDB.zero (some [1, 2, 3]) 3 (some fun _ => 0)).2.app_info_length = 3 ∧
    (PDB_SetAppInfoBlock PDB.zero (some [1, 2, 3]) 3 (some fun _ => 0)).2.app_info_block
      = [0, 0, 0] := by
  decide

/-- C7: metadata clearing.  For every database (in particular one that holds a
non-empty metadata block), `PDB_SetAppInfoBlock` with a NULL block returns 0,
leaves metadata length 0 and the records unchanged, and the file a following
`PDB_WriteFile` writes goes from the record-header table straight to the
record data: what follows byte `78 + 8 * n` is the concatenated record data,
the data offset in the first table entry is `78 + 8 * n`, and the length is
`78 + 8 * n + sum of the record lengths`. -/
theorem C7_metadata_clearing (le : Bool) (pdb : PDB) (bytes : Nat) (a : Alloc) :
    (PDB_SetAppInfoBlock pdb none bytes a).1 = 0 ∧
    (PDB_SetAppInfoBlock pdb none bytes a).2.app_info_length = 0 ∧
    (PDB_SetAppInfoBlock pdb none bytes a).2.records = pdb.records ∧
    (writeStream le (PDB_SetAppInfoBlock pdb none bytes a).2).drop (78 + 8 * pdb.num_records)
      = (pdb.records.map PDB_Record.data).flatten ∧
    (0 < pdb.num_records →
      ((writeStream le (PDB_SetAppInfoBlock pdb none bytes a).2).drop 78).take 4
        = be32 (78 + 8 * pdb.num_records)) ∧
    (writeStream le (PDB_SetAppInfoBlock pdb none bytes a).2).length
      = 78 + 8 * pdb.num_records + (pdb.records.map PDB_Record.length).sum := by
  have e : (PDB_SetAppInfoBlock pdb none bytes a) = (0, { pdb with app_info_block := [] }) := by
    simp [PDB_SetAppInfoBlock]
  rw [e]
  refine ⟨rfl, rfl, rfl, ?_, ?_, ?_⟩
  · rw [writeStream_eq]
    have hl : (specHeader { pdb with app_info_block := [] }
        ++ specTable pdb.records (recordOffset { pdb with app_info_block := [] } 0)).length
        = 78 + 8 * pdb.num_records := by
      simp only [List.length_append, length_specHeader, length_specTable]; rfl
    simp only [List.append_nil]
    rw [← hl, List.drop_left]
    rfl
  · intro hpos
    have hi : 0 < pdb.records.length := hpos
    have := writeStream_entry le { pdb with app_info_block := [] } 0 hi
    simp only [Nat.mul_zero, Nat.add_zero] at this
    have h4 := congrArg (List.take 4) this
    rw [List.take_take] at h4
    simpa [recordOffset, lengthsBefore_zero, PDB.app_info_length, PDB.num_records, be32] using h4
  · rw [length_writeStream]
    simp [PDB.app_info_length, PDB.num_records]

/-- Clearing the 10-byte metadata block of scenario C as an instance of C7. -/
theorem C7_metadata_clearing_witness :
    scenarioC.app_info_block ≠ [] ∧
    (PDB_SetAppInfoBlock scenarioC none 0 none).1 = 0 ∧
    (PDB_SetAppInfoBlock scenarioC none 0 none).2.app_info_length = 0 ∧
    (PDB_SetAppInfoBlock scenarioC none 0 none).2.records = scenarioC.records ∧
    (writeStream true (PDB_SetAppInfoBlock scenarioC none 0 none).2).drop 86
      = [11, 12, 13, 14, 15] ∧
    ((writeStream true (PDB_SetAppInfoBlock scenarioC none 0 none).2).drop 78).take 4
      = [0, 0, 0, 86] ∧
    (writeStream true (PDB_SetAppInfoBlock scenarioC none 0 none).2).length = 91 :=
  have h := C7_metadata_clearing true scenarioC 0 none
  ⟨by decide, h.1, h.2.1, h.2.2.1, h.2.2.2.1, h.2.2.2.2.1 (by decide), h.2.2.2.2.2⟩

/-- C8: for every database with records `rs` and every `n`, when
`PDB_SetNumRecords(n)` returns 0 the record sequence has length `n`, is the
first `min n |rs|` records of `rs` followed by `n - |rs|` records with
attributes 0 and empty data, and every other field of the database is
unchanged. -/
theorem C8_set_num_records (pdb : PDB) (n : Nat) (ok : Bool)
    (h : (PDB_SetNumRecords pdb n ok).1 = 0) :
    (PDB_SetNumRecords pdb n ok).2.records.length = n ∧
    (PDB_SetNumRecords pdb n ok).2.records
      = pdb.records.take (min n pdb.records.length)
          ++ List.replicate (n - pdb.records.length) { attributes := 0, data := [] } ∧
    (PDB_SetNumRecords pdb n ok).2
      = { pdb with records := (PDB_SetNumRecords pdb n ok).2.records } := by
  unfold PDB_SetNumRecords at h ⊢
  simp only [PDB.num_records] at h ⊢
  by_cases h1 : n < pdb.records.length
  · simp only [h1, if_true]
    have hm : min n pdb.records.length = n := by omega
    have hz : n - pdb.records.length = 0 := by omega
    rw [hm, hz]
    by_cases h0 : n = 0
    · subst h0; simp
    · simp only [ne_eq, h0, not_false_eq_true, if_true, List.replicate_zero, List.append_nil,
        List.length_take, and_true, true_and]
      omega
  · simp only [h1, if_false] at h ⊢
    by_cases h2 : n > pdb.records.length
    · simp only [h2, if_true] at h ⊢
      cases ok with
      | false => simp at h
      | true =>
        have hm : min n pdb.records.length = pdb.records.length := by omega
        simp only [if_true, hm, List.take_length, List.length_append, List.length_replicate,
          PDB_Record.zero, and_true, true_and]
        omega
    · simp only [h2, if_false]
      have hn : n = pdb.records.length := by omega
      subst hn
      simp

/-- Growing a database of two records to four as an instance of C8. -/
theorem C8_set_num_records_witness :
    (PDB_SetNumRecords twoRecords 4 true).1 = 0 ∧
    (PDB_SetNumRecords twoRecords 4 true).2.records.length = 4 ∧
    (PDB_SetNumRecords twoRecords 4 true).2.records
      = [{ attributes := 16, data := [104, 105] }, { attributes := 0, data := [33] },
          { attributes := 0, data := [] }, { attributes := 0, data := [] }] ∧
    (PDB_SetNumRecords twoRecords 4 true).2
      = { twoRecords with records := (PDB_SetNumRecords twoRecords 4 true).2.records } :=
  ⟨by decide, C8_set_num_records twoRecords 4 true (by decide)⟩

/-- C9: for every database, every index `i` below the record count and every data
buffer `d` of at least `length` bytes, when
`PDB_SetRecord(i, d, length, attr)` returns 0, record `i` holds the first
`length` bytes of `d` and the attributes `attr`, the record count and every
other record are unchanged, and so is every other field of the database. -/
theorem C9_set_record_frame (pdb : PDB) (i : Nat) (d : List Nat) (length attr : Nat) (a : Realloc)
    (hi : i < pdb.num_records) (hlen : length ≤ d.length)
    (hok : (PDB_SetRecord pdb i (some d) length attr a).1 = 0) :
    (PDB_SetRecord pdb i (some d) length attr a).2.records[i]?
      = some { attributes := attr, data := d.take length } ∧
    (PDB_SetRecord pdb i (some d) length attr a).2.num_records = pdb.num_records ∧
    (∀ j, j ≠ i → (PDB_SetRecord pdb i (some d) length attr a).2.records[j]? = pdb.records[j]?) ∧
    (PDB_SetRecord pdb i (some d) length attr a).2
      = { pdb with records := (PDB_SetRecord pdb i (some d) length attr a).2.records } := by
  have hi2 : i < pdb.records.length := hi
  rw [setRecord_ok pdb i d length attr a hi2 hlen hok]
  refine ⟨?_, ?_, ?_, rfl⟩
  · simp [List.getElem?_set, hi2]
  · simp [PDB.num_records]
  · intro j hj
    simp [List.getElem?_set, Ne.symm hj]

/-- Replacing record 1 of a database of two records as an instance of C9. -/
theorem C9_set_record_frame_witness :
    1 < twoRecords.num_records ∧ 3 ≤ [7, 8, 9].length ∧
    (PDB_SetRecord twoRecords 1 (some [7, 8, 9]) 3 64 (Realloc.block fun _ => 0)).1 = 0 ∧
    (PDB_SetRecord twoRecords 1 (some [7, 8, 9]) 3 64 (Realloc.block fun _ => 0)).2.records[1]?
      = some { attributes := 64, data := [7, 8, 9] } ∧
    (PDB_SetRecord twoRecords 1 (some [7, 8, 9]) 3 64 (Realloc.block fun _ => 0)).2.num_records = 2 ∧
    (∀ j, j ≠ 1 →
      (PDB_SetRecord twoRecords 1 (some [7, 8, 9]) 3 64 (Realloc.block fun _ => 0)).2.records[j]?
        = twoRecords.records[j]?) ∧
    (PDB_SetRecord twoRecords 1 (some [7, 8, 9]) 3 64 (Realloc.block fun _ => 0)).2
      = { twoRecords with
            records :=
              (PDB_SetRecord twoRecords 1 (some [7, 8, 9]) 3 64 (Realloc.block fun _ => 0)).2.records } :=
  ⟨by decide, by decide, by decide,
    C9_set_record_frame twoRecords 1 [7, 8, 9] 3 64 (Realloc.block fun _ => 0)
      (by decide) (by decide) (by decide)⟩

/-- C10: for every database, `PDB_SetRecord` with an index at or beyond the record
count returns -1 and leaves the database as it was (so it always fails on a
database with zero records), and with an index below the record count it
returns 0 whenever its `realloc` succeeds. -/
theorem C10_set_record_range (pdb : PDB) (i : Nat) (data : Option (List Nat)) (length attr : Nat)
    (a : Realloc) :
    (pdb.num_records ≤ i → PDB_SetRecord pdb i data length attr a = (-1, pdb)) ∧
    (pdb.num_records = 0 → PDB_SetRecord pdb i data length attr a = (-1, pdb)) ∧
    (i < pdb.num_records → (∃ g, a = Realloc.block g) →
      (PDB_SetRecord pdb i data length attr a).1 = 0) := by
  refine ⟨?_, ?_, ?_⟩
  · intro h
    simp [PDB_SetRecord, h]
  · intro h
    have : i ≥ pdb.num_records := by omega
    simp [PDB_SetRecord, this]
  · intro h ha
    have hge : ¬ i ≥ pdb.num_records := by omega
    obtain ⟨g, rfl⟩ := ha
    simp [PDB_SetRecord, hge, realloc]

/-- Index 2 of two records, index 0 of no records and index 1 of two records as
instances of C10. -/
theorem C10_set_record_range_witness :
    PDB_SetRecord twoRecords 2 (some [7]) 1 0 (Realloc.block fun _ => 0) = (-1, twoRecords) ∧
    PDB_SetRecord PDB.zero 0 (some [7]) 1 0 (Realloc.block fun _ => 0) = (-1, PDB.zero) ∧
    (PDB_SetRecord twoRecords 1 (some [7]) 1 0 (Realloc.block fun _ => 0)).1 = 0 :=
  ⟨(C10_set_record_range twoRecords 2 (some [7]) 1 0 (Realloc.block fun _ => 0)).1 (by decide),
   (C10_set_record_range PDB.zero 0 (some [7]) 1 0 (Realloc.block fun _ => 0)).2.1 (by decide),
   (C10_set_record_range twoRecords 1 (some [7]) 1 0 (Realloc.block fun _ => 0)).2.2 (by decide)
     ⟨_, rfl⟩⟩

/-! ## The initialiser and the failure paths of the mutators -/

theorem strncpy_zero (k : Nat) (src : List Nat) (n : Nat) (hn : n ≤ k) :
    (strncpy (CharArray.zero k) src n).val
      = (cstr src).take n ++ List.replicate (k - min (cstr src).length n) 0 := by
  have hlen : (((cstr src) ++ List.replicate n 0).take n).length = n := by
    simp only [List.length_take, List.length_append, List.length_replicate]; omega
  have h1 : ((cstr src) ++ List.replicate n 0).take n
      = (cstr src).take n ++ List.replicate (n - min (cstr src).length n) 0 := by
    rw [List.take_append_eq_append_take, List.take_replicate]
    congr 2
    omega
  have e : (strncpy (CharArray.zero k) src n).val
      = blit (List.replicate k 0) ((cstr src ++ List.replicate n 0).take n) := rfl
  rw [e]
  simp only [blit, hlen, List.length_replicate, List.drop_replicate]
  rw [List.take_of_length_le (by simp only [List.length_append, hlen, List.length_replicate]; omega),
    h1, List.append_assoc, List.append_replicate_replicate]
  congr 2
  omega

theorem setAppInfoBlock_fail (pdb : PDB) (block : Option (List Nat)) (bytes : Nat) (a : Alloc)
    (h : (PDB_SetAppInfoBlock pdb block bytes a).1 ≠ 0) :
    (PDB_SetAppInfoBlock pdb block bytes a).2 = pdb := by
  unfold PDB_SetAppInfoBlock at h ⊢
  by_cases hc : (block.isSome && decide (bytes > 0)) = true
  · simp only [hc, if_true] at h ⊢
    cases hm : malloc a bytes with
    | none => rfl
    | some b => rw [hm] at h; simp at h
  · simp only [hc] at h
    simp at h

theorem setNumRecords_fail (pdb : PDB) (n : Nat) (ok : Bool)
    (h : (PDB_SetNumRecords pdb n ok).1 ≠ 0) : (PDB_SetNumRecords pdb n ok).2 = pdb := by
  unfold PDB_SetNumRecords at h ⊢
  by_cases h1 : n < pdb.num_records
  · simp [h1] at h
  · simp only [h1, if_false] at h ⊢
    by_cases h2 : n > pdb.num_records
    · simp only [h2, if_true] at h ⊢
      cases ok with
      | false => rfl
      | true => simp at h
    · simp [h2] at h

theorem setRecord_null (pdb : PDB) (i : Nat) (data : Option (List Nat)) (length attr : Nat) :
    PDB_SetRecord pdb i data length attr Realloc.null = (-1, pdb) := by
  unfold PDB_SetRecord
  by_cases h1 : i ≥ pdb.num_records
  · simp [h1]
  · have hi : i < pdb.records.length := by simp only [PDB.num_records] at h1; omega
    simp only [h1, if_false, realloc]
    rw [set_getD_self pdb.records i hi]

theorem setRecord_freed_pos (pdb : PDB) (i : Nat) (data : Option (List Nat)) (length attr : Nat)
    (g : Nat → Nat) (hl : length ≠ 0) :
    PDB_SetRecord pdb i data length attr (Realloc.freed g) = (-1, pdb) := by
  unfold PDB_SetRecord
  by_cases h1 : i ≥ pdb.num_records
  · simp [h1]
  · have hi : i < pdb.records.length := by simp only [PDB.num_records] at h1; omega
    simp only [h1, if_false, realloc, hl]
    rw [set_getD_self pdb.records i hi]

theorem setRecord_fail (pdb : PDB) (i : Nat) (data : Option (List Nat)) (length attr : Nat)
    (a : Realloc) (h : (PDB_SetRecord pdb i data length attr a).1 ≠ 0)
    (hf : ∀ g, a = Realloc.freed g → length ≠ 0) :
    (PDB_SetRecord pdb i data length attr a).2 = pdb := by
  cases a with
  | block g =>
    unfold PDB_SetRecord at h ⊢
    by_cases h1 : i ≥ pdb.num_records
    · simp [h1]
    · simp [h1, realloc] at h
  | null => rw [setRecord_null]
  | freed g => rw [setRecord_freed_pos pdb i data length attr g (hf g rfl)]

theorem setRecord_freed (pdb : PDB) (i : Nat) (data : Option (List Nat)) (attr : Nat)
    (g : Nat → Nat) (hi : i < pdb.num_records) :
    PDB_SetRecord pdb i data 0 attr (Realloc.freed g)
      = (-1, { pdb with
                 records := pdb.records.set i
                   { pdb.records.getD i PDB_Record.zero with
                       data := (List.range (pdb.records.getD i PDB_Record.zero).data.length).map g } }) := by
  have h1 : ¬ i ≥ pdb.num_records := by omega
  unfold PDB_SetRecord
  simp only [h1, if_false, realloc, if_true]

theorem readBody_returns_zero (env : ReadEnv) (bytes : List Nat) (h : HeaderPart)
    (go ga : Nat → Nat) (g : Nat → Nat → Nat)
    (hrec : env.records_ok = true) (hoffs : env.offsets = some go)
    (happ : env.app_info = some ga) (hg : ∀ j, env.data j = some (g j))
    (hr : h.pdb.records = []) : (readBody env bytes h).1 = 0 := by
  unfold readBody
  simp only [hrec, setNumRecords_fresh h.pdb h.num_records hr, hoffs, malloc, Option.map_some',
    happ, ne_eq, not_true_eq_false, if_false]
  by_cases h0 : h.app_info_offset = 0
  · simp only [h0, not_true_eq_false, if_false]
    obtain ⟨rs, hrs, _⟩ := readRecordData_spec env
      (readRecordHeaders env h.num_records 0
        { f := fseek h.f (u32 h.f.pos), val32 := h.val32,
          record_offsets := ((List.range (h.num_records + 1)).map go).set h.num_records
            (u32 bytes.length),
          records := List.replicate h.num_records PDB_Record.zero }).record_offsets
      g hg _ h.num_records 0 _ _ rfl
    rw [hrs]
  · simp only [h0, not_false_eq_true, if_true]
    obtain ⟨rs, hrs, _⟩ := readRecordData_spec env
      (readRecordHeaders env h.num_records 0
        { f := fseek h.f (u32 h.f.pos), val32 := h.val32,
          record_offsets := ((List.range (h.num_records + 1)).map go).set h.num_records
            (u32 bytes.length),
          records := List.replicate h.num_records PDB_Record.zero }).record_offsets
      g hg _ h.num_records 0 _ _ rfl
    rw [hrs]

theorem readFile_returns_zero (env : ReadEnv) (pdb0 : PDB) (bytes : List Nat)
    (go ga : Nat → Nat) (g : Nat → Nat → Nat)
    (hrec : env.records_ok = true) (hoffs : env.offsets = some go)
    (happ : env.app_info = some ga) (hg : ∀ j, env.data j = some (g j)) :
    (PDB_ReadFile env pdb0 (some bytes)).1 = 0 :=
  readBody_returns_zero env bytes (readHeader env bytes) go ga g hrec hoffs happ hg rfl

/-! ## The name field -/

theorem name31_of_set (l : List Nat) (h : l.length = 32) : (l.set 31 0)[31]? = some 0 := by
  rw [List.getElem?_set]
  simp [h]

theorem init_name31 (name : List Nat) (version : Nat) (type creator : List Nat) (now1 now2 : Int) :
    (PDB_Init name version type creator now1 now2).name.val[31]? = some 0 := by
  have e : (PDB_Init name version type creator now1 now2).name.val
      = (cstr name).take 31 ++ List.replicate (32 - min (cstr name).length 31) 0 :=
    strncpy_zero 32 name 31 (by decide)
  rw [e, List.getElem?_append_right (by simp only [List.length_take]; omega),
    List.getElem?_replicate]
  simp only [List.length_take]
  rw [if_pos (by omega)]

theorem setAppInfoBlock_name (pdb : PDB) (block : Option (List Nat)) (bytes : Nat) (a : Alloc) :
    (PDB_SetAppInfoBlock pdb block bytes a).2.name = pdb.name := by
  unfold PDB_SetAppInfoBlock
  by_cases hc : (block.isSome && decide (bytes > 0)) = true
  · simp only [hc, if_true]
    cases malloc a bytes <;> rfl
  · simp only [hc]
    rfl

theorem setNumRecords_name (pdb : PDB) (n : Nat) (ok : Bool) :
    (PDB_SetNumRecords pdb n ok).2.name = pdb.name := by
  unfold PDB_SetNumRecords
  by_cases h1 : n < pdb.num_records
  · simp only [h1, if_true]
  · simp only [h1, if_false]
    by_cases h2 : n > pdb.num_records
    · simp only [h2, if_true]
      cases ok <;> rfl
    · simp only [h2, if_false]

theorem setRecord_name (pdb : PDB) (i : Nat) (data : Option (List Nat)) (length attr : Nat)
    (a : Realloc) : (PDB_SetRecord pdb i data length attr a).2.name = pdb.name := by
  unfold PDB_SetRecord
  by_cases h1 : i ≥ pdb.num_records
  · simp only [h1, if_true]
  · simp only [h1, if_false]
    rcases realloc a (pdb.records.getD i PDB_Record.zero).data length with ⟨_ | new_data, left⟩ <;> rfl

theorem loadRecord_name (pdb : PDB) (rec : Nat) (file : Option (List Nat)) (terminate : Int)
    (attr : Nat) (a_data : Alloc) (a_rec : Realloc) :
    (PDB_LoadRecordFromFile pdb rec file terminate attr a_data a_rec).2.name = pdb.name := by
  unfold PDB_LoadRecordFromFile
  cases file with
  | none => rfl
  | some bytes =>
    simp only
    cases malloc a_data ((if u32 bytes.length > 0xFFFF then 0xFFFF else u32 bytes.length)
        + (if terminate ≠ 0 then 1 else 0)) with
    | none => rfl
    | some data =>
      have hif : ∀ r : Int × PDB, (if r.1 < 0 then ((-1 : Int), r.2) else (0, r.2)).2 = r.2 := by
        intro r; split <;> rfl
      simp only
      rw [hif]
      exact setRecord_name _ _ _ _ _ _

theorem readBody_name (env : ReadEnv) (bytes : List Nat) (h : HeaderPart) :
    (readBody env bytes h).2.name = h.pdb.name ∨ (readBody env bytes h).2 = PDB.zero := by
  unfold readBody
  simp only
  split
  · right; rfl
  · split
    · right; rfl
    · split
      · right; rfl
      · split
        · right; rfl
        · left
          exact setNumRecords_name _ _ _

theorem readFile_name31 (env : ReadEnv) (pdb0 : PDB) (bytes : List Nat) :
    (PDB_ReadFile env pdb0 (some bytes)).2.name.val[31]? = some 0 := by
  have hh : (readHeader env bytes).pdb.name.val[31]? = some 0 := by
    show (((fread_arr PDB.zero.name 32 ⟨bytes, 0⟩).1.val).set 31 0)[31]? = some 0
    exact name31_of_set _ (fread_arr PDB.zero.name 32 ⟨bytes, 0⟩).1.property
  show (readBody env bytes (readHeader env bytes)).2.name.val[31]? = some 0
  rcases readBody_name env bytes (readHeader env bytes) with h | h
  · rw [h]; exact hh
  · rw [h]; decide

theorem writeStream_name31 (le : Bool) (pdb : PDB) :
    (writeStream le pdb)[31]? = pdb.name.val[31]? := by
  have hn := pdb.name.property
  rw [writeStream_eq]
  simp only [specHeader, List.append_assoc]
  rw [List.getElem?_append_left (by omega)]

/-! ## Loading a record from a file -/

theorem setRecord_some (pdb : PDB) (i : Nat) (d : List Nat) (length attr : Nat) (g : Nat → Nat)
    (hi : i < pdb.num_records) (hlen : length ≤ d.length) :
    PDB_SetRecord pdb i (some d) length attr (Realloc.block g)
      = (0, { pdb with records := pdb.records.set i { attributes := attr, data := d.take length } }) := by
  have hge : ¬ i ≥ pdb.num_records := by omega
  have hr : realloc (Realloc.block g) (pdb.records.getD i PDB_Record.zero).data length
      = (some (blit ((List.range length).map g)
          ((pdb.records.getD i PDB_Record.zero).data.take length)),
          (pdb.records.getD i PDB_Record.zero).data) := rfl
  unfold PDB_SetRecord
  simp only [hge, if_false, hr, Option.getD_some]
  rw [memcpy_full _ d length (by rw [length_blit]; simp) hlen]

theorem loadRecord_buffer (bytes : List Nat) (len t : Nat) (g1 : Nat → Nat)
    (hlen : len ≤ bytes.length) :
    (fread ((List.range (len + t)).map g1) len ⟨bytes, 0⟩).1
      = bytes.take len ++ ((List.range (len + t)).map g1).drop len := by
  rw [fread_mk _ _ _ _ (by omega) (by simp)]
  simp

theorem loadRecord_spec (pdb : PDB) (rec : Nat) (bytes : List Nat) (terminate : Int) (attr : Nat)
    (g1 g2 : Nat → Nat) (hrec : rec < pdb.num_records) (hlen : bytes.length < 2 ^ 32) :
    PDB_LoadRecordFromFile pdb rec (some bytes) terminate attr (some g1) (Realloc.block g2)
      = (0, { pdb with
                records := pdb.records.set rec
                  { attributes := attr,
                    data := bytes.take 65535 ++ (if terminate ≠ 0 then [0] else []) } }) := by
  have hu : u32 bytes.length = bytes.length := Nat.mod_eq_of_lt hlen
  have hmin : (if bytes.length > 0xFFFF then 0xFFFF else bytes.length) = min bytes.length 65535 := by
    split <;> omega
  have htake : bytes.take (min bytes.length 65535) = bytes.take 65535 := by
    by_cases h : bytes.length ≤ 65535
    · rw [Nat.min_eq_left h, List.take_of_length_le (Nat.le_refl _), List.take_of_length_le h]
    · rw [Nat.min_eq_right (by omega)]
  have hif : ∀ r : Int × PDB, r.1 = 0 → (if r.1 < 0 then ((-1 : Int), r.2) else (0, r.2)) = r := by
    intro r hr
    rw [hr]
    simp only [Int.lt_irrefl, if_false]
    exact Prod.ext hr.symm rfl
  unfold PDB_LoadRecordFromFile
  simp only [hu, hmin, malloc, Option.map_some']
  rw [loadRecord_buffer bytes _ _ g1 (Nat.min_le_left _ _), htake]
  by_cases ht : terminate = 0
  · simp only [ht, ne_eq, not_true_eq_false, if_false, Nat.add_zero]
    have hd : ((List.range (min bytes.length 65535)).map g1).drop (min bytes.length 65535) = [] :=
      List.drop_eq_nil_of_le (by simp)
    rw [hd, List.append_nil]
    have hl : (bytes.take 65535).length = min bytes.length 65535 := by
      rw [List.length_take]; omega
    rw [setRecord_some pdb rec _ _ attr g2 hrec (Nat.le_of_eq hl.symm), hif _ rfl,
      List.take_of_length_le (Nat.le_of_eq hl)]
  · simp only [ht, ne_eq, not_false_eq_true, if_true]
    have hl : (bytes.take 65535).length = min bytes.length 65535 := by
      rw [List.length_take]; omega
    have hd : ∃ x, ((List.range (min bytes.length 65535 + 1)).map g1).drop (min bytes.length 65535)
        = [x] := by
      refine ⟨g1 (min bytes.length 65535), ?_⟩
      rw [List.range_succ, List.map_append, List.drop_left' (by simp)]
      rfl
    obtain ⟨x, hx⟩ := hd
    rw [hx]
    have hset : (bytes.take 65535 ++ [x]).set (min bytes.length 65535) 0 = bytes.take 65535 ++ [0] := by
      rw [← hl, List.set_append_right _ _ (Nat.le_refl _)]
      simp
    rw [hset]
    have hl2 : (bytes.take 65535 ++ [0]).length = min bytes.length 65535 + 1 := by
      rw [List.length_append, hl]; rfl
    rw [setRecord_some pdb rec _ _ attr g2 hrec (Nat.le_of_eq hl2.symm), hif _ rfl,
      List.take_of_length_le (Nat.le_of_eq hl2)]

theorem length_hugeSource : hugeSource.length = 4294967296 := by
  unfold hugeSource
  exact List.length_replicate _ _

theorem hugeSource_valid : ∀ b ∈ hugeSource, b < 256 := by
  unfold hugeSource
  intro b hb
  rw [List.eq_of_mem_replicate hb]
  decide

theorem loadRecord_wrap (bytes : List Nat) (h : bytes.length = 4294967296) :
    PDB_LoadRecordFromFile twoRecords 0 (some bytes) 1 64 (some fun _ => 0)
        (Realloc.block fun _ => 0)
      = (0, { twoRecords with
                records := [{ attributes := 64, data := [0] }, { attributes := 0, data := [33] }] }) := by
  have hu : u32 bytes.length = 0 := by rw [h]; decide
  have hf : (fread [0] 0 ⟨bytes, 0⟩).1 = [0] := by
    simp [fread, blit]
  unfold PDB_LoadRecordFromFile
  simp only [hu, malloc, Option.map_some']
  have hm : List.map (fun _ => 0) (List.range ((if 0 > 65535 then 65535 else 0)
      + if (1 : Int) ≠ 0 then 1 else 0)) = [0] := by decide
  simp only [hm]
  have h0 : (if 0 > 65535 then 65535 else 0) = 0 := by decide
  have h1 : (if (1 : Int) ≠ 0 then 1 else 0) = 1 := by decide
  simp only [h0, h1, hf, ne_eq, one_ne_zero, not_false_eq_true, if_true, List.set_cons_zero,
    Nat.zero_add]
  decide

/-! ## Decoding a stream with ascending offsets -/

theorem length_slice (bytes : List Nat) (o l : Nat) (h : o + l ≤ bytes.length) :
    (slice bytes o l).length = l := by
  simp only [slice, List.length_take, List.length_drop]; omega

theorem slice_valid (bytes : List Nat) (o l : Nat) (hv : ∀ b ∈ bytes, b < 256) :
    ∀ b ∈ slice bytes o l, b < 256 := by
  intro b hb
  exact hv b (List.mem_of_mem_drop (List.mem_of_mem_take hb))

theorem decode32_be_val (le : Bool) (s : List Nat) (hl : s.length = 4) (hv : ∀ b ∈ s, b < 256) :
    u32 (SWAP_BE_32 le (load le s)) = be_val s ∧ be_val s < 2 ^ 32 := by
  match s, hl with
  | [a, b, c, d], _ =>
    have ha : a < 256 := hv a (by simp)
    have hb : b < 256 := hv b (by simp)
    have hc : c < 256 := hv c (by simp)
    have hd : d < 256 := hv d (by simp)
    rw [load_swap32 le a b c d ha hb hc hd]
    simp only [be_val, List.length_cons, List.length_nil]
    constructor <;> omega

theorem decode16_be_val (le : Bool) (s : List Nat) (hl : s.length = 2) (hv : ∀ b ∈ s, b < 256) :
    SWAP_BE_16 le (load le s) = be_val s := by
  match s, hl with
  | [a, b], _ =>
    have ha : a < 256 := hv a (by simp)
    have hb : b < 256 := hv b (by simp)
    rw [load_swap16 le a b ha hb]
    simp only [be_val, List.length_cons, List.length_nil]
    omega

theorem headerCount_stream (le : Bool) (bytes : List Nat) (hv : ∀ b ∈ bytes, b < 256)
    (h78 : 78 ≤ bytes.length) : headerCount le bytes = streamCount bytes :=
  decode16_be_val le _ (length_slice bytes 76 2 (by omega)) (slice_valid bytes 76 2 hv)

theorem headerAppInfoOffset_stream (le : Bool) (bytes : List Nat) (hv : ∀ b ∈ bytes, b < 256)
    (h78 : 78 ≤ bytes.length) :
    headerAppInfoOffset le bytes = streamAppInfoOffset bytes ∧ streamAppInfoOffset bytes < 2 ^ 32 :=
  decode32_be_val le _ (length_slice bytes 52 4 (by omega)) (slice_valid bytes 52 4 hv)

theorem entryOffset_stream (le : Bool) (bytes : List Nat) (hv : ∀ b ∈ bytes, b < 256) (j : Nat)
    (hj : j < streamCount bytes) (hL : 78 + 8 * streamCount bytes ≤ bytes.length) :
    entryOffset le bytes j = streamOffset bytes j ∧ streamOffset bytes j < 2 ^ 32 := by
  simp only [streamOffset, hj, if_true]
  exact decode32_be_val le _ (length_slice bytes (78 + 8 * j) 4 (by omega))
    (slice_valid bytes (78 + 8 * j) 4 hv)

theorem entryAttr_getD (bytes : List Nat) (i : Nat) :
    entryAttr bytes i = bytes.getD (78 + 8 * i + 4) 0 := by
  simp only [entryAttr, slice]
  rw [List.getD_eq_getElem?_getD, ← List.head?_drop]
  cases List.drop (78 + 8 * i + 4) bytes <;> rfl

theorem sub32_u32 (a b : Nat) (hle : b ≤ a) (hd : a - b < 2 ^ 32) :
    sub32 (u32 a) b = a - b := by
  simp only [sub32, u32]
  omega

theorem decodedOffset_stream (le : Bool) (bytes : List Nat) (hv : ∀ b ∈ bytes, b < 256) (j : Nat)
    (hL : 78 + 8 * streamCount bytes ≤ bytes.length) :
    decodedOffset le bytes (streamCount bytes) j = u32 (streamOffset bytes j) := by
  simp only [decodedOffset]
  by_cases hj : j < streamCount bytes
  · obtain ⟨h1, h2⟩ := entryOffset_stream le bytes hv j hj hL
    rw [if_pos hj, h1, u32, Nat.mod_eq_of_lt h2]
  · rw [if_neg hj]
    simp only [streamOffset, hj, if_false]

theorem streamOffset_le_length (bytes : List Nat)
    (hmono : ∀ j, j < streamCount bytes → streamOffset bytes j ≤ streamOffset bytes (j + 1))
    (k j : Nat) (hk : j + k = streamCount bytes) : streamOffset bytes j ≤ bytes.length := by
  induction k generalizing j with
  | zero =>
    have : ¬ j < streamCount bytes := by omega
    simp only [streamOffset, this, if_false]
    exact Nat.le_refl _
  | succ k ih =>
    exact Nat.le_trans (hmono j (by omega)) (ih (j + 1) (by omega))

theorem readSegment_full (g : Nat → Nat) (bytes : List Nat) (off len : Nat)
    (h : off + len ≤ bytes.length) : readSegment g bytes off len = slice bytes off len :=
  readSegment_exact g bytes off len _ rfl (length_slice bytes off len h)

theorem decode_segments (env : ReadEnv) (pdb0 : PDB) (bytes : List Nat)
    (go ga : Nat → Nat) (g : Nat → Nat → Nat)
    (hrec : env.records_ok = true) (hoffs : env.offsets = some go)
    (happ : env.app_info = some ga) (hg : ∀ j, env.data j = some (g j))
    (hv : ∀ b ∈ bytes, b < 256)
    (hn : 1 ≤ streamCount bytes) (hL : 78 + 8 * streamCount bytes ≤ bytes.length)
    (hmono : ∀ j, j < streamCount bytes → streamOffset bytes j ≤ streamOffset bytes (j + 1))
    (hlast : bytes.length - streamOffset bytes (streamCount bytes - 1) < 2 ^ 32)
    (ha : streamAppInfoOffset bytes ≠ 0 → streamAppInfoOffset bytes ≤ streamOffset bytes 0) :
    (PDB_ReadFile env pdb0 (some bytes)).1 = 0 ∧
    (PDB_ReadFile env pdb0 (some bytes)).2.records
      = (List.range (streamCount bytes)).map (fun i =>
          { attributes := bytes.getD (78 + 8 * i + 4) 0,
            data := slice bytes (streamOffset bytes i)
              (streamOffset bytes (i + 1) - streamOffset bytes i) }) ∧
    (PDB_ReadFile env pdb0 (some bytes)).2.app_info_block
      = (if streamAppInfoOffset bytes ≠ 0 then
          slice bytes (streamAppInfoOffset bytes)
            (streamOffset bytes 0 - streamAppInfoOffset bytes)
        else []) := by
  have h78 : 78 ≤ bytes.length := by omega
  have hcount := headerCount_stream env.le bytes hv h78
  obtain ⟨hao, haolt⟩ := headerAppInfoOffset_stream env.le bytes hv h78
  have hL' : 78 + 8 * headerCount env.le bytes ≤ bytes.length := by rw [hcount]; exact hL
  obtain ⟨h0, _, _, _, _, _, _, _, _, h9, h10⟩ :=
    readFile_spec env pdb0 bytes go ga g hrec hoffs happ hg hL'
  have hdec : ∀ j, decodedOffset env.le bytes (streamCount bytes) j = u32 (streamOffset bytes j) :=
    fun j => decodedOffset_stream env.le bytes hv j hL
  have hlt : ∀ j, j < streamCount bytes → streamOffset bytes j < 2 ^ 32 :=
    fun j hj => (entryOffset_stream env.le bytes hv j hj hL).2
  have hle : ∀ j, j ≤ streamCount bytes → streamOffset bytes j ≤ bytes.length :=
    fun j hj => streamOffset_le_length bytes hmono (streamCount bytes - j) j (by omega)
  have hdiff : ∀ j, j < streamCount bytes →
      streamOffset bytes (j + 1) - streamOffset bytes j < 2 ^ 32 := by
    intro j hj
    by_cases hj1 : j + 1 < streamCount bytes
    · have := hlt (j + 1) hj1
      omega
    · have e : j = streamCount bytes - 1 := by omega
      have e2 : streamOffset bytes (j + 1) = bytes.length := by
        simp only [streamOffset, hj1, if_false]
      rw [e2, e]
      exact hlast
  have hu : ∀ j, j < streamCount bytes → u32 (streamOffset bytes j) = streamOffset bytes j :=
    fun j hj => Nat.mod_eq_of_lt (hlt j hj)
  refine ⟨h0, ?_, ?_⟩
  · rw [h10, hcount]
    apply List.map_congr_left
    intro i hi
    have hi' : i < streamCount bytes := List.mem_range.mp hi
    rw [hdec i, hdec (i + 1), hu i hi',
      sub32_u32 _ _ (hmono i hi') (hdiff i hi'), entryAttr_getD,
      readSegment_full _ _ _ _ (by have := hmono i hi'; have := hle (i + 1) (by omega); omega)]
  · rw [h9, hao, hcount]
    by_cases h0a : streamAppInfoOffset bytes = 0
    · simp only [h0a, ne_eq, not_true_eq_false, if_false]
    · have hale := ha h0a
      have h0lt := hlt 0 (by omega)
      simp only [ne_eq, h0a, not_false_eq_true, if_true]
      rw [hdec 0, sub32_u32 _ _ hale (by omega),
        readSegment_full _ _ _ _ (by have := hle 0 (by omega); omega)]

theorem slice_append_left (a b : List Nat) (o l : Nat) (h : o + l ≤ a.length) :
    slice (a ++ b) o l = slice a o l := by
  simp only [slice]
  rw [List.drop_append_of_le_length (by omega),
    List.take_append_of_le_length (by rw [List.length_drop]; omega)]

theorem oneRecordStream_facts (tail : List Nat) (hlen : tail.length = 4294967296)
    (hv : ∀ b ∈ tail, b < 256) :
    (∀ b ∈ oneRecordStream tail, b < 256) ∧
    (oneRecordStream tail).length = 4294967382 ∧
    streamCount (oneRecordStream tail) = 1 ∧
    streamAppInfoOffset (oneRecordStream tail) = 0 ∧
    streamOffset (oneRecordStream tail) 0 = 86 ∧
    streamOffset (oneRecordStream tail) 1 = 4294967382 ∧
    (PDB_ReadFile quietEnv PDB.zero (some (oneRecordStream tail))).1 = 0 ∧
    (PDB_ReadFile quietEnv PDB.zero (some (oneRecordStream tail))).2.records
      = [{ attributes := 0, data := [] }] := by
  have hpl : (List.replicate 76 0 ++ [0, 1] ++ [0, 0, 0, 86, 0, 0, 0, 0] : List Nat).length = 86 := by
    decide
  have hB : oneRecordStream tail
      = (List.replicate 76 0 ++ [0, 1] ++ [0, 0, 0, 86, 0, 0, 0, 0]) ++ tail := rfl
  have hsl : ∀ o l, o + l ≤ 86 → slice (oneRecordStream tail) o l
      = slice (List.replicate 76 0 ++ [0, 1] ++ [0, 0, 0, 86, 0, 0, 0, 0]) o l := by
    intro o l h
    rw [hB]
    exact slice_append_left _ _ o l (by rw [hpl]; exact h)
  have hL : (oneRecordStream tail).length = 4294967382 := by
    rw [hB, List.length_append, hpl, hlen]
  have hc : streamCount (oneRecordStream tail) = 1 := by
    simp only [streamCount]
    rw [hsl 76 2 (by decide)]
    decide
  have hpv : ∀ b ∈ (List.replicate 76 0 ++ [0, 1] ++ [0, 0, 0, 86, 0, 0, 0, 0] : List Nat),
      b < 256 := by decide
  have hvalid : ∀ b ∈ oneRecordStream tail, b < 256 := by
    intro b hb
    rw [hB] at hb
    rcases List.mem_append.mp hb with h | h
    · exact hpv b h
    · exact hv b h
  have hcount : headerCount true (oneRecordStream tail) = 1 := by
    rw [headerCount_stream true _ hvalid (by rw [hL]; decide), hc]
  have he0 : entryOffset true (oneRecordStream tail) 0 = 86 := by
    simp only [entryOffset]
    rw [hsl 78 4 (by decide)]
    decide
  have hat : entryAttr (oneRecordStream tail) 0 = 0 := by
    simp only [entryAttr]
    rw [hsl 82 1 (by decide)]
    decide
  have hLr : 78 + 8 * headerCount quietEnv.le (oneRecordStream tail)
      ≤ (oneRecordStream tail).length := by
    show 78 + 8 * headerCount true (oneRecordStream tail) ≤ _
    rw [hcount, hL]; decide
  obtain ⟨h0, _, _, _, _, _, _, _, _, _, h10⟩ :=
    readFile_spec quietEnv PDB.zero (oneRecordStream tail) (fun _ => 0) (fun _ => 0)
      (fun _ _ => 0) rfl rfl rfl (fun _ => rfl) hLr
  refine ⟨hvalid, hL, hc, ?_, ?_, ?_, h0, ?_⟩
  · simp only [streamAppInfoOffset]
    rw [hsl 52 4 (by decide)]
    decide
  · simp only [streamOffset, hc, Nat.lt_one_iff, if_true]
    rw [hsl 78 4 (by decide)]
    decide
  · simp only [streamOffset, hc, Nat.lt_irrefl, if_false, hL]
  · rw [h10]
    have hd0 : decodedOffset true (oneRecordStream tail) 1 0 = 86 := by
      simp only [decodedOffset, Nat.lt_one_iff, if_true, he0]
    have hd1 : decodedOffset true (oneRecordStream tail) 1 1 = 86 := by
      simp only [decodedOffset, Nat.lt_irrefl, if_false, u32, hL]
      decide
    have hr1 : List.range 1 = [0] := rfl
    have hsub : sub32 86 86 = 0 := by decide
    simp only [quietEnv, hcount, hr1, List.map_cons, List.map_nil, Nat.zero_add, hd0, hd1, hat,
      hsub]
    simp [readSegment, slice, blit]

/-! ## The claims, continued -/

/-- C11 (the code at the failing input): for a byte source of `2^32` bytes,
`PDB_LoadRecordFromFile` with `terminate` set returns 0 and installs the
single zero byte as the data of the record: the file length `2^32` that
`ftell` reports becomes 0 in the `unsigned int length` before the clamp to
65535, so no byte of the source is read.  The claim asks for the first 65535
bytes of the source followed by one zero byte.  (For a source shorter than
`2^32` bytes the lemma `loadRecord_spec` shows what the claim says.) -/
theorem C11_huge_source_truncated :
    hugeSource.length = 4294967296 ∧
    PDB_LoadRecordFromFile twoRecords 0 (some hugeSource) 1 64 (some fun _ => 0)
        (Realloc.block fun _ => 0)
      = (0, { twoRecords with
                records := [{ attributes := 64, data := [0] }, { attributes := 0, data := [33] }] }) :=
  ⟨length_hugeSource, loadRecord_wrap hugeSource length_hugeSource⟩

/-- C12: for every name, version, type and creator argument (the string that an
argument denotes is `cstr` of it, its bytes before the first zero byte) and
whatever `time` returns, `PDB_Init` produces a database with zero records,
no metadata block (length 0), attributes 0, backup time 0, the given version,
a name that is the first `min (len name) 31` bytes of the name string padded
with zero bytes to 32 bytes, and a type and a creator that are the first
`min len 4` bytes of the string padded with zero bytes to 5 bytes. -/
theorem C12_init (name : List Nat) (version : Nat) (type creator : List Nat) (now1 now2 : Int) :
    (PDB_Init name version type creator now1 now2).records = [] ∧
    (PDB_Init name version type creator now1 now2).num_records = 0 ∧
    (PDB_Init name version type creator now1 now2).app_info_block = [] ∧
    (PDB_Init name version type creator now1 now2).app_info_length = 0 ∧
    (PDB_Init name version type creator now1 now2).attributes = 0 ∧
    (PDB_Init name version type creator now1 now2).backup_time = 0 ∧
    (PDB_Init name version type creator now1 now2).version = version ∧
    (PDB_Init name version type creator now1 now2).name.val
      = (cstr name).take 31 ++ List.replicate (32 - min (cstr name).length 31) 0 ∧
    (PDB_Init name version type creator now1 now2).type.val
      = (cstr type).take 4 ++ List.replicate (5 - min (cstr type).length 4) 0 ∧
    (PDB_Init name version type creator now1 now2).creator.val
      = (cstr creator).take 4 ++ List.replicate (5 - min (cstr creator).length 4) 0 :=
  ⟨rfl, rfl, rfl, rfl, rfl, rfl, rfl, strncpy_zero 32 name 31 (by decide),
    strncpy_zero 5 type 4 (by decide), strncpy_zero 5 creator 4 (by decide)⟩

/-- C13 (the code at the failing input): `PDB_Init` sets `creation_time` and
`modification_time` to `(t + 2082801600) mod 2^32` for the values `t` its two
calls of `time` return; when `time` returns 0 both are 2082801600, which is
not `(0 + 2082844800) mod 2^32`, the number of seconds from 1904-01-01 to
1970-01-01 that the claim asks for. -/
theorem C13_epoch_constant (name : List Nat) (version : Nat) (type creator : List Nat)
    (now1 now2 : Int) :
    (PDB_Init name version type creator now1 now2).creation_time
      = ((now1 + 2082801600) % 2 ^ 32).toNat ∧
    (PDB_Init name version type creator now1 now2).modification_time
      = ((now2 + 2082801600) % 2 ^ 32).toNat ∧
    (PDB_Init name version type creator 0 0).creation_time = 2082801600 ∧
    (PDB_Init name version type creator 0 0).modification_time = 2082801600 ∧
    (PDB_Init name version type creator 0 0).creation_time
      ≠ (((0 : Int) + 2082844800) % 2 ^ 32).toNat ∧
    (PDB_Init name version type creator 0 0).modification_time
      ≠ (((0 : Int) + 2082844800) % 2 ^ 32).toNat := by
  have h : (2082801600 : Nat) ≠ (((0 : Int) + 2082844800) % 2 ^ 32).toNat := by decide
  exact ⟨rfl, rfl, rfl, rfl, h, h⟩

/-- C14 (the code at the failing input): on the empty stream and on a stream of 77
zero bytes, one byte short of a header, `PDB_ReadFile` returns 0 (not -1) and
leaves the zero database, its locals starting at zero and its allocations
succeeding. -/
theorem C14_truncated_header_accepted :
    PDB_ReadFile quietEnv PDB.zero (some []) = (0, PDB.zero) ∧
    truncatedHeader.length = 77 ∧
    PDB_ReadFile quietEnv PDB.zero (some truncatedHeader) = (0, PDB.zero) := by
  decide

/-- C15 (the code at the failing input): on a stream of 78 bytes whose header
declares one record and which holds no record-header table (`78 + 8 * 1 > 78`),
`PDB_ReadFile` returns 0 (not -1) and leaves a database with one record, whose
data are the 78 bytes of the stream itself (offset 0 is what the local
`val32` still holds, the next offset is the file length). -/
theorem C15_missing_table_accepted :
    headerWithoutTable.length = 78 ∧
    headerCount true headerWithoutTable = 1 ∧
    (PDB_ReadFile quietEnv PDB.zero (some headerWithoutTable)).1 = 0 ∧
    (PDB_ReadFile quietEnv PDB.zero (some headerWithoutTable)).2.records
      = [{ attributes := 0, data := headerWithoutTable }] := by
  decide

/-- C16 (as amended): decode segment lengths.  Let a stream of bytes of length `L` hold
a full header with record count `n ≥ 1` and a full table of `n` entries
(`78 + 8 * n ≤ L`), with offsets `off[0] ≤ off[1] ≤ ... ≤ off[n-1] ≤ L`
(`off[n]` being `L`), with a last record shorter than `2^32` bytes
(`L - off[n-1] < 2^32`), and with metadata offset `a ≤ off[0]` when `a` is not
zero.  Then, on either host byte order and when every allocation succeeds,
`PDB_ReadFile` returns 0 and yields `n` records; record `i` has length
`off[i+1] - off[i]`, as data the stream bytes `[off[i], off[i+1])` and as
attributes the attribute byte of table entry `i`; when `a` is not zero the
metadata block has length `off[0] - a` and is the stream bytes `[a, off[0])`;
when `a` is zero there is no metadata block. -/
theorem C16_decode_segments (env : ReadEnv) (pdb0 : PDB) (bytes : List Nat)
    (go ga : Nat → Nat) (g : Nat → Nat → Nat)
    (hrec : env.records_ok = true) (hoffs : env.offsets = some go)
    (happ : env.app_info = some ga) (hg : ∀ j, env.data j = some (g j))
    (hv : ∀ b ∈ bytes, b < 256)
    (hn : 1 ≤ streamCount bytes) (hL : 78 + 8 * streamCount bytes ≤ bytes.length)
    (hmono : ∀ j, j < streamCount bytes → streamOffset bytes j ≤ streamOffset bytes (j + 1))
    (hlast : bytes.length - streamOffset bytes (streamCount bytes - 1) < 2 ^ 32)
    (ha : streamAppInfoOffset bytes ≠ 0 → streamAppInfoOffset bytes ≤ streamOffset bytes 0) :
    (PDB_ReadFile env pdb0 (some bytes)).1 = 0 ∧
    (PDB_ReadFile env pdb0 (some bytes)).2.num_records = streamCount bytes ∧
    (∀ i, i < streamCount bytes →
      ∃ r, (PDB_ReadFile env pdb0 (some bytes)).2.records[i]? = some r ∧
        r.length = streamOffset bytes (i + 1) - streamOffset bytes i ∧
        r.data = slice bytes (streamOffset bytes i)
          (streamOffset bytes (i + 1) - streamOffset bytes i) ∧
        r.attributes = bytes.getD (78 + 8 * i + 4) 0) ∧
    (streamAppInfoOffset bytes ≠ 0 →
      (PDB_ReadFile env pdb0 (some bytes)).2.app_info_length
        = streamOffset bytes 0 - streamAppInfoOffset bytes ∧
      (PDB_ReadFile env pdb0 (some bytes)).2.app_info_block
        = slice bytes (streamAppInfoOffset bytes)
            (streamOffset bytes 0 - streamAppInfoOffset bytes)) ∧
    (streamAppInfoOffset bytes = 0 →
      (PDB_ReadFile env pdb0 (some bytes)).2.app_info_block = [] ∧
      (PDB_ReadFile env pdb0 (some bytes)).2.app_info_length = 0) := by
  obtain ⟨h0, hr, hab⟩ := decode_segments env pdb0 bytes go ga g hrec hoffs happ hg hv hn hL hmono
    hlast ha
  have hle : ∀ j, j ≤ streamCount bytes → streamOffset bytes j ≤ bytes.length :=
    fun j hj => streamOffset_le_length bytes hmono (streamCount bytes - j) j (by omega)
  refine ⟨h0, ?_, ?_, ?_, ?_⟩
  · simp only [PDB.num_records, hr, List.length_map, List.length_range]
  · intro i hi
    refine ⟨{ attributes := bytes.getD (78 + 8 * i + 4) 0,
              data := slice bytes (streamOffset bytes i)
                (streamOffset bytes (i + 1) - streamOffset bytes i) }, ?_, ?_, rfl, rfl⟩
    · rw [hr, List.getElem?_map, List.getElem?_range hi]
      rfl
    · have h1 := hmono i hi
      have h2 := hle (i + 1) (by omega)
      exact length_slice bytes _ _ (by omega)
  · intro hne
    have h1 := ha hne
    have h2 := hle 0 (by omega)
    rw [PDB.app_info_length, hab, if_pos hne]
    exact ⟨length_slice bytes _ _ (by omega), rfl⟩
  · intro he
    rw [PDB.app_info_length, hab, if_neg (by simp [he])]
    exact ⟨rfl, rfl⟩

/-- The encoding of scenario C (metadata at 86, one record at 96, 101 bytes) as an
instance of C16. -/
theorem C16_decode_segments_witness :
    streamCount (writeStream true scenarioC) = 1 ∧
    streamAppInfoOffset (writeStream true scenarioC) = 86 ∧
    streamOffset (writeStream true scenarioC) 0 = 96 ∧
    streamOffset (writeStream true scenarioC) 1 = 101 ∧
    (PDB_ReadFile quietEnv PDB.zero (some (writeStream true scenarioC))).1 = 0 ∧
    (PDB_ReadFile quietEnv PDB.zero (some (writeStream true scenarioC))).2.records
      = [{ attributes := 3, data := [11, 12, 13, 14, 15] }] ∧
    (PDB_ReadFile quietEnv PDB.zero (some (writeStream true scenarioC))).2.app_info_block
      = [1, 2, 3, 4, 5, 6, 7, 8, 9, 10] :=
  have hc : streamCount (writeStream true scenarioC) = 1 := by decide
  have h := C16_decode_segments quietEnv PDB.zero (writeStream true scenarioC) (fun _ => 0)
    (fun _ => 0) (fun _ _ => 0) rfl rfl rfl (fun _ => rfl) (by decide) (by decide) (by decide)
    (fun j hj => by
      have hj0 : j = 0 := by omega
      subst hj0
      decide)
    (by decide) (by decide)
  ⟨hc, by decide, by decide, by decide, h.1, by decide, by decide⟩

/-- C16 (counterexample): the stream of `2^32 + 86` bytes `oneRecordStream hugeSource`
meets the conditions of the claim (bytes below 256, record count 1, metadata
offset 0, `78 + 8 ≤ off[0] = 86 ≤ L`), and `PDB_ReadFile` returns 0, yet the
record it yields is empty: its length is `(L mod 2^32) - 86 = 0` and not
`L - off[0] = 2^32`. -/
theorem C16_huge_record_counterexample :
    (∀ b ∈ oneRecordStream hugeSource, b < 256) ∧
    (oneRecordStream hugeSource).length = 4294967382 ∧
    streamCount (oneRecordStream hugeSource) = 1 ∧
    streamAppInfoOffset (oneRecordStream hugeSource) = 0 ∧
    streamOffset (oneRecordStream hugeSource) 0 = 86 ∧
    streamOffset (oneRecordStream hugeSource) 1 = 4294967382 ∧
    (PDB_ReadFile quietEnv PDB.zero (some (oneRecordStream hugeSource))).1 = 0 ∧
    (PDB_ReadFile quietEnv PDB.zero (some (oneRecordStream hugeSource))).2.records
      = [{ attributes := 0, data := [] }] :=
  oneRecordStream_facts hugeSource length_hugeSource hugeSource_valid

/-- C17: for every database `PDB_Free` leaves the zero-value state: zero records, no
metadata block (length 0), and name, attributes, version, the three times,
type and creator all zero. -/
theorem C17_free (pdb : PDB) :
    PDB_Free pdb = PDB.zero ∧
    (PDB_Free pdb).records = [] ∧ (PDB_Free pdb).num_records = 0 ∧
    (PDB_Free pdb).app_info_block = [] ∧ (PDB_Free pdb).app_info_length = 0 ∧
    (PDB_Free pdb).name.val = List.replicate 32 0 ∧ (PDB_Free pdb).attributes = 0 ∧
    (PDB_Free pdb).version = 0 ∧ (PDB_Free pdb).creation_time = 0 ∧
    (PDB_Free pdb).modification_time = 0 ∧ (PDB_Free pdb).backup_time = 0 ∧
    (PDB_Free pdb).type.val = List.replicate 5 0 ∧ (PDB_Free pdb).creator.val = List.replicate 5 0 :=
  ⟨rfl, rfl, rfl, rfl, rfl, rfl, rfl, rfl, rfl, rfl, rfl, rfl, rfl⟩

/-- C18: name termination.  Byte 31 of the name is 0 after `PDB_Init` for every name
argument and after `PDB_ReadFile` for every stream, environment and outcome;
`PDB_SetAppInfoBlock`, `PDB_SetNumRecords`, `PDB_SetRecord` and
`PDB_LoadRecordFromFile` leave the name as it was; `PDB_Free` leaves a name
whose byte 31 is 0; and for a database whose name has byte 31 equal to 0,
byte 31 of the file `PDB_WriteFile` writes (the last name byte) is 0. -/
theorem C18_name_termination :
    (∀ (name : List Nat) (version : Nat) (type creator : List Nat) (now1 now2 : Int),
      (PDB_Init name version type creator now1 now2).name.val[31]? = some 0) ∧
    (∀ (env : ReadEnv) (pdb0 : PDB) (bytes : List Nat),
      (PDB_ReadFile env pdb0 (some bytes)).2.name.val[31]? = some 0) ∧
    (∀ (pdb : PDB) (block : Option (List Nat)) (bytes : Nat) (a : Alloc),
      (PDB_SetAppInfoBlock pdb block bytes a).2.name = pdb.name) ∧
    (∀ (pdb : PDB) (n : Nat) (ok : Bool), (PDB_SetNumRecords pdb n ok).2.name = pdb.name) ∧
    (∀ (pdb : PDB) (i : Nat) (data : Option (List Nat)) (length attr : Nat) (a : Realloc),
      (PDB_SetRecord pdb i data length attr a).2.name = pdb.name) ∧
    (∀ (pdb : PDB) (rec : Nat) (file : Option (List Nat)) (terminate : Int) (attr : Nat)
        (a_data : Alloc) (a_rec : Realloc),
      (PDB_LoadRecordFromFile pdb rec file terminate attr a_data a_rec).2.name = pdb.name) ∧
    (∀ pdb : PDB, (PDB_Free pdb).name.val[31]? = some 0) ∧
    (∀ (le : Bool) (pdb : PDB), pdb.name.val[31]? = some 0 →
      (writeStream le pdb)[31]? = some 0) :=
  ⟨init_name31, readFile_name31, setAppInfoBlock_name, setNumRecords_name, setRecord_name,
    loadRecord_name, fun _ => (by decide : PDB.zero.name.val[31]? = some 0),
    fun le pdb h => by rw [writeStream_name31, h]⟩

/-- A stream whose 32 name bytes hold no zero, and the encoding of scenario A, as
instances of C18. -/
theorem C18_name_termination_witness :
    headerOfLetters.take 32 = List.replicate 32 65 ∧
    (PDB_ReadFile quietEnv PDB.zero (some headerOfLetters)).2.name.val[31]? = some 0 ∧
    scenarioA.name.val[31]? = some 0 ∧
    (writeStream true scenarioA)[31]? = some 0 :=
  ⟨by decide, C18_name_termination.2.1 quietEnv PDB.zero headerOfLetters, by decide,
    C18_name_termination.2.2.2.2.2.2.2 true scenarioA (by decide)⟩

/-- C19 (the code at the failing input): when `realloc(data, 0)` returns NULL, as the
C standard allows and glibc does for a record that holds data,
`PDB_SetRecord` with NULL data and length 0 returns -1, for every database,
index and attributes: with the old block untouched it leaves the database as
it was, and with the old block freed (glibc) it still returns -1.  So record
0 of a database of two records keeps its length 2 and its attributes instead
of being wiped; where the library left the block untouched it keeps its two
bytes, and after the `realloc` of glibc its data pointer dangles. -/
theorem C19_wipe_fails (pdb : PDB) (i attr : Nat) (g : Nat → Nat) :
    PDB_SetRecord pdb i none 0 attr Realloc.null = (-1, pdb) ∧
    (PDB_SetRecord pdb i none 0 attr (Realloc.freed g)).1 = -1 ∧
    PDB_SetRecord twoRecords 0 none 0 0 Realloc.null = (-1, twoRecords) ∧
    PDB_SetRecord twoRecords 0 none 0 0 (Realloc.freed fun _ => 0)
      = (-1, { twoRecords with
                 records := [{ attributes := 16, data := [0, 0] }, { attributes := 0, data := [33] }] }) ∧
    twoRecords.records[0]? = some { attributes := 16, data := [104, 105] } := by
  refine ⟨setRecord_null pdb i none 0 attr, ?_, by decide, by decide, by decide⟩
  unfold PDB_SetRecord
  by_cases h : i ≥ pdb.num_records
  · simp [h]
  · simp [h, realloc]

/-- C20 (the code at the failing input, and the cases in which the claim holds):
`PDB_SetAppInfoBlock` and `PDB_SetNumRecords` leave the database they were
given whenever they return a value other than 0, and so does `PDB_SetRecord`
unless its `realloc` answered a request of size 0 by freeing the old block.
In that case (glibc, length 0, a record that holds data) `PDB_SetRecord`
returns -1 and the record keeps its pointer, length and attributes while its
data have been freed, so that the pointer leads to indeterminate bytes
`g 0, g 1, ...`: record 0 of the database of two records no longer holds its
bytes 104, 105, and the database is not the one before the call. -/
theorem C20_failed_wipe_frees_data :
    (∀ (pdb : PDB) (block : Option (List Nat)) (bytes : Nat) (a : Alloc),
      (PDB_SetAppInfoBlock pdb block bytes a).1 ≠ 0 →
        (PDB_SetAppInfoBlock pdb block bytes a).2 = pdb) ∧
    (∀ (pdb : PDB) (n : Nat) (ok : Bool),
      (PDB_SetNumRecords pdb n ok).1 ≠ 0 → (PDB_SetNumRecords pdb n ok).2 = pdb) ∧
    (∀ (pdb : PDB) (i : Nat) (data : Option (List Nat)) (length attr : Nat) (a : Realloc),
      (PDB_SetRecord pdb i data length attr a).1 ≠ 0 →
      (∀ g, a = Realloc.freed g → length ≠ 0) →
        (PDB_SetRecord pdb i data length attr a).2 = pdb) ∧
    (∀ (pdb : PDB) (i : Nat) (data : Option (List Nat)) (attr : Nat) (g : Nat → Nat),
      i < pdb.num_records →
        PDB_SetRecord pdb i data 0 attr (Realloc.freed g)
          = (-1, { pdb with
                     records := pdb.records.set i
                       { pdb.records.getD i PDB_Record.zero with
                           data :=
                             (List.range (pdb.records.getD i PDB_Record.zero).data.length).map
                               g } })) ∧
    (PDB_SetRecord twoRecords 0 none 0 0 (Realloc.freed fun _ => 0)).1 = -1 ∧
    (PDB_SetRecord twoRecords 0 none 0 0 (Realloc.freed fun _ => 0)).2.records[0]?
      = some { attributes := 16, data := [0, 0] } ∧
    twoRecords.records[0]? = some { attributes := 16, data := [104, 105] } ∧
    (PDB_SetRecord twoRecords 0 none 0 0 (Realloc.freed fun _ => 0)).2 ≠ twoRecords :=
  ⟨setAppInfoBlock_fail, setNumRecords_fail, setRecord_fail, setRecord_freed, by decide,
    by decide, by decide, by decide⟩

/-- A failed `malloc`, a failed growing `realloc`, an index out of range, a failed
`realloc` of record data (of size 1, with either NULL outcome) and a
`realloc` of size 0 that frees the data of record 0, as instances of C20. -/
theorem C20_failed_wipe_frees_data_witness :
    PDB_SetAppInfoBlock scenarioC (some [9, 9]) 2 none = (-1, scenarioC) ∧
    PDB_SetNumRecords twoRecords 5 false = (-1, twoRecords) ∧
    PDB_SetRecord twoRecords 2 (some [9]) 1 64 (Realloc.block fun _ => 0) = (-1, twoRecords) ∧
    PDB_SetRecord twoRecords 1 (some [9]) 1 64 Realloc.null = (-1, twoRecords) ∧
    PDB_SetRecord twoRecords 1 (some [9]) 1 64 (Realloc.freed fun _ => 0) = (-1, twoRecords) ∧
    PDB_SetRecord twoRecords 0 none 0 0 (Realloc.freed fun _ => 7)
      = (-1, { twoRecords with
                 records := [{ attributes := 16, data := [7, 7] }, { attributes := 0, data := [33] }] }) :=
  ⟨Prod.ext (by decide) (C20_failed_wipe_frees_data.1 scenarioC (some [9, 9]) 2 none (by decide)),
   Prod.ext (by decide) (C20_failed_wipe_frees_data.2.1 twoRecords 5 false (by decide)),
   Prod.ext (by decide)
     (C20_failed_wipe_frees_data.2.2.1 twoRecords 2 (some [9]) 1 64 (Realloc.block fun _ => 0)
       (by decide) (fun _ h => nomatch h)),
   Prod.ext (by decide)
     (C20_failed_wipe_frees_data.2.2.1 twoRecords 1 (some [9]) 1 64 Realloc.null (by decide)
       (fun _ h => nomatch h)),
   Prod.ext (by decide)
     (C20_failed_wipe_frees_data.2.2.1 twoRecords 1 (some [9]) 1 64 (Realloc.freed fun _ => 0)
       (by decide) (fun _ _ => Nat.one_ne_zero)),
   C20_failed_wipe_frees_data.2.2.2.1 twoRecords 0 none 0 (fun _ => 7) (by decide)⟩

/-! ## Fields that the decoder ignores -/

theorem slice_congr (b1 b2 : List Nat) (o l : Nat)
    (h : ∀ p, o ≤ p → p < o + l → b1[p]? = b2[p]?) : slice b1 o l = slice b2 o l := by
  apply List.ext_getElem?
  intro k
  simp only [slice, List.getElem?_take, List.getElem?_drop]
  by_cases hk : k < l
  · simp only [hk, if_true]
    exact h (o + k) (by omega) (by omega)
  · simp only [hk, if_false]

theorem drop_congr (b1 b2 : List Nat) (o : Nat)
    (h : ∀ p, o ≤ p → b1[p]? = b2[p]?) : b1.drop o = b2.drop o := by
  apply List.ext_getElem?
  intro k
  simp only [List.getElem?_drop]
  exact h (o + k) (by omega)

theorem ignoredByte_header (n p : Nat)
    (hp : p < 48 ∨ (52 ≤ p ∧ p < 56) ∨ (60 ≤ p ∧ p < 68) ∨ (76 ≤ p ∧ p < 78)) :
    ignoredByte n p = false := by
  simp only [ignoredByte, Bool.or_eq_false_iff, Bool.and_eq_false_iff, decide_eq_false_iff_not]
  omega

theorem ignoredByte_entry (n j k : Nat) (hk : k < 5) : ignoredByte n (78 + 8 * j + k) = false := by
  simp only [ignoredByte, Bool.or_eq_false_iff, Bool.and_eq_false_iff, decide_eq_false_iff_not]
  omega

theorem ignoredByte_data (n p : Nat) (hp : 78 + 8 * n ≤ p) : ignoredByte n p = false := by
  simp only [ignoredByte, Bool.or_eq_false_iff, Bool.and_eq_false_iff, decide_eq_false_iff_not]
  omega

theorem PDB.ext_fields (p q : PDB) (h1 : p.name.val = q.name.val)
    (h2 : p.attributes = q.attributes) (h3 : p.version = q.version)
    (h4 : p.creation_time = q.creation_time) (h5 : p.modification_time = q.modification_time)
    (h6 : p.backup_time = q.backup_time) (h7 : p.type.val = q.type.val)
    (h8 : p.creator.val = q.creator.val) (h9 : p.app_info_block = q.app_info_block)
    (h10 : p.records = q.records) : p = q := by
  cases p
  cases q
  simp only [PDB.mk.injEq]
  exact ⟨Subtype.ext h1, h2, h3, h4, h5, h6, Subtype.ext h7, Subtype.ext h8, h9, h10⟩

theorem readRecordData_congr (env : ReadEnv) (offs : List Nat) (b1 b2 : List Nat) (k : Nat) :
    ∀ (i : Nat) (f1 f2 : FILE) (records : List PDB_Record),
      f1.bytes = b1 → f2.bytes = b2 →
      (∀ j, i ≤ j → j < i + k → b1.drop (offs.getD j 0) = b2.drop (offs.getD j 0)) →
      readRecordData env offs k i f1 records = readRecordData env offs k i f2 records := by
  induction k with
  | zero => intro i f1 f2 records _ _ _; rfl
  | succ k ih =>
    intro i f1 f2 records hf1 hf2 hd
    simp only [readRecordData]
    cases hm : malloc (env.data i) (sub32 (offs.getD (i + 1) 0) (offs.getD i 0)) with
    | none => rfl
    | some data =>
      simp only []
      have h1 : (fread data (sub32 (offs.getD (i + 1) 0) (offs.getD i 0))
            (fseek f1 (offs.getD i 0))).1
          = (fread data (sub32 (offs.getD (i + 1) 0) (offs.getD i 0))
            (fseek f2 (offs.getD i 0))).1 := by
        simp only [fread, fseek, hf1, hf2, hd i (Nat.le_refl i) (by omega)]
      rw [h1]
      exact ih (i + 1) _ _ _ (by simp [fread, fseek, hf1]) (by simp [fread, fseek, hf2])
        (fun j hj1 hj2 => hd j (by omega) (by omega))

theorem readBody_congr (env : ReadEnv) (b1 b2 : List Nat) (h1 h2 : HeaderPart)
    (hpdb : h1.pdb = h2.pdb) (hao : h1.app_info_offset = h2.app_info_offset)
    (hnum : h1.num_records = h2.num_records)
    (hf1 : h1.f = ⟨b1, 78⟩) (hf2 : h2.f = ⟨b2, 78⟩)
    (hlen : b1.length = b2.length) (hL : 78 + 8 * h1.num_records ≤ b1.length)
    (heo : ∀ j, j < h1.num_records → entryOffset env.le b1 j = entryOffset env.le b2 j)
    (hea : ∀ j, j < h1.num_records → entryAttr b1 j = entryAttr b2 j)
    (hda : h1.app_info_offset ≠ 0 → b1.drop h1.app_info_offset = b2.drop h1.app_info_offset)
    (hdo : ∀ j, j < h1.num_records →
      b1.drop (entryOffset env.le b1 j) = b2.drop (entryOffset env.le b1 j)) :
    readBody env b1 h1 = readBody env b2 h2 := by
  obtain ⟨pdb, a, n, v1, f1⟩ := h1
  obtain ⟨pdb2, a2, n2, v2, f2⟩ := h2
  simp only at hpdb hao hnum hf1 hf2 hL heo hea hda hdo
  subst hpdb hao hnum hf1 hf2
  have hu : u32 78 = 78 := by decide
  unfold readBody
  simp only [fseek, hu, hlen]
  generalize PDB_SetNumRecords pdb n env.records_ok = rs
  by_cases hrs : rs.1 ≠ 0
  · rw [if_pos hrs, if_pos hrs]
  · rw [if_neg hrs, if_neg hrs]
    cases hm : malloc env.offsets (n + 1) with
    | none => rfl
    | some ro =>
      simp only []
      have hrol : ro.length = n + 1 := length_malloc env.offsets (n + 1) ro hm
      obtain ⟨hf1, ho1, hr1⟩ := readRecordHeaders_spec env b1 n 0
        { f := ⟨b1, 78⟩, val32 := v1, record_offsets := ro.set n (u32 b2.length),
          records := rs.2.records } rfl (by omega)
      obtain ⟨hf2, ho2, hr2⟩ := readRecordHeaders_spec env b2 n 0
        { f := ⟨b2, 78⟩, val32 := v2, record_offsets := ro.set n (u32 b2.length),
          records := rs.2.records } rfl (by omega)
      generalize readRecordHeaders env n 0
        { f := ⟨b1, 78⟩, val32 := v1, record_offsets := ro.set n (u32 b2.length),
          records := rs.2.records } = S1 at hf1 ho1 hr1 ⊢
      generalize readRecordHeaders env n 0
        { f := ⟨b2, 78⟩, val32 := v2, record_offsets := ro.set n (u32 b2.length),
          records := rs.2.records } = S2 at hf2 ho2 hr2 ⊢
      simp only at ho1 ho2 hr1 hr2
      have hSo : S2.record_offsets = S1.record_offsets := by
        apply List.ext_getElem?
        intro j
        rw [ho1 j, ho2 j]
        by_cases hj : 0 ≤ j ∧ j < 0 + n
        · simp only [hj, and_self, if_true, heo j (by omega)]
        · simp only [hj, if_false]
      have hSr : S2.records = S1.records := by
        apply List.ext_getElem?
        intro j
        rw [hr1 j, hr2 j]
        by_cases hj : 0 ≤ j ∧ j < 0 + n
        · simp only [hj, and_self, if_true, hea j (by omega)]
        · simp only [hj, if_false]
      have hget : ∀ j, j < n → S1.record_offsets.getD j 0 = entryOffset env.le b1 j := by
        intro j hj
        have hj1 : 0 ≤ j ∧ j < 0 + n := by omega
        have hj2 : j < (ro.set n (u32 b2.length)).length := by
          rw [List.length_set]; omega
        rw [List.getD_eq_getElem?_getD, ho1 j, if_pos hj1, List.getElem?_eq_getElem hj2]
        rfl
      have hdata : ∀ (g1 g2 : FILE) (rc : List PDB_Record), g1.bytes = b1 → g2.bytes = b2 →
          readRecordData env S1.record_offsets n 0 g1 rc
            = readRecordData env S1.record_offsets n 0 g2 rc := by
        intro g1 g2 rc hg1 hg2
        apply readRecordData_congr env S1.record_offsets b1 b2 n 0 g1 g2 rc hg1 hg2
        intro j _ hj
        rw [hget j (by omega)]
        exact hdo j (by omega)
      rw [hSo, hSr]
      by_cases h0 : a = 0
      · simp only [h0, ne_eq, not_true_eq_false, if_false]
        rw [hdata S1.f S2.f _ (by rw [hf1]) (by rw [hf2])]
      · simp only [ne_eq, h0, not_false_eq_true, if_true]
        cases hma : malloc env.app_info (sub32 (S1.record_offsets.getD 0 0) a) with
        | none => rfl
        | some block =>
          simp only [Option.map_some']
          have hb1 : (fread block (sub32 (S1.record_offsets.getD 0 0) a) ⟨S1.f.bytes, a⟩).1
              = (fread block (sub32 (S1.record_offsets.getD 0 0) a) ⟨S2.f.bytes, a⟩).1 := by
            simp only [fread, hf1, hf2, hda h0]
          have hd := fun rc =>
            hdata (fread block (sub32 (S1.record_offsets.getD 0 0) a) ⟨S1.f.bytes, a⟩).2
              (fread block (sub32 (S1.record_offsets.getD 0 0) a) ⟨S2.f.bytes, a⟩).2 rc
              (by simp [fread, hf1]) (by simp [fread, hf2])
          rw [hb1, hd]

theorem readFile_congr (env : ReadEnv) (pdb0 : PDB) (b1 b2 : List Nat)
    (hv : ∀ b ∈ b1, b < 256) (hlen : b1.length = b2.length)
    (hL : 78 + 8 * streamCount b1 ≤ b1.length)
    (hsame : ∀ p, p < b1.length → ignoredByte (streamCount b1) p = false → b1[p]? = b2[p]?)
    (ha : streamAppInfoOffset b1 ≠ 0 → 78 + 8 * streamCount b1 ≤ streamAppInfoOffset b1)
    (hoff : ∀ j, j < streamCount b1 → 78 + 8 * streamCount b1 ≤ streamOffset b1 j) :
    PDB_ReadFile env pdb0 (some b1) = PDB_ReadFile env pdb0 (some b2) := by
  have h78 : 78 ≤ b1.length := by omega
  have hge : ∀ p, ignoredByte (streamCount b1) p = false → b1[p]? = b2[p]? := by
    intro p hp
    by_cases hlt : p < b1.length
    · exact hsame p hlt hp
    · rw [List.getElem?_eq_none (by omega), List.getElem?_eq_none (by omega)]
  have hs : ∀ o l, (o + l ≤ 48 ∨ (52 ≤ o ∧ o + l ≤ 56) ∨ (60 ≤ o ∧ o + l ≤ 68)
      ∨ (76 ≤ o ∧ o + l ≤ 78)) → slice b1 o l = slice b2 o l := by
    intro o l h
    exact slice_congr b1 b2 o l fun p h1 h2 => hge p (ignoredByte_header _ p (by omega))
  have hse : ∀ j l, l ≤ 5 → slice b1 (78 + 8 * j) l = slice b2 (78 + 8 * j) l := by
    intro j l hl
    refine slice_congr b1 b2 _ l fun p h1 h2 => hge p ?_
    have hp : p = 78 + 8 * j + (p - (78 + 8 * j)) := by omega
    rw [hp]
    exact ignoredByte_entry _ j _ (by omega)
  have hsa : ∀ j, slice b1 (78 + 8 * j + 4) 1 = slice b2 (78 + 8 * j + 4) 1 := by
    intro j
    refine slice_congr b1 b2 _ 1 fun p h1 h2 => hge p ?_
    have hp : p = 78 + 8 * j + 4 := by omega
    rw [hp]
    exact ignoredByte_entry _ j 4 (by decide)
  have hd : ∀ o, 78 + 8 * streamCount b1 ≤ o → b1.drop o = b2.drop o := by
    intro o ho
    exact drop_congr b1 b2 o fun p hp => hge p (ignoredByte_data _ p (by omega))
  obtain ⟨p1, p2, p3, p4, p5, p6, p7, p8, p9, p10, p11, p12, p13⟩ := readHeader_spec env b1 h78
  obtain ⟨q1, q2, q3, q4, q5, q6, q7, q8, q9, q10, q11, q12, q13⟩ :=
    readHeader_spec env b2 (by omega)
  have hcount : (readHeader env b1).num_records = streamCount b1 := by
    rw [p12]; exact headerCount_stream env.le b1 hv h78
  have hao : (readHeader env b1).app_info_offset = streamAppInfoOffset b1 := by
    rw [p11]; exact (headerAppInfoOffset_stream env.le b1 hv h78).1
  simp only [PDB_ReadFile]
  apply readBody_congr env b1 b2 _ _ _ _ _ p13 q13 hlen
  · rw [hcount]; exact hL
  · intro j _
    simp only [entryOffset, hse j 4 (by decide)]
  · intro j _
    simp only [entryAttr, hsa j]
  · intro h0
    rw [hao] at h0 ⊢
    exact hd _ (ha h0)
  · intro j hj
    rw [hcount] at hj
    rw [(entryOffset_stream env.le b1 hv j hj hL).1]
    exact hd _ (hoff j hj)
  · apply PDB.ext_fields
    · rw [p1, q1, hs 0 32 (by omega)]
    · rw [p2, q2, hs 32 2 (by omega)]
    · rw [p3, q3, hs 34 2 (by omega)]
    · rw [p4, q4, hs 36 4 (by omega)]
    · rw [p5, q5, hs 40 4 (by omega)]
    · rw [p6, q6, hs 44 4 (by omega)]
    · rw [p7, q7, hs 60 4 (by omega)]
    · rw [p8, q8, hs 64 4 (by omega)]
    · rw [p9, q9]
    · rw [p10, q10]
  · rw [p11, q11, hs 52 4 (by omega)]
  · rw [p12, q12, hs 76 2 (by omega)]

theorem overlapStream_records :
    (PDB_ReadFile quietEnv PDB.zero (some (overlapStream 0))).2.records
      = [{ attributes := 0, data := slice (overlapStream 0) 48 38 }] ∧
    (PDB_ReadFile quietEnv PDB.zero (some (overlapStream 9))).2.records
      = [{ attributes := 0, data := slice (overlapStream 9) 48 38 }] :=
  ⟨by decide, by decide⟩

theorem overlapStream_differ :
    PDB_ReadFile quietEnv PDB.zero (some (overlapStream 0))
      ≠ PDB_ReadFile quietEnv PDB.zero (some (overlapStream 9)) := by
  intro h
  have h2 := congrArg (fun r => r.2.records) h
  simp only [overlapStream_records.1, overlapStream_records.2] at h2
  revert h2
  decide

/-! ## Decoding a stream without records -/

theorem decode_metadata_only (env : ReadEnv) (pdb0 : PDB) (bytes : List Nat)
    (go ga : Nat → Nat) (g : Nat → Nat → Nat)
    (hrec : env.records_ok = true) (hoffs : env.offsets = some go)
    (happ : env.app_info = some ga) (hg : ∀ j, env.data j = some (g j))
    (hv : ∀ b ∈ bytes, b < 256) (h78 : 78 ≤ bytes.length) (hn : streamCount bytes = 0) :
    (PDB_ReadFile env pdb0 (some bytes)).1 = 0 ∧
    (PDB_ReadFile env pdb0 (some bytes)).2.records = [] ∧
    (PDB_ReadFile env pdb0 (some bytes)).2.app_info_block
      = (if streamAppInfoOffset bytes ≠ 0 then
          readSegment ga bytes (streamAppInfoOffset bytes)
            (sub32 (u32 bytes.length) (streamAppInfoOffset bytes))
        else []) := by
  have hcount := headerCount_stream env.le bytes hv h78
  obtain ⟨hao, _⟩ := headerAppInfoOffset_stream env.le bytes hv h78
  have hL : 78 + 8 * headerCount env.le bytes ≤ bytes.length := by rw [hcount, hn]; exact h78
  obtain ⟨h0, _, _, _, _, _, _, _, _, h9, h10⟩ :=
    readFile_spec env pdb0 bytes go ga g hrec hoffs happ hg hL
  refine ⟨h0, ?_, ?_⟩
  · rw [h10, hcount, hn]; rfl
  · rw [h9, hcount, hn, hao]
    simp only [decodedOffset, Nat.lt_irrefl, if_false]

theorem metadataOnlyStream_facts (tail : List Nat) (hlen : tail.length = 4294967296)
    (hv : ∀ b ∈ tail, b < 256) :
    (∀ b ∈ metadataOnlyStream tail, b < 256) ∧
    (metadataOnlyStream tail).length = 4294967374 ∧
    streamCount (metadataOnlyStream tail) = 0 ∧
    streamAppInfoOffset (metadataOnlyStream tail) = 78 ∧
    (PDB_ReadFile quietEnv PDB.zero (some (metadataOnlyStream tail))).1 = 0 ∧
    (PDB_ReadFile quietEnv PDB.zero (some (metadataOnlyStream tail))).2.records = [] ∧
    (PDB_ReadFile quietEnv PDB.zero (some (metadataOnlyStream tail))).2.app_info_block = [] ∧
    (PDB_ReadFile quietEnv PDB.zero (some (metadataOnlyStream tail))).2.app_info_length = 0 := by
  have hpl : (List.replicate 52 0 ++ [0, 0, 0, 78] ++ List.replicate 22 0 : List Nat).length = 78 := by
    decide
  have hB : metadataOnlyStream tail
      = (List.replicate 52 0 ++ [0, 0, 0, 78] ++ List.replicate 22 0) ++ tail := rfl
  have hsl : ∀ o l, o + l ≤ 78 → slice (metadataOnlyStream tail) o l
      = slice (List.replicate 52 0 ++ [0, 0, 0, 78] ++ List.replicate 22 0) o l := by
    intro o l h
    rw [hB]
    exact slice_append_left _ _ o l (by rw [hpl]; exact h)
  have hL : (metadataOnlyStream tail).length = 4294967374 := by
    rw [hB, List.length_append, hpl, hlen]
  have hc : streamCount (metadataOnlyStream tail) = 0 := by
    simp only [streamCount]
    rw [hsl 76 2 (by decide)]
    decide
  have ha : streamAppInfoOffset (metadataOnlyStream tail) = 78 := by
    simp only [streamAppInfoOffset]
    rw [hsl 52 4 (by decide)]
    decide
  have hpv : ∀ b ∈ (List.replicate 52 0 ++ [0, 0, 0, 78] ++ List.replicate 22 0 : List Nat),
      b < 256 := by decide
  have hvalid : ∀ b ∈ metadataOnlyStream tail, b < 256 := by
    intro b hb
    rw [hB] at hb
    rcases List.mem_append.mp hb with h | h
    · exact hpv b h
    · exact hv b h
  obtain ⟨h0, hr, hab⟩ := decode_metadata_only quietEnv PDB.zero (metadataOnlyStream tail)
    (fun _ => 0) (fun _ => 0) (fun _ _ => 0) rfl rfl rfl (fun _ => rfl) hvalid
    (by rw [hL]; decide) hc
  have hblock : (PDB_ReadFile quietEnv PDB.zero (some (metadataOnlyStream tail))).2.app_info_block
      = [] := by
    rw [hab, ha, hL]
    have hsub : sub32 (u32 4294967374) 78 = 0 := by decide
    rw [if_pos (by decide), hsub]
    rfl
  refine ⟨hvalid, hL, hc, ha, h0, hr, hblock, ?_⟩
  rw [PDB.app_info_length, hblock]
  rfl

/-! ## The record count field -/

theorem be16_mod (v : Nat) : be16 (v % 65536) = be16 v := by
  simp only [be16]
  congr 1
  · omega
  · congr 1
    omega

theorem slice_count_write (le : Bool) (pdb : PDB) :
    slice (writeStream le pdb) 76 2 = be16 (pdb.num_records % 65536) := by
  rw [slice_header le pdb 76 2 (by decide), (header_slices pdb).2.2.2.2.2.2.2.2.2, be16_mod]

theorem headerCount_write_mod (le le2 : Bool) (pdb : PDB) :
    headerCount le (writeStream le2 pdb) = pdb.num_records % 65536 := by
  rw [headerCount, slice_count_write]
  exact decode_be16 le _ (Nat.mod_lt _ (by decide))

theorem decode_count_write (le : Bool) (env : ReadEnv) (pdb0 pdb : PDB)
    (go ga : Nat → Nat) (g : Nat → Nat → Nat)
    (hrec : env.records_ok = true) (hoffs : env.offsets = some go)
    (happ : env.app_info = some ga) (hg : ∀ j, env.data j = some (g j)) :
    (PDB_ReadFile env pdb0 (some (writeStream le pdb))).1 = 0 ∧
    (PDB_ReadFile env pdb0 (some (writeStream le pdb))).2.num_records
      = pdb.num_records % 65536 := by
  have hc := headerCount_write_mod env.le le pdb
  have hL : 78 + 8 * headerCount env.le (writeStream le pdb) ≤ (writeStream le pdb).length := by
    rw [hc, length_writeStream]
    have := Nat.mod_le pdb.num_records 65536
    omega
  obtain ⟨h0, _, _, _, _, _, _, _, _, _, h10⟩ :=
    readFile_spec env pdb0 (writeStream le pdb) go ga g hrec hoffs happ hg hL
  refine ⟨h0, ?_⟩
  rw [PDB.num_records, h10, List.length_map, List.length_range, hc]

theorem manyRecords_count : manyRecords.num_records = 65536 :=
  List.length_replicate 65536 PDB_Record.zero

/-! ## Decoding a stream with descending offsets -/

theorem length_readSegment (g : Nat → Nat) (bytes : List Nat) (off len : Nat) :
    (readSegment g bytes off len).length = len := by
  simp only [readSegment, length_blit, List.length_map, List.length_range]

theorem sub32_wrap (a b : Nat) (hb : b < 2 ^ 32) (hab : a < b) :
    sub32 a b = 2 ^ 32 - (b - a) := by
  simp only [sub32]
  omega

theorem decode_record_length (env : ReadEnv) (pdb0 : PDB) (bytes : List Nat)
    (go ga : Nat → Nat) (g : Nat → Nat → Nat)
    (hrec : env.records_ok = true) (hoffs : env.offsets = some go)
    (happ : env.app_info = some ga) (hg : ∀ j, env.data j = some (g j))
    (hv : ∀ b ∈ bytes, b < 256)
    (hL : 78 + 8 * streamCount bytes ≤ bytes.length) (i : Nat) (hi : i < streamCount bytes) :
    (PDB_ReadFile env pdb0 (some bytes)).1 = 0 ∧
    (PDB_ReadFile env pdb0 (some bytes)).2.num_records = streamCount bytes ∧
    ∃ r, (PDB_ReadFile env pdb0 (some bytes)).2.records[i]? = some r ∧
      r.attributes = bytes.getD (78 + 8 * i + 4) 0 ∧
      r.length = sub32 (u32 (streamOffset bytes (i + 1))) (u32 (streamOffset bytes i)) := by
  have h78 : 78 ≤ bytes.length := by omega
  have hcount := headerCount_stream env.le bytes hv h78
  have hL' : 78 + 8 * headerCount env.le bytes ≤ bytes.length := by rw [hcount]; exact hL
  obtain ⟨h0, _, _, _, _, _, _, _, _, _, h10⟩ :=
    readFile_spec env pdb0 bytes go ga g hrec hoffs happ hg hL'
  refine ⟨h0, ?_, ?_⟩
  · rw [PDB.num_records, h10, List.length_map, List.length_range, hcount]
  · rw [h10, hcount]
    refine ⟨{ attributes := entryAttr bytes i,
              data := readSegment (g i) bytes (decodedOffset env.le bytes (streamCount bytes) i)
                (sub32 (decodedOffset env.le bytes (streamCount bytes) (i + 1))
                  (decodedOffset env.le bytes (streamCount bytes) i)) }, ?_, ?_, ?_⟩
    · rw [List.getElem?_map, List.getElem?_range hi]
      rfl
    · exact entryAttr_getD bytes i
    · show (readSegment _ _ _ _).length = _
      rw [length_readSegment, decodedOffset_stream env.le bytes hv _ hL,
        decodedOffset_stream env.le bytes hv _ hL]

/-! ## The claims, concluded -/

/-- C21 (as amended): ignored fields.  Let two byte streams have the same length and
let the first hold a full header and record-header table for its record
count `n` (`78 + 8 * n ≤ L`), with its metadata offset, when not zero, and
all its record offsets at least `78 + 8 * n`.  If the two streams differ only
in bytes of the modification number (48..51), the sort-info offset (56..59),
the unique-ID seed (68..71), the next record list ID (72..75) or the 3-byte
unique ID of a record-header entry, then `PDB_ReadFile` returns the same
value and leaves the same database for both, on either host byte order,
whatever its locals hold at the start and whichever allocations fail. -/
theorem C21_ignored_fields (env : ReadEnv) (pdb0 : PDB) (b1 b2 : List Nat)
    (hv : ∀ b ∈ b1, b < 256) (hlen : b1.length = b2.length)
    (hL : 78 + 8 * streamCount b1 ≤ b1.length)
    (hsame : ∀ p, p < b1.length → ignoredByte (streamCount b1) p = false → b1[p]? = b2[p]?)
    (ha : streamAppInfoOffset b1 ≠ 0 → 78 + 8 * streamCount b1 ≤ streamAppInfoOffset b1)
    (hoff : ∀ j, j < streamCount b1 → 78 + 8 * streamCount b1 ≤ streamOffset b1 j) :
    PDB_ReadFile env pdb0 (some b1) = PDB_ReadFile env pdb0 (some b2) :=
  readFile_congr env pdb0 b1 b2 hv hlen hL hsame ha hoff

/-- The two streams `fieldsStream 0` and `fieldsStream 9`, which differ in every byte
of every ignored field and in nothing else, as an instance of C21. -/
theorem C21_ignored_fields_witness :
    (fieldsStream 0).length = 90 ∧ (fieldsStream 9).length = 90 ∧
    fieldsStream 0 ≠ fieldsStream 9 ∧
    PDB_ReadFile quietEnv PDB.zero (some (fieldsStream 0))
      = PDB_ReadFile quietEnv PDB.zero (some (fieldsStream 9)) ∧
    (PDB_ReadFile quietEnv PDB.zero (some (fieldsStream 9))).1 = 0 ∧
    (PDB_ReadFile quietEnv PDB.zero (some (fieldsStream 9))).2.app_info_block = [1, 2] ∧
    (PDB_ReadFile quietEnv PDB.zero (some (fieldsStream 9))).2.records
      = [{ attributes := 3, data := [3, 4] }] :=
  ⟨by decide, by decide, by decide,
    C21_ignored_fields quietEnv PDB.zero (fieldsStream 0) (fieldsStream 9) (by decide) (by decide)
      (by decide) (by decide) (by decide) (by decide),
    by decide, by decide, by decide⟩

/-- C21 (counterexample): the streams `overlapStream 0` and `overlapStream 9` have
the same length 86, hold a full header and a table of one entry, and differ
only in byte 48, the first byte of the modification number.  Their record
offset is 48, so the record that `PDB_ReadFile` yields is the stream bytes
`[48, 86)` and begins with the byte in which they differ: the two results
are not the same. -/
theorem C21_offset_into_header_counterexample :
    (overlapStream 0).length = 86 ∧ (overlapStream 9).length = 86 ∧
    streamCount (overlapStream 0) = 1 ∧ streamCount (overlapStream 9) = 1 ∧
    78 + 8 * streamCount (overlapStream 0) ≤ (overlapStream 0).length ∧
    streamOffset (overlapStream 0) 0 = 48 ∧
    (∀ p, p < 86 → p ≠ 48 → (overlapStream 0)[p]? = (overlapStream 9)[p]?) ∧
    ignoredByte 1 48 = true ∧
    (PDB_ReadFile quietEnv PDB.zero (some (overlapStream 0))).1 = 0 ∧
    (PDB_ReadFile quietEnv PDB.zero (some (overlapStream 9))).1 = 0 ∧
    (PDB_ReadFile quietEnv PDB.zero (some (overlapStream 0))).2.records
      = [{ attributes := 0, data := slice (overlapStream 0) 48 38 }] ∧
    (PDB_ReadFile quietEnv PDB.zero (some (overlapStream 9))).2.records
      = [{ attributes := 0, data := slice (overlapStream 9) 48 38 }] ∧
    (slice (overlapStream 0) 48 38).head? = some 0 ∧
    (slice (overlapStream 9) 48 38).head? = some 9 ∧
    PDB_ReadFile quietEnv PDB.zero (some (overlapStream 0))
      ≠ PDB_ReadFile quietEnv PDB.zero (some (overlapStream 9)) :=
  ⟨by decide, by decide, by decide, by decide, by decide, by decide, by decide, by decide,
    by decide, by decide, overlapStream_records.1, overlapStream_records.2, by decide, by decide,
    overlapStream_differ⟩

/-- C22 (as amended): zero records with metadata.  For every stream of bytes of
length `L ≥ 78` whose header declares record count 0 and a metadata offset
`a` that is not zero, with `a ≤ L` and `L - a < 2^32`, `PDB_ReadFile` (on
either host byte order, every allocation succeeding) returns 0 and yields no
records and a metadata block that is all stream bytes from `a` to the end of
the file, of length `L - a`. -/
theorem C22_metadata_to_end_of_file (env : ReadEnv) (pdb0 : PDB) (bytes : List Nat)
    (go ga : Nat → Nat) (g : Nat → Nat → Nat)
    (hrec : env.records_ok = true) (hoffs : env.offsets = some go)
    (happ : env.app_info = some ga) (hg : ∀ j, env.data j = some (g j))
    (hv : ∀ b ∈ bytes, b < 256) (h78 : 78 ≤ bytes.length) (hn : streamCount bytes = 0)
    (ha0 : streamAppInfoOffset bytes ≠ 0) (ha : streamAppInfoOffset bytes ≤ bytes.length)
    (hlen : bytes.length - streamAppInfoOffset bytes < 2 ^ 32) :
    (PDB_ReadFile env pdb0 (some bytes)).1 = 0 ∧
    (PDB_ReadFile env pdb0 (some bytes)).2.records = [] ∧
    (PDB_ReadFile env pdb0 (some bytes)).2.num_records = 0 ∧
    (PDB_ReadFile env pdb0 (some bytes)).2.app_info_block
      = bytes.drop (streamAppInfoOffset bytes) ∧
    (PDB_ReadFile env pdb0 (some bytes)).2.app_info_length
      = bytes.length - streamAppInfoOffset bytes := by
  obtain ⟨h0, hr, hab⟩ := decode_metadata_only env pdb0 bytes go ga g hrec hoffs happ hg hv h78 hn
  have hblock : (PDB_ReadFile env pdb0 (some bytes)).2.app_info_block
      = bytes.drop (streamAppInfoOffset bytes) := by
    rw [hab, if_pos ha0, sub32_u32 _ _ ha hlen, readSegment_full _ _ _ _ (by omega), slice]
    exact List.take_of_length_le (by rw [List.length_drop])
  refine ⟨h0, hr, ?_, hblock, ?_⟩
  · rw [PDB.num_records, hr]; rfl
  · rw [PDB.app_info_length, hblock, List.length_drop]

/-- A stream of 81 bytes with record count 0 and metadata offset 78 as an instance
of C22: the metadata block is its last three bytes. -/
theorem C22_metadata_to_end_of_file_witness :
    (metadataOnlyStream [1, 2, 3]).length = 81 ∧
    streamCount (metadataOnlyStream [1, 2, 3]) = 0 ∧
    streamAppInfoOffset (metadataOnlyStream [1, 2, 3]) = 78 ∧
    (PDB_ReadFile quietEnv PDB.zero (some (metadataOnlyStream [1, 2, 3]))).1 = 0 ∧
    (PDB_ReadFile quietEnv PDB.zero (some (metadataOnlyStream [1, 2, 3]))).2.records = [] ∧
    (PDB_ReadFile quietEnv PDB.zero (some (metadataOnlyStream [1, 2, 3]))).2.app_info_block
      = [1, 2, 3] :=
  have h := C22_metadata_to_end_of_file quietEnv PDB.zero (metadataOnlyStream [1, 2, 3])
    (fun _ => 0) (fun _ => 0) (fun _ _ => 0) rfl rfl rfl (fun _ => rfl) (by decide) (by decide)
    (by decide) (by decide) (by decide) (by decide)
  ⟨by decide, by decide, by decide, h.1, h.2.1, h.2.2.2.1⟩

/-- C22 (counterexample): the stream of `2^32 + 78` bytes
`metadataOnlyStream hugeSource` declares record count 0 and the metadata
offset `78 ≤ L`, and `PDB_ReadFile` returns 0 with no records, yet the
metadata block it yields is empty: its length is `(L mod 2^32) - 78 = 0` and
not `L - a = 2^32`. -/
theorem C22_huge_metadata_counterexample :
    (∀ b ∈ metadataOnlyStream hugeSource, b < 256) ∧
    (metadataOnlyStream hugeSource).length = 4294967374 ∧
    streamCount (metadataOnlyStream hugeSource) = 0 ∧
    streamAppInfoOffset (metadataOnlyStream hugeSource) = 78 ∧
    (PDB_ReadFile quietEnv PDB.zero (some (metadataOnlyStream hugeSource))).1 = 0 ∧
    (PDB_ReadFile quietEnv PDB.zero (some (metadataOnlyStream hugeSource))).2.records = [] ∧
    (PDB_ReadFile quietEnv PDB.zero (some (metadataOnlyStream hugeSource))).2.app_info_block = [] ∧
    (PDB_ReadFile quietEnv PDB.zero (some (metadataOnlyStream hugeSource))).2.app_info_length = 0 :=
  metadataOnlyStream_facts hugeSource length_hugeSource hugeSource_valid

/-- C23: record-count overflow.  For every database with `n ≥ 65536` records
`PDB_WriteFile` returns 0 and the file it writes has `78 + 8 * n` bytes of header and table before
the metadata and record data, its metadata offset field is computed from `n`
(`78 + 8 * n`), every one of the `n` record-header entries is there with the
offset `78 + 8 * n + metadata length + lengths of the records before`, and
its 16-bit record count field holds `n mod 65536`.  Decoding that file (every
allocation succeeding) returns 0 and yields `n mod 65536` records, which is
not `n`, so the decoded database is not the one that was written. -/
theorem C23_record_count_overflow (le : Bool) (env : ReadEnv) (pdb0 pdb : PDB)
    (go ga : Nat → Nat) (g : Nat → Nat → Nat)
    (hrec : env.records_ok = true) (hoffs : env.offsets = some go)
    (happ : env.app_info = some ga) (hg : ∀ j, env.data j = some (g j))
    (hn : 65536 ≤ pdb.num_records) :
    PDB_WriteFile le pdb true = (0, some (writeStream le pdb)) ∧
    (writeStream le pdb).length
      = 78 + 8 * pdb.num_records + pdb.app_info_length
        + (pdb.records.map PDB_Record.length).sum ∧
    slice (writeStream le pdb) 52 4 = be32 (78 + 8 * pdb.num_records) ∧
    (∀ (i : Nat) (hi : i < pdb.records.length),
      slice (writeStream le pdb) (78 + 8 * i) 8
        = be32 (78 + 8 * pdb.num_records + pdb.app_info_length + lengthsBefore pdb.records i)
          ++ [pdb.records[i].attributes % 256, 0, 0, 0]) ∧
    slice (writeStream le pdb) 76 2 = be16 (pdb.num_records % 65536) ∧
    (PDB_ReadFile env pdb0 (some (writeStream le pdb))).1 = 0 ∧
    (PDB_ReadFile env pdb0 (some (writeStream le pdb))).2.num_records
      = pdb.num_records % 65536 ∧
    (PDB_ReadFile env pdb0 (some (writeStream le pdb))).2.num_records ≠ pdb.num_records ∧
    (PDB_ReadFile env pdb0 (some (writeStream le pdb))).2 ≠ pdb := by
  obtain ⟨h0, hc⟩ := decode_count_write le env pdb0 pdb go ga g hrec hoffs happ hg
  have hne : (PDB_ReadFile env pdb0 (some (writeStream le pdb))).2.num_records
      ≠ pdb.num_records := by
    rw [hc]
    have := Nat.mod_lt pdb.num_records (by decide : 65536 > 0)
    omega
  refine ⟨rfl, length_writeStream le pdb, writeStream_offset_field le pdb,
    fun i hi => writeStream_entry le pdb i hi, slice_count_write le pdb, h0, hc, hne, ?_⟩
  intro h
  exact hne (by rw [h])

/-- The database of 65536 empty records as an instance of C23: the file decodes to
a database of 0 records. -/
theorem C23_record_count_overflow_witness :
    manyRecords.num_records = 65536 ∧
    (PDB_ReadFile quietEnv PDB.zero (some (writeStream true manyRecords))).1 = 0 ∧
    (PDB_ReadFile quietEnv PDB.zero (some (writeStream true manyRecords))).2.num_records = 0 :=
  have h := C23_record_count_overflow true quietEnv PDB.zero manyRecords (fun _ => 0)
    (fun _ => 0) (fun _ _ => 0) rfl rfl rfl (fun _ => rfl) (Nat.le_of_eq manyRecords_count.symm)
  ⟨manyRecords_count, h.2.2.2.2.2.1, by
    have e := h.2.2.2.2.2.2.1
    rw [manyRecords_count] at e
    exact e⟩

/-- C24: no ordering validation in decode.  For every stream of bytes that holds a
full header and record-header table (`78 + 8 * n ≤ L`) and every record `i`
whose offset is larger than the next one (`off[i] > off[i+1]`, `off[n]`
being the file length `L`), `PDB_ReadFile` (on either host byte order, every
allocation succeeding) returns 0 with `n` records, and the length of record
`i` is the 32-bit wrap-around difference
`(off[i+1] - off[i]) mod 2^32 = 2^32 - (off[i] - off[i+1])`, which is
positive. -/
theorem C24_descending_offsets_wrap (env : ReadEnv) (pdb0 : PDB) (bytes : List Nat)
    (go ga : Nat → Nat) (g : Nat → Nat → Nat)
    (hrec : env.records_ok = true) (hoffs : env.offsets = some go)
    (happ : env.app_info = some ga) (hg : ∀ j, env.data j = some (g j))
    (hv : ∀ b ∈ bytes, b < 256)
    (hL : 78 + 8 * streamCount bytes ≤ bytes.length) (i : Nat) (hi : i < streamCount bytes)
    (hdesc : streamOffset bytes i > streamOffset bytes (i + 1)) :
    (PDB_ReadFile env pdb0 (some bytes)).1 = 0 ∧
    (PDB_ReadFile env pdb0 (some bytes)).2.num_records = streamCount bytes ∧
    ∃ r, (PDB_ReadFile env pdb0 (some bytes)).2.records[i]? = some r ∧
      (r.length : Int)
        = ((streamOffset bytes (i + 1) : Int) - (streamOffset bytes i : Int)) % 2 ^ 32 ∧
      r.length = 2 ^ 32 - (streamOffset bytes i - streamOffset bytes (i + 1)) ∧
      0 < r.length := by
  obtain ⟨h0, hnum, r, hr, _, hlen⟩ :=
    decode_record_length env pdb0 bytes go ga g hrec hoffs happ hg hv hL i hi
  have hlt : streamOffset bytes i < 2 ^ 32 := (entryOffset_stream env.le bytes hv i hi hL).2
  have hu1 : u32 (streamOffset bytes i) = streamOffset bytes i := Nat.mod_eq_of_lt hlt
  have hu2 : u32 (streamOffset bytes (i + 1)) = streamOffset bytes (i + 1) :=
    Nat.mod_eq_of_lt (by omega)
  rw [hu1, hu2, sub32_wrap _ _ hlt hdesc] at hlen
  refine ⟨h0, hnum, r, hr, ?_, hlen, ?_⟩
  · rw [hlen]; omega
  · rw [hlen]; omega

/-- A stream of 86 bytes whose only record has offset 100, past the end of the
stream, as an instance of C24: the record gets the length `2^32 - 14`. -/
theorem C24_descending_offsets_wrap_witness :
    disorderedStream.length = 86 ∧ streamCount disorderedStream = 1 ∧
    streamOffset disorderedStream 0 = 100 ∧ streamOffset disorderedStream 1 = 86 ∧
    (PDB_ReadFile quietEnv PDB.zero (some disorderedStream)).1 = 0 ∧
    ∃ r, (PDB_ReadFile quietEnv PDB.zero (some disorderedStream)).2.records[0]? = some r ∧
      r.length = 4294967282 :=
  have h0 : streamOffset disorderedStream 0 = 100 := by decide
  have h1 : streamOffset disorderedStream 1 = 86 := by decide
  have h := C24_descending_offsets_wrap quietEnv PDB.zero disorderedStream (fun _ => 0)
    (fun _ => 0) (fun _ _ => 0) rfl rfl rfl (fun _ => rfl) (by decide) (by decide) 0 (by decide)
    (by decide)
  ⟨by decide, by decide, h0, h1, h.1,
    h.2.2.imp fun r hr => ⟨hr.1, by
      have e := hr.2.2.1
      rw [h0, h1] at e
      exact e⟩⟩

end PalmPDB
